import Mathlib

/-!
# blogc-make rule engine (`src/blogc-make/rules.c`) and `blogc` (`src/blogc.c`)

A shallow embedding of the rule engine of `blogc-make`: the staleness test
`bm_rule_need_rebuild`, the output enumerators and the executors of the build
rules, the rule table and the dispatchers `all_exec`, `bm_rule_execute` and
`bm_rule_executor`; and of the function `main` of `blogc`.

Conventions of the embedding.

* A C pointer that the code tests against `NULL` is an `Option`.
* A `bc_slist_t` of file handles is a `List` of optional handles, the `data`
  pointer of a node being allowed to be `NULL`.
* `time_t` and `long` values are mathematical integers (`Int`).
* A C function whose execution can dereference `NULL` returns an `Option`;
  `none` stands for that undefined execution.
* The collaborators that live outside `rules.c` (renderer, `stat`, standard
  error) are parameters; they act on an abstract world `σ`.
-/

set_option autoImplicit false

namespace BlogcMake

/-! ## Data model -/

/-- Modelled from the spec: `bm_filectx_t` of `ctx.h` (the FileHandle of the
data model): path, short path, slug, modification time as seconds and
nanoseconds, and the `readable` flag that is false when `stat` failed. -/
structure bm_filectx_t where
  path : String
  short_path : String
  slug : Option String
  tv_sec : Int
  tv_nsec : Int
  readable : Bool
deriving DecidableEq, Repr

/-- A `bc_slist_t*` whose nodes carry `bm_filectx_t*` data; the empty list is
the `NULL` list. -/
abbrev bc_slist_t := List (Option bm_filectx_t)

/-- Modelled from the spec: `bc_slist_append` of `common/utils.c`, which adds
one node at the end of an ordered list. -/
def bc_slist_append {α : Type} (l : List α) (data : α) : List α :=
  l ++ [data]

/-! ## `bm_rule_need_rebuild` -/

/-- The loop of `bm_rule_need_rebuild` over `sources` (lines 851-855): every
node is appended to `s`, and the loop is left after the first node when
`only_first_source` is set. -/
def need_rebuild_collect (only_first_source : Bool) :
    bc_slist_t → bc_slist_t → bc_slist_t
  | s, [] => s
  | s, data :: l =>
    let s := bc_slist_append s data
    if only_first_source then s else need_rebuild_collect only_first_source s l

/-- The comparison loop of `bm_rule_need_rebuild` (lines 857-875); the value is
the final `rv`. -/
def need_rebuild_scan (output : bm_filectx_t) : bc_slist_t → Bool
  | [] => false
  | none :: _ => true
  | some source :: l =>
    if !source.readable then true
    else if source.tv_sec = output.tv_sec then
      if source.tv_nsec > output.tv_nsec then true
      else need_rebuild_scan output l
    else if source.tv_sec > output.tv_sec then true
    else need_rebuild_scan output l

/-- The function `bm_rule_need_rebuild` (lines 836-880). -/
def bm_rule_need_rebuild (sources : bc_slist_t) (settings template : Option bm_filectx_t)
    (output : Option bm_filectx_t) (only_first_source : Bool) : Bool :=
  match output with
  | none => true
  | some output =>
    if !output.readable then true
    else
      let s : bc_slist_t := []
      let s := if settings ≠ none then bc_slist_append s settings else s
      let s := if template ≠ none then bc_slist_append s template else s
      let s := need_rebuild_collect only_first_source s sources
      need_rebuild_scan output s

/-! ## Strings, tries and numbers from the C library and `common/utils.c` -/

/-- A `bc_trie_t*` with string values, kept as an association list with unique
keys. -/
abbrev bc_trie_t := List (String × String)

/-- Modelled from the spec: `bc_trie_lookup` of `common/utils.c`; the value
stored under `key`, `none` being the `NULL` result for an unknown key. -/
def bc_trie_lookup : bc_trie_t → String → Option String
  | [], _ => none
  | (k, v) :: t, key => if k = key then some v else bc_trie_lookup t key

/-- Modelled from the spec: `bc_trie_insert` of `common/utils.c`; an insert
overwrites the value of an existing key (last write wins) and adds the key
otherwise. The spec is silent about a `NULL` value: nothing is stored for it
here. -/
def bc_trie_insert : bc_trie_t → String → Option String → bc_trie_t
  | t, _, none => t
  | [], key, some data => [(key, data)]
  | (k, v) :: t, key, some data =>
    if k = key then (k, data) :: t else (k, v) :: bc_trie_insert t key (some data)

/-- The C library predicate `isspace` in the "C" locale. -/
def isspace (c : Char) : Bool :=
  c = ' ' || c = '\t' || c = '\n' || c = '\x0b' || c = '\x0c' || c = '\r'

/-- The largest `long` (LP64). -/
def LONG_MAX : Int := 2 ^ 63 - 1

/-- The smallest `long` (LP64). -/
def LONG_MIN : Int := -(2 ^ 63)

/-- Value of the longest run of decimal digits at the head of the text, on top
of the value `acc` read so far. -/
def strtol_digits : List Char → Nat → Nat
  | [], acc => acc
  | c :: cs, acc =>
    if c.isDigit then strtol_digits cs (10 * acc + (c.toNat - '0'.toNat)) else acc

/-- The C library call `strtol(s, NULL, 10)`: white space is skipped, an
optional sign is read, then the longest run of decimal digits; the value is 0
when there is no digit and is clamped to the range of `long`. -/
def strtol (s : String) : Int :=
  let cs := s.toList.dropWhile isspace
  match cs with
  | '-' :: r => max LONG_MIN (-(strtol_digits r 0 : Int))
  | '+' :: r => min LONG_MAX (strtol_digits r 0 : Int)
  | _ => min LONG_MAX (strtol_digits cs 0 : Int)

/-- Binary logarithm rounded down, by repeated halving; exact for
`1 ≤ n < 2 ^ fuel`. -/
def ilog2_fuel : Nat → Nat → Nat
  | 0, _ => 0
  | fuel + 1, n => if n < 2 then 0 else ilog2_fuel fuel (n / 2) + 1

/-- Binary logarithm rounded down of a value below `2 ^ 128`. -/
def ilog2 (n : Nat) : Nat := ilog2_fuel 128 n

/-- IEEE-754 binary32 rounding (to nearest, ties to even) of the positive
rational `num / den`, for a quotient in the normal range of `float`: the result
`(m, E)` stands for the `float` of value `m * 2 ^ (E - 150)`, with a 24-bit
significand `m` and the biased exponent `E` (bias 127, and 23 for the scaling of
the significand). Subtractions of exponents are truncated at 0, so that
`2 ^ (E - 127)` and `2 ^ (127 - E)` are the numerator and the denominator of
`2 ^ (E - 127)`. -/
def round_binary32 (num den : Nat) : Nat × Nat :=
  let E0 := ilog2 num + 127 - ilog2 den
  let E := if den * 2 ^ (E0 - 127) ≤ num * 2 ^ (127 - E0) then E0 else E0 - 1
  let n := num * 2 ^ (150 - E)
  let d := den * 2 ^ (E - 150)
  let q := n / d
  let r := n % d
  let m := if 2 * r > d ∨ (2 * r = d ∧ q % 2 = 1) then q + 1 else q
  (m, E)

/-- The C library call `ceilf` on the `float` of value `m * 2 ^ (E - 150)`, the
result read as an integer. -/
def ceilf (x : Nat × Nat) : Nat :=
  (x.1 * 2 ^ (x.2 - 150) + (2 ^ (150 - x.2) - 1)) / 2 ^ (150 - x.2)

/-- The conversion `(float) n` of a non-negative `long`; the resulting `float`
is an integer, which is the value returned. -/
def float_of_long (n : Nat) : Nat :=
  if n = 0 then 0 else ceilf (round_binary32 n 1)

/-- The expression `ceilf(((float) num_posts) / posts_per_page)` converted to
`size_t` (line 269), for `posts_per_page > 0`: both operands are converted to
`float`, the quotient is rounded to `float`, and `ceilf` is applied to it. -/
def pagination_pages (num_posts : Nat) (posts_per_page : Int) : Nat :=
  let a := float_of_long num_posts
  let b := float_of_long posts_per_page.toNat
  if a = 0 then 0 else ceilf (round_binary32 a b)

/-- The `%zu` conversion of `bc_strdup_printf` applied to a `size_t` value
(line 311): the decimal numeral of the value. A list has fewer than `2 ^ 64`
nodes, so that the counter of a loop over a list does not wrap. -/
def printf_decimal (n : Nat) : String := toString n

/-- The `%d` conversion of `bc_strdup_printf` applied to a `size_t` argument
(line 279, where `i + 1` is passed): on an LP64 target the low 32 bits of the
argument are read as an `int` in two's complement, so that the text is the
decimal numeral of the value only below `2 ^ 31`. -/
def printf_d (n : Nat) : String :=
  if n % 2 ^ 32 < 2 ^ 31 then toString (n % 2 ^ 32)
  else toString ((n % 2 ^ 32 : Nat) - (2 ^ 32 : Int))

/-! ## Build context -/

/-- Modelled from the spec: `bm_settings_t` of `settings.h`; the settings
mapping and the declared posts, pages, copy paths and tags, each of the four
arrays being `NULL` when the section is not declared. -/
structure bm_settings_t where
  settings : bc_trie_t
  posts : Option (List String)
  pages : Option (List String)
  copy : Option (List String)
  tags : Option (List String)
deriving DecidableEq, Repr

/-- Modelled from the spec: `bm_ctx_t` of `ctx.h` (the BuildContext of the
data model). -/
structure bm_ctx_t where
  settings : bm_settings_t
  main_template_fctx : Option bm_filectx_t
  atom_template_fctx : Option bm_filectx_t
  settings_fctx : Option bm_filectx_t
  posts_fctx : bc_slist_t
  pages_fctx : bc_slist_t
  copy_fctx : bc_slist_t
  output_dir : String
  short_output_dir : String
  verbose : Bool
deriving DecidableEq, Repr

/-- The test `s[0] == '\0'` on a C string. -/
def str_is_empty (s : String) : Bool := s.toList.isEmpty

/-- The test `s[0] == '/'` on a C string. -/
def str_starts_with_slash (s : String) : Bool := s.toList.head? = some '/'

/-! ## Output enumerators

`bm_filectx_new` of `ctx.c` builds the handle of a path by calling `stat`; it
is a parameter of every enumerator. It never returns `NULL` for the arguments
used here.

A setting that the code reads without a `NULL` test (its first character, or
through a `%s` conversion) makes the execution undefined when the key is
missing; a setting that is read inside a loop only does so when the loop body
runs. -/

/-- The function `posts_pagination_enabled` (lines 56-66). -/
def posts_pagination_enabled (ctx : Option bm_ctx_t) (var_name : String) : Option Bool :=
  match ctx with
  | none => some false
  | some c =>
    match bc_trie_lookup c.settings.settings var_name with
    | none => none
    | some v => some (strtol v != 0)

/-- An enumeration loop: the handle made from each item is appended to `rv`;
`mk` is undefined on an item when the loop body reads through `NULL` there. -/
def outputlist_loop {α : Type} (mk : α → Option bm_filectx_t) :
    List α → bc_slist_t → Option bc_slist_t
  | [], rv => some rv
  | x :: xs, rv =>
    match mk x with
    | none => none
    | some fctx => outputlist_loop mk xs (bc_slist_append rv (some fctx))

/-- The function `index_outputlist` (lines 71-91). -/
def index_outputlist (bm_filectx_new : bm_ctx_t → String → bm_filectx_t)
    (ctx : Option bm_ctx_t) : Option bc_slist_t :=
  match ctx with
  | none => some []
  | some c =>
    if c.settings.posts = none then some []
    else
      match posts_pagination_enabled ctx "posts_per_page" with
      | none => none
      | some false => some []
      | some true =>
        match bc_trie_lookup c.settings.settings "html_ext",
              bc_trie_lookup c.settings.settings "index_prefix" with
        | some html_ext, some index_pfx =>
          let slash :=
            if str_is_empty index_pfx && str_starts_with_slash html_ext then "" else "/"
          let f := c.short_output_dir ++ slash ++ index_pfx ++ html_ext
          some (bc_slist_append [] (some (bm_filectx_new c f)))
        | _, _ => none

/-- The function `atom_outputlist` (lines 131-150). -/
def atom_outputlist (bm_filectx_new : bm_ctx_t → String → bm_filectx_t)
    (ctx : Option bm_ctx_t) : Option bc_slist_t :=
  match ctx with
  | none => some []
  | some c =>
    if c.settings.posts = none then some []
    else
      match posts_pagination_enabled ctx "atom_posts_per_page" with
      | none => none
      | some false => some []
      | some true =>
        match bc_trie_lookup c.settings.settings "atom_prefix",
              bc_trie_lookup c.settings.settings "atom_ext" with
        | some atom_pfx, some atom_ext =>
          let slash := if str_is_empty atom_pfx then "" else "/"
          let f := c.short_output_dir ++ slash ++ atom_pfx ++ atom_ext
          some (bc_slist_append [] (some (bm_filectx_new c f)))
        | _, _ => none

/-- The function `atom_tags_outputlist` (lines 189-210). -/
def atom_tags_outputlist (bm_filectx_new : bm_ctx_t → String → bm_filectx_t)
    (ctx : Option bm_ctx_t) : Option bc_slist_t :=
  match ctx with
  | none => some []
  | some c =>
    match c.settings.posts, c.settings.tags with
    | some _, some tags =>
      match posts_pagination_enabled ctx "atom_posts_per_page" with
      | none => none
      | some false => some []
      | some true =>
        match bc_trie_lookup c.settings.settings "atom_prefix" with
        | none => none
        | some atom_pfx =>
          let atom_ext := bc_trie_lookup c.settings.settings "atom_ext"
          let slash := if str_is_empty atom_pfx then "" else "/"
          outputlist_loop
            (fun tag => atom_ext.map (fun atom_ext => bm_filectx_new c
              (c.short_output_dir ++ slash ++ atom_pfx ++ "/" ++ tag ++ atom_ext)))
            tags []
    | _, _ => some []

/-- The function `pagination_outputlist` (lines 254-285). -/
def pagination_outputlist (bm_filectx_new : bm_ctx_t → String → bm_filectx_t)
    (ctx : Option bm_ctx_t) : Option bc_slist_t :=
  match ctx with
  | none => some []
  | some c =>
    if c.settings.posts = none then some []
    else
      match bc_trie_lookup c.settings.settings "posts_per_page" with
      | none => none
      | some v =>
        let posts_per_page := strtol v
        if posts_per_page ≤ 0 then some []
        else
          let num_posts := c.posts_fctx.length
          let pages := pagination_pages num_posts posts_per_page
          match bc_trie_lookup c.settings.settings "pagination_prefix" with
          | none => none
          | some pagination_pfx =>
            let html_ext := bc_trie_lookup c.settings.settings "html_ext"
            let slash := if str_is_empty pagination_pfx then "" else "/"
            outputlist_loop
              (fun i => html_ext.map (fun html_ext => bm_filectx_new c
                (c.short_output_dir ++ slash ++ pagination_pfx ++ "/" ++
                  printf_d (i + 1) ++ html_ext)))
              (List.range pages) []

/-- The function `posts_outputlist` (lines 330-350). -/
def posts_outputlist (bm_filectx_new : bm_ctx_t → String → bm_filectx_t)
    (ctx : Option bm_ctx_t) : Option bc_slist_t :=
  match ctx with
  | none => some []
  | some c =>
    match c.settings.posts with
    | none => some []
    | some posts =>
      match bc_trie_lookup c.settings.settings "post_prefix" with
      | none => none
      | some post_pfx =>
        let html_ext := bc_trie_lookup c.settings.settings "html_ext"
        let slash := if str_is_empty post_pfx then "" else "/"
        outputlist_loop
          (fun post => html_ext.map (fun html_ext => bm_filectx_new c
            (c.short_output_dir ++ slash ++ post_pfx ++ "/" ++ post ++ html_ext)))
          posts []

/-- The function `tags_outputlist` (lines 398-419). -/
def tags_outputlist (bm_filectx_new : bm_ctx_t → String → bm_filectx_t)
    (ctx : Option bm_ctx_t) : Option bc_slist_t :=
  match ctx with
  | none => some []
  | some c =>
    match c.settings.posts, c.settings.tags with
    | some _, some tags =>
      match posts_pagination_enabled ctx "posts_per_page" with
      | none => none
      | some false => some []
      | some true =>
        match bc_trie_lookup c.settings.settings "tag_prefix" with
        | none => none
        | some tag_pfx =>
          let html_ext := bc_trie_lookup c.settings.settings "html_ext"
          let slash := if str_is_empty tag_pfx then "" else "/"
          outputlist_loop
            (fun tag => html_ext.map (fun html_ext => bm_filectx_new c
              (c.short_output_dir ++ slash ++ tag_pfx ++ "/" ++ tag ++ html_ext)))
            tags []
    | _, _ => some []

/-- The function `pages_outputlist` (lines 464-483). -/
def pages_outputlist (bm_filectx_new : bm_ctx_t → String → bm_filectx_t)
    (ctx : Option bm_ctx_t) : Option bc_slist_t :=
  match ctx with
  | none => some []
  | some c =>
    match c.settings.pages with
    | none => some []
    | some pages =>
      let html_ext := bc_trie_lookup c.settings.settings "html_ext"
      outputlist_loop
        (fun page => html_ext.map (fun html_ext =>
          let is_index := page = "index" && str_starts_with_slash html_ext
          bm_filectx_new c
            (c.short_output_dir ++ (if is_index then "" else "/") ++
              (if is_index then "" else page) ++ html_ext)))
        pages []

/-- The function `copy_outputlist` (lines 529-545); the loop runs over
`ctx->copy_fctx` and reads the short path of each node, a node without data
making it read through `NULL`. -/
def copy_outputlist (bm_filectx_new : bm_ctx_t → String → bm_filectx_t)
    (ctx : Option bm_ctx_t) : Option bc_slist_t :=
  match ctx with
  | none => some []
  | some c =>
    if c.settings.copy = none then some []
    else
      outputlist_loop
        (fun (s : Option bm_filectx_t) => s.map (fun data => bm_filectx_new c
          (c.short_output_dir ++ "/" ++ data.short_path)))
        c.copy_fctx []

/-! ## Executors

`bm_exec_blogc` of `exec.c` runs the renderer; it is a parameter, acting on an
abstract world `σ` and returning the status of the renderer. -/

/-- The arguments of one call of `bm_exec_blogc`, after the context. -/
structure bm_exec_blogc_args where
  global_variables : bc_trie_t
  local_variables : Option bc_trie_t
  listing : Bool
  template : Option bm_filectx_t
  output : Option bm_filectx_t
  sources : bc_slist_t
  only_first_source : Bool
deriving DecidableEq, Repr

/-- The function `posts_ordering` (lines 25-36). -/
def posts_ordering (ctx : Option bm_ctx_t) (vars : bc_trie_t) (var_name : String) :
    bc_trie_t :=
  match ctx with
  | none => vars
  | some c =>
    let value := bc_trie_lookup c.settings.settings var_name
    if value = some "ASC" ∨ value = some "asc" then vars
    else bc_trie_insert vars "FILTER_REVERSE" (some "1")

/-- The loop of `pagination_exec` (lines 307-320); `page` is incremented on
every node, also on a node that is skipped. -/
def pagination_exec_loop {σ : Type}
    (bm_exec_blogc : bm_ctx_t → bm_exec_blogc_args → σ → Int × σ) (c : bm_ctx_t) :
    bc_slist_t → Nat → bc_trie_t → Int → σ → Int × σ
  | [], _, _, rv, w => (rv, w)
  | none :: l, page, vars, rv, w =>
    pagination_exec_loop bm_exec_blogc c l (page + 1) vars rv w
  | some fctx :: l, page, vars, rv, w =>
    let vars := bc_trie_insert vars "FILTER_PAGE" (some (printf_decimal page))
    if bm_rule_need_rebuild c.posts_fctx c.settings_fctx c.main_template_fctx
        (some fctx) false then
      let r := bm_exec_blogc c
        ⟨vars, none, true, c.main_template_fctx, some fctx, c.posts_fctx, false⟩ w
      if r.1 ≠ 0 then r
      else pagination_exec_loop bm_exec_blogc c l (page + 1) vars r.1 r.2
    else pagination_exec_loop bm_exec_blogc c l (page + 1) vars rv w

/-- The function `pagination_exec` (lines 287-325); `bc_strdup` copies a text
and maps `NULL` to `NULL`. -/
def pagination_exec {σ : Type}
    (bm_exec_blogc : bm_ctx_t → bm_exec_blogc_args → σ → Int × σ)
    (ctx : Option bm_ctx_t) (outputs : bc_slist_t) (_args : Option bc_trie_t) (w : σ) :
    Option (Int × σ) :=
  match ctx with
  | none => some (0, w)
  | some c =>
    if c.settings.posts = none then some (0, w)
    else
      let vars : bc_trie_t := []
      let vars := bc_trie_insert vars "FILTER_PER_PAGE"
        (bc_trie_lookup c.settings.settings "posts_per_page")
      let vars := posts_ordering ctx vars "html_order"
      let vars := bc_trie_insert vars "DATE_FORMAT"
        (bc_trie_lookup c.settings.settings "date_format")
      let vars := bc_trie_insert vars "MAKE_RULE" (some "pagination")
      let vars := bc_trie_insert vars "MAKE_TYPE" (some "post")
      some (pagination_exec_loop bm_exec_blogc c outputs 1 vars 0 w)

/-- The variables that `pagination_exec` builds before its loop (lines
296-305). -/
def pagination_variables (c : bm_ctx_t) : bc_trie_t :=
  let vars : bc_trie_t := []
  let vars := bc_trie_insert vars "FILTER_PER_PAGE"
    (bc_trie_lookup c.settings.settings "posts_per_page")
  let vars := posts_ordering (some c) vars "html_order"
  let vars := bc_trie_insert vars "DATE_FORMAT"
    (bc_trie_lookup c.settings.settings "date_format")
  let vars := bc_trie_insert vars "MAKE_RULE" (some "pagination")
  bc_trie_insert vars "MAKE_TYPE" (some "post")

/-- The function `posts_pagination` (lines 39-53); `strtol` reads through
`NULL` when the setting is missing. -/
def posts_pagination (ctx : Option bm_ctx_t) (vars : bc_trie_t) (var_name : String) :
    Option bc_trie_t :=
  match ctx with
  | none => some vars
  | some c =>
    match bc_trie_lookup c.settings.settings var_name with
    | none => none
    | some v =>
      if strtol v ≥ 0 then
        some (bc_trie_insert (bc_trie_insert vars "FILTER_PAGE" (some "1"))
          "FILTER_PER_PAGE" (some v))
      else some vars

/-- The variables that `index_exec` builds (lines 101-107). -/
def index_variables (c : bm_ctx_t) : Option bc_trie_t :=
  match posts_pagination (some c) [] "posts_per_page" with
  | none => none
  | some vars =>
    let vars := posts_ordering (some c) vars "html_order"
    let vars := bc_trie_insert vars "DATE_FORMAT"
      (bc_trie_lookup c.settings.settings "date_format")
    let vars := bc_trie_insert vars "MAKE_RULE" (some "index")
    some (bc_trie_insert vars "MAKE_TYPE" (some "post"))

/-- The loop of `index_exec` (lines 109-121). -/
def index_exec_loop {σ : Type}
    (bm_exec_blogc : bm_ctx_t → bm_exec_blogc_args → σ → Int × σ) (c : bm_ctx_t)
    (vars : bc_trie_t) : bc_slist_t → Int → σ → Int × σ
  | [], rv, w => (rv, w)
  | none :: l, rv, w => index_exec_loop bm_exec_blogc c vars l rv w
  | some fctx :: l, rv, w =>
    if bm_rule_need_rebuild c.posts_fctx c.settings_fctx c.main_template_fctx
        (some fctx) false then
      let r := bm_exec_blogc c
        ⟨vars, none, true, c.main_template_fctx, some fctx, c.posts_fctx, false⟩ w
      if r.1 ≠ 0 then r
      else index_exec_loop bm_exec_blogc c vars l r.1 r.2
    else index_exec_loop bm_exec_blogc c vars l rv w

/-- The function `index_exec` (lines 93-126). -/
def index_exec {σ : Type}
    (bm_exec_blogc : bm_ctx_t → bm_exec_blogc_args → σ → Int × σ)
    (ctx : Option bm_ctx_t) (outputs : bc_slist_t) (_args : Option bc_trie_t) (w : σ) :
    Option (Int × σ) :=
  match ctx with
  | none => some (0, w)
  | some c =>
    if c.settings.posts = none then some (0, w)
    else
      match index_variables c with
      | none => none
      | some vars => some (index_exec_loop bm_exec_blogc c vars outputs 0 w)

/-- The variables that `atom_exec` and `atom_tags_exec` build (lines 160-165
and 221-226), `rule` being the value of `MAKE_RULE`. -/
def atom_variables (c : bm_ctx_t) (rule : String) : Option bc_trie_t :=
  match posts_pagination (some c) [] "atom_posts_per_page" with
  | none => none
  | some vars =>
    let vars := posts_ordering (some c) vars "atom_order"
    let vars := bc_trie_insert vars "DATE_FORMAT" (some "%Y-%m-%dT%H:%M:%SZ")
    let vars := bc_trie_insert vars "MAKE_RULE" (some rule)
    some (bc_trie_insert vars "MAKE_TYPE" (some "atom"))

/-- The loop of `atom_exec` (lines 167-179): the template is not among the
handles compared with the output. -/
def atom_exec_loop {σ : Type}
    (bm_exec_blogc : bm_ctx_t → bm_exec_blogc_args → σ → Int × σ) (c : bm_ctx_t)
    (vars : bc_trie_t) : bc_slist_t → Int → σ → Int × σ
  | [], rv, w => (rv, w)
  | none :: l, rv, w => atom_exec_loop bm_exec_blogc c vars l rv w
  | some fctx :: l, rv, w =>
    if bm_rule_need_rebuild c.posts_fctx c.settings_fctx none (some fctx) false then
      let r := bm_exec_blogc c
        ⟨vars, none, true, c.atom_template_fctx, some fctx, c.posts_fctx, false⟩ w
      if r.1 ≠ 0 then r
      else atom_exec_loop bm_exec_blogc c vars l r.1 r.2
    else atom_exec_loop bm_exec_blogc c vars l rv w

/-- The function `atom_exec` (lines 152-184). -/
def atom_exec {σ : Type}
    (bm_exec_blogc : bm_ctx_t → bm_exec_blogc_args → σ → Int × σ)
    (ctx : Option bm_ctx_t) (outputs : bc_slist_t) (_args : Option bc_trie_t) (w : σ) :
    Option (Int × σ) :=
  match ctx with
  | none => some (0, w)
  | some c =>
    if c.settings.posts = none then some (0, w)
    else
      match atom_variables c "atom" with
      | none => none
      | some vars => some (atom_exec_loop bm_exec_blogc c vars outputs 0 w)

/-- The read of `ctx->settings->tags[i]` followed by `bc_strdup`: the tag at
index `i`, `NULL` at the closing entry of the array; the outer `none` is a read
past the end of the array. -/
def tags_at (tags : List String) (i : Nat) : Option (Option String) :=
  if i < tags.length then some tags[i]?
  else if i = tags.length then some none
  else none

/-- The loop of `atom_tags_exec` (lines 228-244); `i` is incremented on every
node, also on a node that is skipped. -/
def atom_tags_exec_loop {σ : Type}
    (bm_exec_blogc : bm_ctx_t → bm_exec_blogc_args → σ → Int × σ) (c : bm_ctx_t)
    (tags : List String) : bc_slist_t → Nat → bc_trie_t → Int → σ → Option (Int × σ)
  | [], _, _, rv, w => some (rv, w)
  | none :: l, i, vars, rv, w =>
    atom_tags_exec_loop bm_exec_blogc c tags l (i + 1) vars rv w
  | some fctx :: l, i, vars, rv, w =>
    match tags_at tags i with
    | none => none
    | some tag =>
      let vars := bc_trie_insert vars "FILTER_TAG" tag
      if bm_rule_need_rebuild c.posts_fctx c.settings_fctx none (some fctx) false then
        let r := bm_exec_blogc c
          ⟨vars, none, true, c.atom_template_fctx, some fctx, c.posts_fctx, false⟩ w
        if r.1 ≠ 0 then some r
        else atom_tags_exec_loop bm_exec_blogc c tags l (i + 1) vars r.1 r.2
      else atom_tags_exec_loop bm_exec_blogc c tags l (i + 1) vars rv w

/-- The function `atom_tags_exec` (lines 212-249). -/
def atom_tags_exec {σ : Type}
    (bm_exec_blogc : bm_ctx_t → bm_exec_blogc_args → σ → Int × σ)
    (ctx : Option bm_ctx_t) (outputs : bc_slist_t) (_args : Option bc_trie_t) (w : σ) :
    Option (Int × σ) :=
  match ctx with
  | none => some (0, w)
  | some c =>
    match c.settings.posts, c.settings.tags with
    | some _, some tags =>
      match atom_variables c "atom_tags" with
      | none => none
      | some vars => atom_tags_exec_loop bm_exec_blogc c tags outputs 0 vars 0 w
    | _, _ => some (0, w)

/-- The variables that `posts_exec` builds (lines 360-366). -/
def posts_variables (c : bm_ctx_t) : bc_trie_t :=
  let vars : bc_trie_t := []
  let vars := bc_trie_insert vars "IS_POST" (some "1")
  let vars := bc_trie_insert vars "DATE_FORMAT"
    (bc_trie_lookup c.settings.settings "date_format")
  let vars := posts_ordering (some c) vars "html_order"
  let vars := bc_trie_insert vars "MAKE_RULE" (some "posts")
  bc_trie_insert vars "MAKE_TYPE" (some "post")

/-- The loop of `posts_exec` and of `pages_exec` (lines 370-388 and 501-519),
which are the same text: the sources `s` and the outputs `o` advance together
and the loop ends with the shorter list; the slug is read through the data of
the source node once the output is found stale. -/
def sources_exec_loop {σ : Type}
    (bm_exec_blogc : bm_ctx_t → bm_exec_blogc_args → σ → Int × σ) (c : bm_ctx_t)
    (vars : bc_trie_t) : bc_slist_t → bc_slist_t → Int → σ → Option (Int × σ)
  | [], _, rv, w => some (rv, w)
  | _ :: _, [], rv, w => some (rv, w)
  | _ :: s_next, none :: o_next, rv, w =>
    sources_exec_loop bm_exec_blogc c vars s_next o_next rv w
  | s_data :: s_next, some o_fctx :: o_next, rv, w =>
    if bm_rule_need_rebuild (s_data :: s_next) c.settings_fctx c.main_template_fctx
        (some o_fctx) true then
      match s_data with
      | none => none
      | some s_fctx =>
        let loc := bc_trie_insert [] "MAKE_SLUG" s_fctx.slug
        let r := bm_exec_blogc c
          ⟨vars, some loc, false, c.main_template_fctx, some o_fctx, s_data :: s_next, true⟩ w
        if r.1 ≠ 0 then some r
        else sources_exec_loop bm_exec_blogc c vars s_next o_next r.1 r.2
    else sources_exec_loop bm_exec_blogc c vars s_next o_next rv w

/-- The function `posts_exec` (lines 352-393). -/
def posts_exec {σ : Type}
    (bm_exec_blogc : bm_ctx_t → bm_exec_blogc_args → σ → Int × σ)
    (ctx : Option bm_ctx_t) (outputs : bc_slist_t) (_args : Option bc_trie_t) (w : σ) :
    Option (Int × σ) :=
  match ctx with
  | none => some (0, w)
  | some c =>
    if c.settings.posts = none then some (0, w)
    else sources_exec_loop bm_exec_blogc c (posts_variables c) c.posts_fctx outputs 0 w

/-- The variables that `tags_exec` builds (lines 430-436). -/
def tags_variables (c : bm_ctx_t) : Option bc_trie_t :=
  match posts_pagination (some c) [] "posts_per_page" with
  | none => none
  | some vars =>
    let vars := posts_ordering (some c) vars "html_order"
    let vars := bc_trie_insert vars "DATE_FORMAT"
      (bc_trie_lookup c.settings.settings "date_format")
    let vars := bc_trie_insert vars "MAKE_RULE" (some "tags")
    some (bc_trie_insert vars "MAKE_TYPE" (some "post"))

/-- The loop of `tags_exec` (lines 438-454). -/
def tags_exec_loop {σ : Type}
    (bm_exec_blogc : bm_ctx_t → bm_exec_blogc_args → σ → Int × σ) (c : bm_ctx_t)
    (tags : List String) : bc_slist_t → Nat → bc_trie_t → Int → σ → Option (Int × σ)
  | [], _, _, rv, w => some (rv, w)
  | none :: l, i, vars, rv, w =>
    tags_exec_loop bm_exec_blogc c tags l (i + 1) vars rv w
  | some fctx :: l, i, vars, rv, w =>
    match tags_at tags i with
    | none => none
    | some tag =>
      let vars := bc_trie_insert vars "FILTER_TAG" tag
      if bm_rule_need_rebuild c.posts_fctx c.settings_fctx c.main_template_fctx
          (some fctx) false then
        let r := bm_exec_blogc c
          ⟨vars, none, true, c.main_template_fctx, some fctx, c.posts_fctx, false⟩ w
        if r.1 ≠ 0 then some r
        else tags_exec_loop bm_exec_blogc c tags l (i + 1) vars r.1 r.2
      else tags_exec_loop bm_exec_blogc c tags l (i + 1) vars rv w

/-- The function `tags_exec` (lines 421-459). -/
def tags_exec {σ : Type}
    (bm_exec_blogc : bm_ctx_t → bm_exec_blogc_args → σ → Int × σ)
    (ctx : Option bm_ctx_t) (outputs : bc_slist_t) (_args : Option bc_trie_t) (w : σ) :
    Option (Int × σ) :=
  match ctx with
  | none => some (0, w)
  | some c =>
    match c.settings.posts, c.settings.tags with
    | some _, some tags =>
      match tags_variables c with
      | none => none
      | some vars => tags_exec_loop bm_exec_blogc c tags outputs 0 vars 0 w
    | _, _ => some (0, w)

/-- The variables that `pages_exec` builds (lines 493-497). -/
def pages_variables (c : bm_ctx_t) : bc_trie_t :=
  let vars : bc_trie_t := []
  let vars := bc_trie_insert vars "DATE_FORMAT"
    (bc_trie_lookup c.settings.settings "date_format")
  let vars := bc_trie_insert vars "MAKE_RULE" (some "pages")
  bc_trie_insert vars "MAKE_TYPE" (some "page")

/-- The function `pages_exec` (lines 485-524). -/
def pages_exec {σ : Type}
    (bm_exec_blogc : bm_ctx_t → bm_exec_blogc_args → σ → Int × σ)
    (ctx : Option bm_ctx_t) (outputs : bc_slist_t) (_args : Option bc_trie_t) (w : σ) :
    Option (Int × σ) :=
  match ctx with
  | none => some (0, w)
  | some c =>
    if c.settings.pages = none then some (0, w)
    else sources_exec_loop bm_exec_blogc c (pages_variables c) c.pages_fctx outputs 0 w

/-- The arguments of one call of `bm_exec_native_cp` of `exec-native.c`: the
source handle, which is the data of the source node, the output handle and the
verbosity flag. -/
abbrev bm_exec_native_cp_args := Option bm_filectx_t × bm_filectx_t × Bool

/-- The loop of `copy_exec` (lines 557-569). -/
def copy_exec_loop {σ : Type}
    (bm_exec_native_cp : bm_exec_native_cp_args → σ → Int × σ) (c : bm_ctx_t) :
    bc_slist_t → bc_slist_t → Int → σ → Int × σ
  | [], _, rv, w => (rv, w)
  | _ :: _, [], rv, w => (rv, w)
  | _ :: s_next, none :: o_next, rv, w =>
    copy_exec_loop bm_exec_native_cp c s_next o_next rv w
  | s_data :: s_next, some o_fctx :: o_next, rv, w =>
    if bm_rule_need_rebuild (s_data :: s_next) c.settings_fctx none (some o_fctx) true then
      let r := bm_exec_native_cp (s_data, o_fctx, c.verbose) w
      if r.1 ≠ 0 then r
      else copy_exec_loop bm_exec_native_cp c s_next o_next r.1 r.2
    else copy_exec_loop bm_exec_native_cp c s_next o_next rv w

/-- The function `copy_exec` (lines 547-572). -/
def copy_exec {σ : Type}
    (bm_exec_native_cp : bm_exec_native_cp_args → σ → Int × σ)
    (ctx : Option bm_ctx_t) (outputs : bc_slist_t) (_args : Option bc_trie_t) (w : σ) :
    Option (Int × σ) :=
  match ctx with
  | none => some (0, w)
  | some c =>
    if c.settings.copy = none then some (0, w)
    else some (copy_exec_loop bm_exec_native_cp c c.copy_fctx outputs 0 w)

/-- The arguments of one call of `bm_exec_native_rm` of `exec-native.c`: the
output directory, the handle to remove and the verbosity flag. -/
abbrev bm_exec_native_rm_args := String × bm_filectx_t × Bool

/-- The loop of `clean_exec` (lines 588-598). -/
def clean_exec_loop {σ : Type}
    (bm_exec_native_rm : bm_exec_native_rm_args → σ → Int × σ) (c : bm_ctx_t) :
    bc_slist_t → Int → σ → Int × σ
  | [], rv, w => (rv, w)
  | none :: l, rv, w => clean_exec_loop bm_exec_native_rm c l rv w
  | some fctx :: l, rv, w =>
    if fctx.readable then
      let r := bm_exec_native_rm (c.output_dir, fctx, c.verbose) w
      if r.1 ≠ 0 then r
      else clean_exec_loop bm_exec_native_rm c l r.1 r.2
    else clean_exec_loop bm_exec_native_rm c l rv w

/-- The function `clean_exec` (lines 583-605); the context is read without a
`NULL` test. `bm_exec_native_is_empty_dir` reads the world and the warning goes
to the standard error stream. -/
def clean_exec {σ : Type}
    (bm_exec_native_rm : bm_exec_native_rm_args → σ → Int × σ)
    (bm_exec_native_is_empty_dir : String → σ → Bool)
    (fprintf_stderr : String → σ → σ)
    (ctx : Option bm_ctx_t) (outputs : bc_slist_t) (_args : Option bc_trie_t) (w : σ) :
    Option (Int × σ) :=
  match ctx with
  | none => none
  | some c =>
    let r := clean_exec_loop bm_exec_native_rm c outputs 0 w
    let w := if !bm_exec_native_is_empty_dir c.output_dir r.2 then
        fprintf_stderr "blogc-make: warning: output directory is not empty!\n" r.2
      else r.2
    some (r.1, w)

/-! ## Rule table and dispatch -/

/-- Type of the `outputlist_func` member of a rule; the enumerator reads the
world through `stat`. -/
abbrev bm_rule_outputlist_func (σ : Type) := Option bm_ctx_t → σ → Option bc_slist_t

/-- Type of the `exec_func` member of a rule. -/
abbrev bm_rule_exec_func (σ : Type) :=
  Option bm_ctx_t → bc_slist_t → Option bc_trie_t → σ → Option (Int × σ)

/-- The type `bm_rule_t` of `rules.h`. -/
structure bm_rule_t (σ : Type) where
  name : String
  help : String
  outputlist_func : Option (bm_rule_outputlist_func σ)
  exec_func : bm_rule_exec_func σ
  generate_files : Bool

/-- The functions that the rule table points to, and the writer of messages
to the standard error stream. -/
structure bm_rule_funcs (σ : Type) where
  all_exec : bm_rule_exec_func σ
  index_outputlist : bm_rule_outputlist_func σ
  index_exec : bm_rule_exec_func σ
  atom_outputlist : bm_rule_outputlist_func σ
  atom_exec : bm_rule_exec_func σ
  atom_tags_outputlist : bm_rule_outputlist_func σ
  atom_tags_exec : bm_rule_exec_func σ
  pagination_outputlist : bm_rule_outputlist_func σ
  pagination_exec : bm_rule_exec_func σ
  posts_outputlist : bm_rule_outputlist_func σ
  posts_exec : bm_rule_exec_func σ
  tags_outputlist : bm_rule_outputlist_func σ
  tags_exec : bm_rule_exec_func σ
  pages_outputlist : bm_rule_outputlist_func σ
  pages_exec : bm_rule_exec_func σ
  copy_outputlist : bm_rule_outputlist_func σ
  copy_exec : bm_rule_exec_func σ
  clean_outputlist : bm_rule_outputlist_func σ
  clean_exec : bm_rule_exec_func σ
  runserver_exec : bm_rule_exec_func σ
  watch_exec : bm_rule_exec_func σ
  fprintf_stderr : String → σ → σ

/-- The table `rules` (lines 629-717), as a function of the code its entries
point to: names, help texts, flags and the order of the entries are those of
the source. The closing entry with a `NULL` name is the end of the list. -/
def rules {σ : Type} (f : bm_rule_funcs σ) : List (bm_rule_t σ) :=
  [ ⟨"all", "run all build rules", none, f.all_exec, false⟩,
    ⟨"index", "build website index from posts",
      some f.index_outputlist, f.index_exec, true⟩,
    ⟨"atom", "build main atom feed from posts",
      some f.atom_outputlist, f.atom_exec, true⟩,
    ⟨"atom_tags", "build atom feeds for each tag from posts",
      some f.atom_tags_outputlist, f.atom_tags_exec, true⟩,
    ⟨"pagination", "build pagination pages from posts",
      some f.pagination_outputlist, f.pagination_exec, true⟩,
    ⟨"posts", "build individual pages for each post",
      some f.posts_outputlist, f.posts_exec, true⟩,
    ⟨"tags", "build post listings for each tag from posts",
      some f.tags_outputlist, f.tags_exec, true⟩,
    ⟨"pages", "build individual pages for each page",
      some f.pages_outputlist, f.pages_exec, true⟩,
    ⟨"copy", "copy static files from source directory to output directory",
      some f.copy_outputlist, f.copy_exec, true⟩,
    ⟨"clean", "clean built files and empty directories in output directory",
      some f.clean_outputlist, f.clean_exec, false⟩,
    ⟨"runserver",
      "run blogc-runserver pointing to output directory, if available,\n" ++
      "                  rebuilding as needed\n" ++
      "                  arguments: host (127.0.0.1), port (8080) and threads (20)",
      none, f.runserver_exec, false⟩,
    ⟨"watch", "watch for changes in the source files, rebuilding as needed",
      none, f.watch_exec, false⟩ ]

/-- The function `bm_rule_execute` (lines 817-833). -/
def bm_rule_execute {σ : Type} (ctx : Option bm_ctx_t) (rule : Option (bm_rule_t σ))
    (args : Option bc_trie_t) (w : σ) : Option (Int × σ) :=
  match ctx, rule with
  | none, _ => some (3, w)
  | _, none => some (3, w)
  | some _, some rule =>
    let outputs : Option bc_slist_t :=
      match rule.outputlist_func with
      | none => some []
      | some outputlist_func => outputlist_func ctx w
    match outputs with
    | none => none
    | some outputs => rule.exec_func ctx outputs args w

/-- The loop of `all_exec` (lines 725-735) over the entries of the table. -/
def all_exec_loop {σ : Type} (ctx : Option bm_ctx_t) :
    List (bm_rule_t σ) → σ → Option (Int × σ)
  | [], w => some (0, w)
  | rule :: rest, w =>
    if !rule.generate_files then all_exec_loop ctx rest w
    else
      match bm_rule_execute ctx (some rule) none w with
      | none => none
      | some (rv, w) => if rv ≠ 0 then some (rv, w) else all_exec_loop ctx rest w

/-- The function `all_exec` (lines 722-736). -/
def all_exec {σ : Type} (f : bm_rule_funcs σ) (ctx : Option bm_ctx_t)
    (_outputs : bc_slist_t) (_args : Option bc_trie_t) (w : σ) : Option (Int × σ) :=
  all_exec_loop ctx (rules f) w

/-- The inner loop of `bm_rule_list_built_files` (lines 896-898). -/
def built_files_append : bc_slist_t → bc_slist_t → bc_slist_t
  | rv, [] => rv
  | rv, data :: l => built_files_append (bc_slist_append rv data) l

/-- The outer loop of `bm_rule_list_built_files` (lines 890-900); calling a
`NULL` enumerator is an undefined execution. -/
def built_files_loop {σ : Type} (ctx : Option bm_ctx_t) (w : σ) :
    List (bm_rule_t σ) → bc_slist_t → Option bc_slist_t
  | [], rv => some rv
  | rule :: rest, rv =>
    if !rule.generate_files then built_files_loop ctx w rest rv
    else
      match rule.outputlist_func with
      | none => none
      | some outputlist_func =>
        match outputlist_func ctx w with
        | none => none
        | some o => built_files_loop ctx w rest (built_files_append rv o)

/-- The function `bm_rule_list_built_files` (lines 883-902). -/
def bm_rule_list_built_files {σ : Type} (f : bm_rule_funcs σ) (ctx : Option bm_ctx_t)
    (w : σ) : Option bc_slist_t :=
  match ctx with
  | none => some []
  | some _ => built_files_loop ctx w (rules f) []

/-- The function `clean_outputlist` (lines 577-581). -/
def clean_outputlist {σ : Type} (f : bm_rule_funcs σ) (ctx : Option bm_ctx_t) (w : σ) :
    Option bc_slist_t :=
  bm_rule_list_built_files f ctx w

/-- The C library call `strchr(s, c)`: the offset of the first `c` in the
text, `none` being the `NULL` result. -/
def strchr : List Char → Char → Option Nat
  | [], _ => none
  | x :: xs, c => if x = c then some 0 else (strchr xs c).map (· + 1)

/-- The test `strncmp(s1, s2, n) == 0` of the C library: the two texts agree
on their first `n` characters, or end together before that. -/
def strncmp_zero : List Char → List Char → Nat → Bool
  | _, _, 0 => true
  | [], [], _ + 1 => true
  | c1 :: s1, c2 :: s2, n + 1 => c1 = c2 && strncmp_zero s1 s2 n
  | [], _ :: _, _ + 1 => false
  | _ :: _, [], _ + 1 => false

/-- The loop of `bm_rule_parse_args` (lines 748-764) on the text at `end`;
`none` is the `NULL` result, returned when the text at `end` holds no `=`.
Every round consumes at least one character, so that a fuel of the length of
the text plus one is never used up. -/
def parse_args_loop : Nat → List Char → bc_trie_t → Option bc_trie_t
  | 0, _, _ => none
  | fuel + 1, end_, rv =>
    match strchr end_ '=' with
    | none => none
    | some i =>
      let key := String.mk (end_.take i)
      let end_ := end_.drop (i + 1)
      match strchr end_ ',' with
      | none => some (bc_trie_insert rv key (some (String.mk end_)))
      | some j =>
        parse_args_loop fuel (end_.drop (j + 1))
          (bc_trie_insert rv key (some (String.mk (end_.take j))))

/-- The function `bm_rule_parse_args` (lines 739-766). -/
def bm_rule_parse_args (sep : Option String) : Option bc_trie_t :=
  match sep with
  | none => none
  | some sep =>
    match sep.toList with
    | ':' :: end_ => parse_args_loop (end_.length + 1) end_ []
    | _ => none

/-- The loop of `bm_rule_executor` over the table (lines 796-805) for one
invocation string; `n` is `sep - rule_str`. The result holds: whether the
function returned from inside the loop, whether `rule` is set, `rv` and the
world. Rule names are ASCII, so that the length of a name in characters is its
`strlen`. -/
def executor_rules_loop {σ : Type} (ctx : Option bm_ctx_t) (rule_str : List Char) (n : Nat)
    (args : Option bc_trie_t) :
    List (bm_rule_t σ) → Bool → Int → σ → Option (Bool × Bool × Int × σ)
  | [], found, rv, w => some (false, found, rv, w)
  | rule :: rest, found, rv, w =>
    if rule.name.length < n then executor_rules_loop ctx rule_str n args rest found rv w
    else if strncmp_zero rule_str rule.name.toList n then
      match bm_rule_execute ctx (some rule) args w with
      | none => none
      | some (rv, w) =>
        if rv ≠ 0 then some (true, true, rv, w)
        else executor_rules_loop ctx rule_str n args rest true rv w
    else executor_rules_loop ctx rule_str n args rest found rv w

/-- The loop of `bm_rule_executor` over the invocation strings (lines
778-811). -/
def executor_loop {σ : Type} (f : bm_rule_funcs σ) (ctx : Option bm_ctx_t) :
    List String → Int → σ → Option (Int × σ)
  | [], rv, w => some (rv, w)
  | rule_str :: l, rv, w =>
    let cs := rule_str.toList
    let sep := strchr cs ':'
    let n := match sep with
      | none => cs.length
      | some i => i
    let args := match sep with
      | none => none
      | some i => bm_rule_parse_args (some (String.mk (cs.drop i)))
    let w := if sep ≠ none ∧ args = none then
        f.fprintf_stderr
          ("blogc-make: warning: failed to parse rule arguments, ignoring: " ++
            rule_str ++ "\n") w
      else w
    match executor_rules_loop ctx cs n args (rules f) false rv w with
    | none => none
    | some (true, _, rv, w) => some (rv, w)
    | some (false, false, _, w) =>
      executor_loop f ctx l 3
        (f.fprintf_stderr
          ("blogc-make: error: rule not found: " ++ String.mk (cs.take n) ++ "\n") w)
    | some (false, true, rv, w) => executor_loop f ctx l rv w

/-- The function `bm_rule_executor` (lines 769-814). -/
def bm_rule_executor {σ : Type} (f : bm_rule_funcs σ) (ctx : Option bm_ctx_t)
    (rule_list : List String) (w : σ) : Option (Int × σ) :=
  match ctx with
  | none => some (3, w)
  | some _ => executor_loop f ctx rule_list 0 w

/-! ## The command line of `blogc` (`blogc.c`)

C strings are lists of characters, one per byte. The parsers, the renderer,
the UTF-8 validator, the string splitter and the calls of the C library are
taken as given; `S`, `T` and `E` are the types of parsed sources, parsed
templates and errors. -/

/-- The code outside `blogc.c` that `main` calls, and the two texts of the
build configuration. `fopen_w` opens a file for writing and tells whether it
succeeded; `fputs` writes a text to the file of the given name, or to the
standard output when no name is given. -/
structure blogc_env (σ S T E : Type) where
  PACKAGE_VERSION : String
  PACKAGE_STRING : String
  blogc_utf8_validate : List Char → Bool
  sb_str_split : List Char → Char → Nat → List (List Char)
  printf : String → σ → σ
  fprintf_stderr : String → σ → σ
  blogc_source_parse_from_files : bc_trie_t → List (List Char) → σ →
    S × Option E × bc_trie_t × σ
  blogc_error_print : E → σ → σ
  blogc_template_parse_from_file : List Char → σ → T × Option E × σ
  blogc_debug_template : T → σ → σ
  blogc_render : T → S → bc_trie_t → Bool → σ → Option (List Char) × σ
  mkdir : List Char → σ → Int × σ
  errno : σ → Int
  EEXIST : Int
  strerror : Int → String
  fopen_w : List Char → σ → Bool × σ
  fputs : Option (List Char) → List Char → σ → σ
  fclose : List Char → σ → σ

/-- The text printed by `blogc_print_help` (lines 38-59). -/
def blogc_help_text : String :=
  "usage:\n" ++
  "    blogc [-h] [-v] [-d] [-l] [-D KEY=VALUE ...] [-p KEY] [-t TEMPLATE]\n" ++
  "          [-o OUTPUT] [SOURCE ...] - A blog compiler.\n" ++
  "\n" ++
  "positional arguments:\n" ++
  "    SOURCE        source file(s)\n" ++
  "\n" ++
  "optional arguments:\n" ++
  "    -h            show this help message and exit\n" ++
  "    -v            show version and exit\n" ++
  "    -d            enable debug\n" ++
  "    -l            build listing page, from multiple source files\n" ++
  "    -D KEY=VALUE  set global configuration parameter\n" ++
  "    -p KEY        show the value of a global configuration parameter\n" ++
  "                  after source parsing and exit\n" ++
  "    -t TEMPLATE   template file\n" ++
  "    -o OUTPUT     output file\n"

/-- The text printed by `blogc_print_usage` (lines 62-68). -/
def blogc_usage_text : String :=
  "usage: blogc [-h] [-v] [-d] [-l] [-D KEY=VALUE ...] [-p KEY] [-t TEMPLATE]\n" ++
  "             [-o OUTPUT] [SOURCE ...]\n"

/-- The loop of `blogc_mkdir_recursive` (lines 75-101), built with
`sys/stat.h` and not for Windows: `seen` is the part of the file name before
the character at hand. The first component of the result tells that the
function called `exit(2)`. -/
def blogc_mkdir_recursive_loop {σ S T E : Type} (env : blogc_env σ S T E) :
    List Char → List Char → σ → Bool × σ
  | _, [], w => (false, w)
  | seen, ch :: rest, w =>
    if ch ≠ '/' ∧ ch ≠ '\\' then blogc_mkdir_recursive_loop env (seen ++ [ch]) rest w
    else if seen.length > 0 then
      let r := env.mkdir seen w
      if r.1 = -1 ∧ env.errno r.2 ≠ env.EEXIST then
        (true, env.fprintf_stderr
          ("blogc: error: failed to create output directory (" ++ String.mk seen ++
            "): " ++ env.strerror (env.errno r.2) ++ "\n") r.2)
      else blogc_mkdir_recursive_loop env (seen ++ [ch]) rest r.2
    else blogc_mkdir_recursive_loop env (seen ++ [ch]) rest w

/-- The function `blogc_mkdir_recursive` (lines 71-103). -/
def blogc_mkdir_recursive {σ S T E : Type} (env : blogc_env σ S T E)
    (filename : List Char) (w : σ) : Bool × σ :=
  blogc_mkdir_recursive_loop env [] filename w

/-- The local variables of `main` that the scan of the command line sets
(lines 113-123). -/
structure main_options where
  debug : Bool
  listing : Bool
  template : Option (List Char)
  output : Option (List Char)
  print : Option (List Char)
  sources : List (List Char)
  config : bc_trie_t

/-- The test of one character of a configuration key (lines 179-180). -/
def config_key_char (ch : Char) : Bool :=
  (decide ('A'.toNat ≤ ch.toNat) && decide (ch.toNat ≤ 'Z'.toNat)) || ch = '_'

/-- The treatment of the text `tmp` of a `-D` argument (lines 165-192): the
result is the status and the world with which `main` goes to `cleanup`, or the
new configuration. The branch for a text that is not valid UTF-8 goes to
`cleanup` without assigning `rv`, which is 0 during the scan. -/
def main_define {σ S T E : Type} (env : blogc_env σ S T E) (tmp : List Char)
    (config : bc_trie_t) (w : σ) : Except (Int × σ) bc_trie_t :=
  if !env.blogc_utf8_validate tmp then
    .error (0, env.fprintf_stderr
      ("blogc: error: invalid value for -D (must be valid UTF-8 string): " ++
        String.mk tmp ++ "\n") w)
  else
    match env.sb_str_split tmp '=' 2 with
    | [key, value] =>
      if key.all config_key_char then
        .ok (bc_trie_insert config (String.mk key) (some (String.mk value)))
      else
        .error (2, env.fprintf_stderr
          ("blogc: error: invalid value for -D (configuration key must be uppercase " ++
            "with '_'): " ++ String.mk key ++ "\n") w)
    | _ =>
      .error (2, env.fprintf_stderr
        ("blogc: error: invalid value for -D (must have an '='): " ++
          String.mk tmp ++ "\n") w)

/-- The scan of the command line by `main` (lines 125-205), on the arguments
from the one at hand on. The first component of the result is the status with
which `main` goes to `cleanup` from inside the loop, if it does. `c` is
`argv[i][1]`, the NUL character when the argument is `-` alone, and `value` is
the text at `argv[i] + 2`; an option without such a text takes the next
argument, if there is one. -/
def main_args_loop {σ S T E : Type} (env : blogc_env σ S T E) :
    List (List Char) → main_options → σ → Option Int × main_options × σ
  | [], o, w => (none, o, w)
  | arg :: rest, o, w =>
    match arg with
    | '-' :: opt =>
      let c := opt.headD (Char.ofNat 0)
      let value := opt.drop 1
      if c = 'h' then (some 0, o, env.printf blogc_help_text w)
      else if c = 'v' then (some 0, o, env.printf (env.PACKAGE_STRING ++ "\n") w)
      else if c = 'd' then main_args_loop env rest { o with debug := true } w
      else if c = 'l' then main_args_loop env rest { o with listing := true } w
      else if c = 't' then
        if value ≠ [] then main_args_loop env rest { o with template := some value } w
        else
          match rest with
          | next :: rest2 => main_args_loop env rest2 { o with template := some next } w
          | [] => (none, o, w)
      else if c = 'o' then
        if value ≠ [] then main_args_loop env rest { o with output := some value } w
        else
          match rest with
          | next :: rest2 => main_args_loop env rest2 { o with output := some next } w
          | [] => (none, o, w)
      else if c = 'p' then
        if value ≠ [] then main_args_loop env rest { o with print := some value } w
        else
          match rest with
          | next :: rest2 => main_args_loop env rest2 { o with print := some next } w
          | [] => (none, o, w)
      else if c = 'D' then
        if value ≠ [] then
          match main_define env value o.config w with
          | .error r => (some r.1, o, r.2)
          | .ok config => main_args_loop env rest { o with config := config } w
        else
          match rest with
          | tmp :: rest2 =>
            match main_define env tmp o.config w with
            | .error r => (some r.1, o, r.2)
            | .ok config => main_args_loop env rest2 { o with config := config } w
          | [] => (none, o, w)
      else
        (some 2, o, env.fprintf_stderr
          ("blogc: error: invalid argument: -" ++ String.mk [c] ++ "\n")
          (env.printf blogc_usage_text w))
    | _ => main_args_loop env rest { o with sources := o.sources ++ [arg] } w

/-- The part of `main` after the scan of the command line (lines 207-296). -/
def main_render {σ S T E : Type} (env : blogc_env σ S T E) (o : main_options) (w : σ) :
    Int × σ :=
  if !o.listing ∧ o.sources.length = 0 then
    (2, env.fprintf_stderr "blogc: error: one source file is required\n"
      (env.printf blogc_usage_text w))
  else if !o.listing ∧ o.sources.length > 1 then
    (2, env.fprintf_stderr
      ("blogc: error: only one source file should be provided, " ++
        "if running without '-l'\n")
      (env.printf blogc_usage_text w))
  else
    let p := env.blogc_source_parse_from_files o.config o.sources w
    match p.2.1 with
    | some err => (2, env.blogc_error_print err p.2.2.2)
    | none =>
      let s := p.1
      let config := p.2.2.1
      let w := p.2.2.2
      match o.print with
      | some print =>
        match bc_trie_lookup config (String.mk print) with
        | none =>
          (2, env.fprintf_stderr
            ("blogc: error: configuration variable not found: " ++ String.mk print ++
              "\n") w)
        | some val => (0, env.printf (val ++ "\n") w)
      | none =>
        match o.template with
        | none =>
          (2, env.fprintf_stderr
            "blogc: error: argument -t is required when rendering content\n"
            (env.printf blogc_usage_text w))
        | some template =>
          let t := env.blogc_template_parse_from_file template w
          match t.2.1 with
          | some err => (2, env.blogc_error_print err t.2.2)
          | none =>
            let l := t.1
            let w := if o.debug then env.blogc_debug_template l t.2.2 else t.2.2
            let r := env.blogc_render l s config o.listing w
            let out := r.1
            let w := r.2
            let write_to_stdout := o.output = none ∨ o.output = some ['-']
            if write_to_stdout then
              (0, match out with
                | some text => env.fputs none text w
                | none => w)
            else
              let output := o.output.getD []
              let m := blogc_mkdir_recursive env output w
              if m.1 then (2, m.2)
              else
                let f := env.fopen_w output m.2
                if !f.1 then
                  (2, env.fprintf_stderr
                    ("blogc: error: failed to open output file (" ++ String.mk output ++
                      "): " ++ env.strerror (env.errno f.2) ++ "\n") f.2)
                else
                  (0, env.fclose output
                    (match out with
                      | some text => env.fputs (some output) text f.2
                      | none => f.2))

/-- The function `main` (lines 106-297); `argv` holds the program name and the
arguments. -/
def main {σ S T E : Type} (env : blogc_env σ S T E) (argv : List (List Char)) (w : σ) :
    Int × σ :=
  let config := bc_trie_insert [] "BLOGC_VERSION" (some env.PACKAGE_VERSION)
  let r := main_args_loop env argv.tail ⟨false, false, none, none, none, [], config⟩ w
  match r.1 with
  | some rv => (rv, r.2.2)
  | none => main_render env r.2.1 r.2.2

/-! ## Vocabulary of the statements -/

/-- A handle forces a rebuild of `output` when it is absent, unreadable, or
strictly newer than `output` in the lexicographic order on
`(tv_sec, tv_nsec)`. -/
def forces_rebuild (output : bm_filectx_t) (h : Option bm_filectx_t) : Prop :=
  match h with
  | none => True
  | some f =>
    f.readable = false ∨ f.tv_sec > output.tv_sec ∨
      (f.tv_sec = output.tv_sec ∧ f.tv_nsec > output.tv_nsec)

/-- The handles compared with the output: the settings handle if present, the
template handle if present, then the first source or all the sources. -/
def comparison_set (sources : bc_slist_t) (settings template : Option bm_filectx_t)
    (only_first_source : Bool) : bc_slist_t :=
  (match settings with | none => [] | some f => [some f]) ++
  (match template with | none => [] | some f => [some f]) ++
  (if only_first_source then sources.take 1 else sources)

/-- A world that records the executions of rules: the name of the rule and
the arguments it was given, in order of execution. -/
abbrev exec_log := List (String × Option bc_trie_t)

/-- An executor that records its execution under `name` and returns the
status `st name`. -/
def recording_exec (st : String → Int) (name : String) : bm_rule_exec_func exec_log :=
  fun _ _ args w => some (st name, w ++ [(name, args)])

/-- The functions of the table replaced by recording executors that return
the statuses `st`; the enumerators return the outputs `outs` assigns to the
rule and nothing is written to the standard error stream. -/
def recording_funcs (st : String → Int) (outs : String → bc_slist_t) :
    bm_rule_funcs exec_log where
  all_exec := recording_exec st "all"
  index_outputlist := fun _ _ => some (outs "index")
  index_exec := recording_exec st "index"
  atom_outputlist := fun _ _ => some (outs "atom")
  atom_exec := recording_exec st "atom"
  atom_tags_outputlist := fun _ _ => some (outs "atom_tags")
  atom_tags_exec := recording_exec st "atom_tags"
  pagination_outputlist := fun _ _ => some (outs "pagination")
  pagination_exec := recording_exec st "pagination"
  posts_outputlist := fun _ _ => some (outs "posts")
  posts_exec := recording_exec st "posts"
  tags_outputlist := fun _ _ => some (outs "tags")
  tags_exec := recording_exec st "tags"
  pages_outputlist := fun _ _ => some (outs "pages")
  pages_exec := recording_exec st "pages"
  copy_outputlist := fun _ _ => some (outs "copy")
  copy_exec := recording_exec st "copy"
  clean_outputlist := fun _ _ => some (outs "clean")
  clean_exec := recording_exec st "clean"
  runserver_exec := recording_exec st "runserver"
  watch_exec := recording_exec st "watch"
  fprintf_stderr := fun _ w => w

/-- The names of a list of rules up to and including the first one whose
status is not 0. -/
def run_until_failure (st : String → Int) : List String → List String
  | [] => []
  | name :: rest => if st name ≠ 0 then [name] else name :: run_until_failure st rest

/-- The first status that is not 0 among those of a list of rules, 0 when
there is none. -/
def first_failure (st : String → Int) : List String → Int
  | [] => 0
  | name :: rest => if st name ≠ 0 then st name else first_failure st rest

/-- The names of the table entries, in table order. -/
def rule_names : List String :=
  ["all", "index", "atom", "atom_tags", "pagination", "posts", "tags", "pages",
    "copy", "clean", "runserver", "watch"]

/-- The names of the entries flagged `generate_files`, in table order. -/
def build_rule_names : List String :=
  ["index", "atom", "atom_tags", "pagination", "posts", "tags", "pages", "copy"]

/-- An output handle with modification time (100, 0). -/
def sample_output : bm_filectx_t :=
  ⟨"/site/_build/a.html", "_build/a.html", none, 100, 0, true⟩

/-- A source handle with modification time (100, 500). -/
def sample_source : bm_filectx_t :=
  ⟨"/site/content/a.txt", "content/a.txt", some "a", 100, 500, true⟩

/-- The handle of a source whose `stat` failed: not readable, with a zero
modification time. -/
def sample_missing_source : bm_filectx_t :=
  ⟨"/site/content/a.txt", "content/a.txt", some "a", 0, 0, false⟩

/-- A handle maker for an output directory in which no file exists yet: every
output is reported as not readable. -/
def sample_filectx_new (_c : bm_ctx_t) (f : String) : bm_filectx_t :=
  ⟨f, f, none, 0, 0, false⟩

/-- A context that declares `n` posts, with the given `posts_per_page` text and
the default pagination prefix and extension. -/
def sample_ctx (n : Nat) (posts_per_page : String) : bm_ctx_t :=
  ⟨⟨[("posts_per_page", posts_per_page), ("pagination_prefix", "page"),
      ("html_ext", "/index.html")],
      some (List.replicate n "post"), none, none, none⟩,
    some sample_source, none, some sample_source,
    List.replicate n (some sample_source), [], [], "/site/_build", "_build", false⟩

/-- A world that records the calls of the renderer, in order. -/
abbrev blogc_log := List bm_exec_blogc_args

/-- A renderer that records its call and returns the status `st` gives to
it. -/
def recording_blogc (st : bm_exec_blogc_args → Int) :
    bm_ctx_t → bm_exec_blogc_args → blogc_log → Int × blogc_log :=
  fun _ a w => (st a, w ++ [a])

/-- What is observed of a call of the renderer made by `pagination_exec`: the
output it is made for and the values of `FILTER_PAGE` and `FILTER_PER_PAGE`. -/
def pagination_call_view (a : bm_exec_blogc_args) :
    Option bm_filectx_t × Option String × Option String :=
  (a.output, bc_trie_lookup a.global_variables "FILTER_PAGE",
    bc_trie_lookup a.global_variables "FILTER_PER_PAGE")

/-- The view expected for the output at position `k` (counted from 1) of an
output list: none when the node is empty or the output is not stale, else the
output with the decimal numeral of `k` and the `posts_per_page` text. -/
def pagination_expected_view (c : bm_ctx_t) (v : String)
    (ko : Nat × Option bm_filectx_t) :
    Option (Option bm_filectx_t × Option String × Option String) :=
  match ko.2 with
  | none => none
  | some fctx =>
    if bm_rule_need_rebuild c.posts_fctx c.settings_fctx c.main_template_fctx
        (some fctx) false then
      some (some fctx, some (toString ko.1), some v)
    else none

/-- The three pagination outputs of a site with five posts and two posts per
page, none of them built yet. -/
def sample_pagination_outputs : bc_slist_t :=
  [some (sample_filectx_new (sample_ctx 5 "2") "_build/page/1/index.html"),
   some (sample_filectx_new (sample_ctx 5 "2") "_build/page/2/index.html"),
   some (sample_filectx_new (sample_ctx 5 "2") "_build/page/3/index.html")]

/-- A context that declares one post, two pages and one copied directory,
which holds two files. -/
def sample_site_ctx : bm_ctx_t :=
  ⟨⟨[("post_prefix", "post"), ("html_ext", "/index.html")],
      some ["hello"], some ["index", "about"], some ["assets"], none⟩,
    some sample_source, none, some sample_source,
    [some sample_source], [some sample_source, some sample_source],
    [some ⟨"/site/assets/a.css", "assets/a.css", none, 100, 0, true⟩,
     some ⟨"/site/assets/img/b.png", "assets/img/b.png", none, 100, 0, true⟩],
    "/site/_build", "_build", false⟩

/-- Output lists for the recording functions: the rule `name` has the single
output of path `name`; the index rule has none. -/
def sample_outs (name : String) : bc_slist_t :=
  if name = "index" then [] else [some (sample_filectx_new (sample_ctx 0 "") name)]

/-- The name part of an invocation string: the text before its first `:`, the
whole string when it has none. -/
def invocation_name (s : String) : List Char :=
  s.toList.takeWhile (fun ch => ch ≠ ':')

/-- The arguments an invocation string gives to the rules it runs: absent
without a `:`, else what `bm_rule_parse_args` makes of the text from the first
`:` on. -/
def invocation_args (s : String) : Option bc_trie_t :=
  if ':' ∈ s.toList then
    bm_rule_parse_args (some (String.mk (s.toList.dropWhile (fun ch => ch ≠ ':'))))
  else none

/-- The names of the table entries that are at least as long as `n` and begin
with `n`, in table order. -/
def matching_rules (n : List Char) : List String :=
  rule_names.filter (fun name => decide (n.length ≤ name.length) && decide (n <+: name.toList))

/-- The result of the scan of the table by `bm_rule_executor` when the rules
named `m` match, with recording executors: whether the scan returned from the
function, whether a rule matched, the status and the log. -/
def scan_result (st : String → Int) (args : Option bc_trie_t) (m : List String)
    (found : Bool) (rv : Int) (w : exec_log) : Bool × Bool × Int × exec_log :=
  (decide (first_failure st m ≠ 0), found || !m.isEmpty,
    if m = [] then rv else first_failure st m,
    w ++ (run_until_failure st m).map (fun name => (name, args)))

/-- The run of `bm_rule_executor` over a list of invocation strings with
recording executors, as a function of the rules each string matches: the rules
of a string are executed up to the first failure, which ends the run with its
status; otherwise the status becomes 3 when the string matched no rule and 0
when it matched some, and the run goes on with the next string. -/
def run_invocations (st : String → Int) : List String → Int → exec_log → Int × exec_log
  | [], rv, w => (rv, w)
  | s :: l, _, w =>
    if first_failure st (matching_rules (invocation_name s)) ≠ 0 then
      (first_failure st (matching_rules (invocation_name s)),
        w ++ (run_until_failure st (matching_rules (invocation_name s))).map
          (fun name => (name, invocation_args s)))
    else
      run_invocations st l (if matching_rules (invocation_name s) = [] then 3 else 0)
        (w ++ (run_until_failure st (matching_rules (invocation_name s))).map
          (fun name => (name, invocation_args s)))

/-- The text of an argument block: the pairs written `key=value` and joined by
`,`, without a comma after the last pair. -/
def args_text : List (String × String) → List Char
  | [] => []
  | [p] => p.1.toList ++ '=' :: p.2.toList
  | p :: q :: ps => p.1.toList ++ '=' :: (p.2.toList ++ ',' :: args_text (q :: ps))

/-- The mapping obtained by inserting the pairs in order into `rv`. -/
def insert_pairs (rv : bc_trie_t) (ps : List (String × String)) : bc_trie_t :=
  ps.foldl (fun t p => bc_trie_insert t p.1 (some p.2)) rv

/-- The texts for which the loop of `bm_rule_parse_args` gives up: the text
holds no `=`, or it starts with a key, `=`, a value and the comma that ends the
value, and the text after that comma is itself one for which the loop gives
up. -/
inductive args_malformed : List Char → Prop
  | no_equals (t : List Char) (h : '=' ∉ t) : args_malformed t
  | after_comma (k v rest : List Char) (hk : '=' ∉ k) (hv : ',' ∉ v)
      (h : args_malformed rest) : args_malformed (k ++ '=' :: (v ++ ',' :: rest))

/-- A collaborator that records its call and answers it with the status that
`st` gives to the call after the calls recorded before it. -/
def recording_call {α : Type} (st : List α → α → Int) (a : α) (w : List α) :
    Int × List α :=
  (st w a, w ++ [a])

/-- The calls of `l` made in order after the calls `w`, until one of them is
answered with a nonzero status: the result is that first nonzero status, or 0
when there is none, with the calls made. -/
def run_calls {α : Type} (st : List α → α → Int) : List α → List α → Int × List α
  | [], w => (0, w)
  | a :: rest, w =>
    if st w a ≠ 0 then (st w a, w ++ [a]) else run_calls st rest (w ++ [a])

/-- The calls due for a list of outputs, each paired with what is known of its
position: one call `mk p f` for each output `f` that is present and stale at
its position `p`, in list order. -/
def stale_calls {ι α : Type} (stale : ι → bm_filectx_t → Bool)
    (mk : ι → bm_filectx_t → α) (l : List (ι × Option bm_filectx_t)) : List α :=
  l.filterMap (fun p => p.2.bind (fun f => if stale p.1 f then some (mk p.1 f) else none))

/-- The source list as seen from each of its nodes: the list itself, then the
list from its second node on, and so on. -/
def source_suffixes : bc_slist_t → List bc_slist_t
  | [] => []
  | s :: l => (s :: l) :: source_suffixes l

/-- The call of the renderer for a listing output `f`: the variables `vars`,
no local variables, the given template and all the post handles. -/
def listing_call (c : bm_ctx_t) (template : Option bm_filectx_t) (vars : bc_trie_t)
    (f : bm_filectx_t) : bm_exec_blogc_args :=
  ⟨vars, none, true, template, some f, c.posts_fctx, false⟩

/-- The call of the renderer for the output `f` of the source at the head of
`s`: the slug of that source as `MAKE_SLUG`, the main template and the source
list from that node on, of which only the first is rendered. -/
def source_call (c : bm_ctx_t) (vars : bc_trie_t) (s : bc_slist_t) (f : bm_filectx_t) :
    bm_exec_blogc_args :=
  ⟨vars, some (bc_trie_insert [] "MAKE_SLUG" (s.head?.join.bind bm_filectx_t.slug)),
    false, c.main_template_fctx, some f, s, true⟩

/-- The world of `clean_exec`: the calls of the native remove step made so far
and the lines written to the standard error stream. -/
abbrev clean_world := List bm_exec_native_rm_args × List String

/-- A native remove step that records its call and answers it with the status
that `st` gives to the call after the calls recorded before it. -/
def recording_rm (st : List bm_exec_native_rm_args → bm_exec_native_rm_args → Int)
    (a : bm_exec_native_rm_args) (w : clean_world) : Int × clean_world :=
  (st w.1 a, (w.1 ++ [a], w.2))

/-- A standard error stream that keeps the lines written to it. -/
def recording_stderr (msg : String) (w : clean_world) : clean_world :=
  (w.1, w.2 ++ [msg])

/-- A renderer that records its call and answers it with the status that `st`
gives to the call after the calls recorded before it. -/
def recording_render (st : List bm_exec_blogc_args → bm_exec_blogc_args → Int) :
    bm_ctx_t → bm_exec_blogc_args → List bm_exec_blogc_args →
      Int × List bm_exec_blogc_args :=
  fun _ a w => recording_call st a w

/-- An output handle that is newer than the sample source. -/
def sample_fresh_output : bm_filectx_t :=
  ⟨"/site/_build/b.html", "_build/b.html", none, 200, 0, true⟩

/-- A context of a blog that declares one post, one page, one copied file and
the tags `a` and `b`, with ten posts per page in the listings and in the
feeds. -/
def sample_blog_ctx : bm_ctx_t :=
  ⟨⟨[("posts_per_page", "10"), ("atom_posts_per_page", "10"), ("tag_prefix", "tag"),
      ("html_ext", "/index.html")],
      some ["hello"], some ["about"], some ["assets"], some ["a", "b"]⟩,
    some sample_source, some sample_source, some sample_source,
    [some sample_source], [some sample_source],
    [some ⟨"/site/assets/a.css", "assets/a.css", none, 100, 500, true⟩],
    "/site/_build", "_build", false⟩

/-- An output that does not exist yet, followed by an output that is newer
than the sample source. -/
def sample_mixed_outputs : bc_slist_t :=
  [some (sample_filectx_new sample_blog_ctx "_build/x"), some sample_fresh_output]

/-- The sample blog with a `posts_per_page` setting of zero. -/
def sample_blog_unpaginated : bm_ctx_t :=
  { sample_blog_ctx with settings := { sample_blog_ctx.settings with
      settings := [("posts_per_page", "0"), ("atom_posts_per_page", "10"),
        ("tag_prefix", "tag"), ("html_ext", "/index.html")] } }

/-- What is observed of a run of a rendering executor: its status and the
outputs that the renderer was called for, in order. -/
def rendered_outputs (r : Int × List bm_exec_blogc_args) :
    Int × List (Option bm_filectx_t) :=
  (r.1, r.2.map bm_exec_blogc_args.output)

/-- The status function of a renderer whose answer to a call is decided by the
outputs it was called for before and the output of the call. -/
def status_by_output (so : List (Option bm_filectx_t) → Option bm_filectx_t → Int) :
    List bm_exec_blogc_args → bm_exec_blogc_args → Int :=
  fun w a => so (w.map bm_exec_blogc_args.output) a.output

/-- A context of a blog with one post and the tags `a` and `b`, in which every
prefix and extension is set, the index prefix being empty, and both
`posts_per_page` and `atom_posts_per_page` hold the text `v`. -/
def sample_paged_ctx (v : String) : bm_ctx_t :=
  ⟨⟨[("posts_per_page", v), ("atom_posts_per_page", v), ("html_ext", "/index.html"),
      ("index_prefix", ""), ("atom_prefix", "atom"), ("atom_ext", ".xml"),
      ("pagination_prefix", "page"), ("post_prefix", "post"), ("tag_prefix", "tag")],
      some ["hello"], none, none, some ["a", "b"]⟩,
    some sample_source, some sample_source, some sample_source,
    [some sample_source], [], [], "/site/_build", "_build", false⟩

/-- A context with an empty index prefix and the extension `.html`. -/
def sample_flat_ctx : bm_ctx_t :=
  { sample_paged_ctx "10" with settings := { (sample_paged_ctx "10").settings with
      settings := [("posts_per_page", "10"), ("html_ext", ".html"),
        ("index_prefix", "")] } }

/-- What is observed of a call of the renderer made by `tags_exec` or
`atom_tags_exec`: the output it is made for and the value of `FILTER_TAG`. -/
def tag_call_view (a : bm_exec_blogc_args) : Option bm_filectx_t × Option String :=
  (a.output, bc_trie_lookup a.global_variables "FILTER_TAG")

/-- The number of entries of a mapping under `key`. -/
def bc_trie_count (t : bc_trie_t) (key : String) : Nat :=
  (t.filter (fun kv => kv.1 = key)).length

/-- The state of the local variables of `main` before the scan of the command
line. -/
def main_initial_options {σ S T E : Type} (env : blogc_env σ S T E) : main_options :=
  ⟨false, false, none, none, none, [],
    bc_trie_insert [] "BLOGC_VERSION" (some env.PACKAGE_VERSION)⟩

/-- A splitter for the samples: the text before the first separator and the
text after it, the whole text when it holds no separator. -/
def sample_str_split (tmp : List Char) (sep : Char) (_max_pieces : Nat) :
    List (List Char) :=
  if sep ∈ tmp then
    [tmp.takeWhile (fun ch => ch ≠ sep), (tmp.dropWhile (fun ch => ch ≠ sep)).drop 1]
  else if tmp = [] then [] else [tmp]

/-- An environment for the samples, whose world is the list of the events so
far. Its validator accepts the texts made of ASCII bytes only, its parsers
succeed and its renderer records that it was called. -/
def sample_blogc_env : blogc_env (List String) Unit Unit Unit where
  PACKAGE_VERSION := "0.0"
  PACKAGE_STRING := "blogc 0.0"
  blogc_utf8_validate := fun tmp => tmp.all (fun ch => decide (ch.toNat < 128))
  sb_str_split := sample_str_split
  printf := fun msg w => w ++ ["stdout: " ++ msg]
  fprintf_stderr := fun msg w => w ++ ["stderr: " ++ msg]
  blogc_source_parse_from_files := fun config _ w => ((), none, config, w)
  blogc_error_print := fun _ w => w
  blogc_template_parse_from_file := fun _ w => ((), none, w)
  blogc_debug_template := fun _ w => w
  blogc_render := fun _ _ _ _ w => (some ['x'], w ++ ["render"])
  mkdir := fun _ w => (0, w)
  errno := fun _ => 0
  EEXIST := 17
  strerror := fun _ => ""
  fopen_w := fun _ w => (true, w)
  fputs := fun _ _ w => w ++ ["write"]
  fclose := fun _ w => w

/-- A context of a blog with one post, one page, one copied file and the tags
`a` and `b`, in which every prefix and extension is set, with one post per
page in the listings and in the feeds. -/
def sample_full_ctx : bm_ctx_t :=
  ⟨⟨[("posts_per_page", "1"), ("atom_posts_per_page", "1"), ("html_ext", "/index.html"),
      ("index_prefix", ""), ("atom_prefix", "atom"), ("atom_ext", ".xml"),
      ("pagination_prefix", "page"), ("post_prefix", "post"), ("tag_prefix", "tag")],
      some ["hello"], some ["about"], some ["assets"], some ["a", "b"]⟩,
    some sample_source, some sample_source, some sample_source,
    [some sample_source], [some sample_source],
    [some ⟨"/site/assets/a.css", "assets/a.css", none, 100, 500, true⟩],
    "/site/_build", "_build", false⟩

/-- A handle maker for an output directory that holds the listing of the tag
`a` and the page of the post `hello`, both newer than every sample source, and
no other file. -/
def sample_filectx_built (_c : bm_ctx_t) (f : String) : bm_filectx_t :=
  if f ∈ ["_build/tag/a/index.html", "_build/post/hello/index.html"] then
    ⟨f, f, none, 200, 0, true⟩
  else ⟨f, f, none, 0, 0, false⟩

/-- The status function of a renderer that fails, with status 1, when the
template it is given is absent or not readable, and succeeds otherwise. -/
def status_by_template : List bm_exec_blogc_args → bm_exec_blogc_args → Int :=
  fun _ a => if a.template.map bm_filectx_t.readable = some true then 0 else 1

/-! # Theorems -/

/-! ## Properties of `bm_rule_need_rebuild` -/

theorem need_rebuild_collect_eq (only_first_source : Bool) (s sources : bc_slist_t) :
    need_rebuild_collect only_first_source s sources =
      s ++ (if only_first_source then sources.take 1 else sources) := by
  induction sources generalizing s with
  | nil => cases only_first_source <;> simp [need_rebuild_collect]
  | cons d l ih =>
    cases only_first_source
    · simp [need_rebuild_collect, bc_slist_append, ih]
    · simp [need_rebuild_collect, bc_slist_append]

theorem forces_rebuild_some (output f : bm_filectx_t) :
    forces_rebuild output (some f) ↔
      (f.readable = false ∨ f.tv_sec > output.tv_sec ∨
        (f.tv_sec = output.tv_sec ∧ f.tv_nsec > output.tv_nsec)) := Iff.rfl

theorem need_rebuild_scan_iff (output : bm_filectx_t) (s : bc_slist_t) :
    need_rebuild_scan output s = true ↔ ∃ h ∈ s, forces_rebuild output h := by
  induction s with
  | nil => simp [need_rebuild_scan]
  | cons d l ih =>
    cases d with
    | none => simp [need_rebuild_scan, forces_rebuild]
    | some f =>
      simp only [need_rebuild_scan, List.mem_cons, exists_eq_or_imp, forces_rebuild_some]
      by_cases hr : f.readable = true
      · by_cases hs : f.tv_sec = output.tv_sec
        · by_cases hn : f.tv_nsec > output.tv_nsec
          · simp [hr, hs, hn]
          · simp [hr, hs, hn, ih]
        · by_cases hg : f.tv_sec > output.tv_sec
          · simp [hr, hs, hg]
          · simp [hr, hs, hg, ih]
      · simp [hr]

theorem need_rebuild_eq_scan (sources : bc_slist_t) (settings template : Option bm_filectx_t)
    (o : bm_filectx_t) (only_first_source : Bool) (ho : o.readable = true) :
    bm_rule_need_rebuild sources settings template (some o) only_first_source =
      need_rebuild_scan o (comparison_set sources settings template only_first_source) := by
  unfold bm_rule_need_rebuild comparison_set
  cases settings <;> cases template <;>
    simp [ho, need_rebuild_collect_eq, bc_slist_append]

/-- C1: when the output handle is absent or not readable, `bm_rule_need_rebuild`
returns true, whatever the sources, the settings handle, the template handle
and the `only_first_source` flag are. -/
theorem need_rebuild_of_output_missing (sources : bc_slist_t)
    (settings template output : Option bm_filectx_t) (only_first_source : Bool)
    (h : output = none ∨ ∃ o, output = some o ∧ o.readable = false) :
    bm_rule_need_rebuild sources settings template output only_first_source = true := by
  rcases h with h | ⟨o, h, hr⟩
  · subst h; rfl
  · subst h; simp [bm_rule_need_rebuild, hr]

/-- An output that is not readable is rebuilt, with sources and a settings
handle present. -/
theorem need_rebuild_of_output_missing_witness :
    bm_rule_need_rebuild [some sample_source] (some sample_source) none
      (some sample_missing_source) true = true :=
  need_rebuild_of_output_missing [some sample_source] (some sample_source) none
    (some sample_missing_source) true (Or.inr ⟨sample_missing_source, rfl, rfl⟩)

/-- C2, as stated, fails: with a readable output of modification time (100, 0)
and a single source that is not readable (modification time (0, 0)),
`bm_rule_need_rebuild` returns true although the source is not newer than the
output. -/
theorem need_rebuild_single_source_unreadable :
    sample_output.readable = true ∧
    bm_rule_need_rebuild [some sample_missing_source] none none (some sample_output) false
      = true ∧
    ¬ (sample_missing_source.tv_sec > sample_output.tv_sec ∨
        (sample_missing_source.tv_sec = sample_output.tv_sec ∧
          sample_missing_source.tv_nsec > sample_output.tv_nsec)) := by
  decide

/-- C2, amended: for every readable output `o` and a single readable source
`s`, without settings handle and template handle, `bm_rule_need_rebuild` returns
true if and only if `s.tv_sec > o.tv_sec`, or `s.tv_sec = o.tv_sec` and
`s.tv_nsec > o.tv_nsec`; it returns false otherwise. -/
theorem need_rebuild_single_source (o s : bm_filectx_t) (only_first_source : Bool)
    (ho : o.readable = true) (hs : s.readable = true) :
    bm_rule_need_rebuild [some s] none none (some o) only_first_source = true ↔
      (s.tv_sec > o.tv_sec ∨ (s.tv_sec = o.tv_sec ∧ s.tv_nsec > o.tv_nsec)) := by
  rw [need_rebuild_eq_scan _ _ _ _ _ ho, need_rebuild_scan_iff]
  cases only_first_source <;> simp [comparison_set, forces_rebuild_some, hs]

/-- Output of modification time (100, 0), single source of modification time
(100, 500): a rebuild is needed. -/
theorem need_rebuild_single_source_witness :
    bm_rule_need_rebuild [some sample_source] none none (some sample_output) false = true :=
  (need_rebuild_single_source sample_output sample_source false rfl rfl).mpr
    (Or.inr ⟨rfl, by decide⟩)

/-- C3: for every readable output `o`, `bm_rule_need_rebuild` returns true if and
only if some handle of the comparison set (the settings handle if present, the
template handle if present, and the first source or all the sources) is absent,
is not readable, or has a modification time strictly greater than that of `o`
in the lexicographic order on `(tv_sec, tv_nsec)`. -/
theorem need_rebuild_iff_exists (sources : bc_slist_t)
    (settings template : Option bm_filectx_t) (o : bm_filectx_t) (only_first_source : Bool)
    (ho : o.readable = true) :
    bm_rule_need_rebuild sources settings template (some o) only_first_source = true ↔
      ∃ h ∈ comparison_set sources settings template only_first_source,
        h = none ∨ ∃ f, h = some f ∧
          (f.readable = false ∨ f.tv_sec > o.tv_sec ∨
            (f.tv_sec = o.tv_sec ∧ f.tv_nsec > o.tv_nsec)) := by
  rw [need_rebuild_eq_scan _ _ _ _ _ ho, need_rebuild_scan_iff]
  constructor
  · rintro ⟨h, hm, hf⟩
    refine ⟨h, hm, ?_⟩
    cases h with
    | none => exact Or.inl rfl
    | some f => exact Or.inr ⟨f, rfl, hf⟩
  · rintro ⟨h, hm, hf⟩
    refine ⟨h, hm, ?_⟩
    rcases hf with hf | ⟨f, hf, hc⟩
    · subst hf; exact trivial
    · subst hf; exact hc

/-- With `only_first_source` set, a newer second source does not force a
rebuild when the settings handle and the first source are as old as the
output. -/
theorem need_rebuild_iff_exists_witness :
    bm_rule_need_rebuild [some sample_output, some sample_source] (some sample_output) none
      (some sample_output) true = false := by
  have h := need_rebuild_iff_exists [some sample_output, some sample_source]
    (some sample_output) none sample_output true rfl
  rw [Bool.eq_false_iff]
  intro hn
  obtain ⟨x, hm, hx⟩ := h.mp hn
  revert hx
  simp only [comparison_set, List.take, List.cons_append, List.nil_append,
    List.mem_cons, List.mem_nil_iff, or_false, if_true, or_self] at hm
  subst hm
  decide

/-- C4: for every source list, settings handle, template handle and output,
`bm_rule_need_rebuild` with `only_first_source` set returns what it returns,
with the flag cleared, on the list that holds just the first source (the empty
list when there is no source). -/
theorem need_rebuild_only_first_source (sources : bc_slist_t)
    (settings template output : Option bm_filectx_t) :
    bm_rule_need_rebuild sources settings template output true =
      bm_rule_need_rebuild (sources.take 1) settings template output false := by
  cases output with
  | none => rfl
  | some o =>
    unfold bm_rule_need_rebuild
    simp only [need_rebuild_collect_eq]
    simp

/-! ## Single precision arithmetic of the page count -/

theorem ilog2_fuel_spec (fuel : Nat) : ∀ n : Nat, 1 ≤ n → n < 2 ^ fuel →
    2 ^ ilog2_fuel fuel n ≤ n ∧ n < 2 ^ (ilog2_fuel fuel n + 1) := by
  induction fuel with
  | zero => intro n h1 h2; simp at h2; omega
  | succ f ih =>
    intro n h1 h2
    by_cases hn : n < 2
    · have : n = 1 := by omega
      subst this
      simp [ilog2_fuel]
    · have h3 : 1 ≤ n / 2 := by omega
      have h4 : n / 2 < 2 ^ f := by
        rw [pow_succ] at h2
        omega
      obtain ⟨ha, hb⟩ := ih (n / 2) h3 h4
      simp only [ilog2_fuel, hn, if_false]
      constructor
      · rw [pow_succ]; omega
      · rw [pow_succ]; omega

theorem ilog2_spec (n : Nat) (h1 : 1 ≤ n) (h2 : n < 2 ^ 128) :
    2 ^ ilog2 n ≤ n ∧ n < 2 ^ (ilog2 n + 1) :=
  ilog2_fuel_spec 128 n h1 h2

theorem ilog2_lt (n k : Nat) (h1 : 1 ≤ n) (h2 : n < 2 ^ k) (hk : k ≤ 128) : ilog2 n < k := by
  have h3 : n < 2 ^ 128 := lt_of_lt_of_le h2 (Nat.pow_le_pow_right (by norm_num) hk)
  obtain ⟨ha, _⟩ := ilog2_spec n h1 h3
  exact (Nat.pow_lt_pow_iff_right (by norm_num : 1 < 2)).mp (lt_of_le_of_lt ha h2)

theorem ceil_round_core (a b U : Nat) (ha : 1 ≤ a) (hb : 1 ≤ b) (hU : b < 2 * U) :
    ((if 2 * (a * U % b) > b ∨ (2 * (a * U % b) = b ∧ (a * U / b) % 2 = 1)
        then a * U / b + 1 else a * U / b) + (U - 1)) / U = (a + b - 1) / b := by
  have hUpos : 0 < U := by omega
  obtain ⟨q, hq⟩ : ∃ q, q = a * U / b := ⟨_, rfl⟩
  obtain ⟨r, hr⟩ : ∃ r, r = a * U % b := ⟨_, rfl⟩
  have hqr : b * q + r = a * U := by rw [hq, hr]; exact Nat.div_add_mod _ _
  have hrb : r < b := by rw [hr]; exact Nat.mod_lt _ hb
  obtain ⟨c, hc⟩ : ∃ c, c = (a - 1) / b := ⟨_, rfl⟩
  have hceil : (a + b - 1) / b = c + 1 := by
    have : a + b - 1 = (a - 1) + b := by omega
    rw [this, Nat.add_div_right _ hb, hc]
  have hdm : b * c + (a - 1) % b = a - 1 := by rw [hc]; exact Nat.div_add_mod _ _
  have hml : (a - 1) % b < b := Nat.mod_lt _ hb
  have hc1 : b * c + 1 ≤ a := by omega
  have hc2 : a ≤ b * c + b := by omega
  obtain ⟨T, hT⟩ : ∃ T, T = c * U := ⟨_, rfl⟩
  have hlo : b * T + U ≤ b * q + r := by
    have h := Nat.mul_le_mul_right U hc1
    have e : (b * c + 1) * U = b * T + U := by rw [hT]; ring
    rw [e] at h
    omega
  have hhi : b * q + r ≤ b * T + b * U := by
    have h := Nat.mul_le_mul_right U hc2
    have e : (b * c + b) * U = b * T + b * U := by rw [hT]; ring
    rw [e] at h
    omega
  have hqT : T ≤ q := by
    by_contra hcon
    have h1 : q + 1 ≤ T := by omega
    have h2 := Nat.mul_le_mul_left b h1
    rw [Nat.mul_add, Nat.mul_one] at h2
    omega
  have hqU : q ≤ T + U := by
    by_contra hcon
    have h1 : T + U + 1 ≤ q := by omega
    have h2 := Nat.mul_le_mul_left b h1
    rw [Nat.mul_add, Nat.mul_add, Nat.mul_one] at h2
    omega
  have hqU2 : 0 < r → q < T + U := by
    intro hr0
    by_contra hcon
    have h1 : T + U ≤ q := by omega
    have h2 := Nat.mul_le_mul_left b h1
    rw [Nat.mul_add] at h2
    omega
  have hqT2 : q = T → U ≤ r := by
    intro h
    rw [h] at hlo
    omega
  have hgoal : ∀ m, T + 1 ≤ m → m ≤ T + U → (m + (U - 1)) / U = c + 1 := by
    intro m h1 h2
    apply Nat.div_eq_of_lt_le
    · have e : (c + 1) * U = T + U := by rw [hT]; ring
      rw [e]; omega
    · have e : (c + 1 + 1) * U = T + U + U := by rw [hT]; ring
      rw [e]; omega
  rw [← hq, ← hr, hceil]
  by_cases hcond : 2 * r > b ∨ (2 * r = b ∧ q % 2 = 1)
  · rw [if_pos hcond]
    have hr0 : 0 < r := by
      rcases hcond with h | ⟨h, _⟩ <;> omega
    exact hgoal _ (by omega) (by have := hqU2 hr0; omega)
  · rw [if_neg hcond]
    have h2r : 2 * r ≤ b := by
      by_contra hcon
      exact hcond (Or.inl (by omega))
    have hne : q ≠ T := by
      intro h
      have := hqT2 h
      omega
    exact hgoal _ (by omega) hqU

theorem ceilf_round_binary32 (a b : Nat) (ha1 : 1 ≤ a) (ha : a < 2 ^ 24)
    (hb1 : 1 ≤ b) (hb : b < 2 ^ 128) :
    ceilf (round_binary32 a b) = (a + b - 1) / b := by
  have hla : ilog2 a < 24 := ilog2_lt a 24 ha1 ha (by norm_num)
  have hlb : ilog2 b < 128 := ilog2_lt b 128 hb1 hb (by norm_num)
  obtain ⟨_, hb2⟩ := ilog2_spec b hb1 hb
  obtain ⟨E, hE⟩ : ∃ E, E = (if b * 2 ^ (ilog2 a + 127 - ilog2 b - 127) ≤
      a * 2 ^ (127 - (ilog2 a + 127 - ilog2 b)) then ilog2 a + 127 - ilog2 b
      else ilog2 a + 127 - ilog2 b - 1) := ⟨_, rfl⟩
  have hE1 : E ≤ ilog2 a + 127 - ilog2 b := by
    rw [hE]; split <;> omega
  have hE150 : E - 150 = 0 := by omega
  have hle : ilog2 b + 1 ≤ 150 - E + 1 := by omega
  have hU : b < 2 * 2 ^ (150 - E) := by
    have h1 : 2 ^ (ilog2 b + 1) ≤ 2 ^ (150 - E + 1) := Nat.pow_le_pow_right (by norm_num) hle
    rw [pow_succ] at h1
    omega
  have hcore := ceil_round_core a b (2 ^ (150 - E)) ha1 hb1 hU
  unfold ceilf round_binary32
  simp only [← hE, hE150, pow_zero, Nat.mul_one]
  exact hcore

theorem float_of_long_small (n : Nat) (hn : n < 2 ^ 24) : float_of_long n = n := by
  unfold float_of_long
  by_cases h0 : n = 0
  · simp [h0]
  · rw [if_neg h0, ceilf_round_binary32 n 1 (by omega) hn (by norm_num) (by norm_num)]
    simp

theorem float_of_long_large (p : Nat) (h1 : 2 ^ 24 ≤ p) (h2 : p < 2 ^ 64) :
    2 ^ 24 ≤ float_of_long p ∧ float_of_long p < 2 ^ 128 := by
  have hp1 : 1 ≤ p := le_trans (by norm_num) h1
  have hp128 : p < 2 ^ 128 := lt_of_lt_of_le h2 (by norm_num)
  obtain ⟨hlo, hhi⟩ := ilog2_spec p hp1 hp128
  have hl64 : ilog2 p < 64 := ilog2_lt p 64 hp1 h2 (by norm_num)
  have hl24 : 24 ≤ ilog2 p := by
    have := (Nat.pow_lt_pow_iff_right (by norm_num : 1 < 2)).mp (lt_of_le_of_lt h1 hhi)
    omega
  have hl1 : ilog2 1 = 0 := by decide
  obtain ⟨D, hD⟩ : ∃ D, D = 2 ^ (ilog2 p - 23) := ⟨_, rfl⟩
  have hDpos : 0 < D := by rw [hD]; exact Nat.pos_pow_of_pos _ (by norm_num)
  have hpowlo : 2 ^ ilog2 p = 2 ^ 23 * D := by
    rw [hD, ← pow_add]; congr 1; omega
  have hpowhi : 2 ^ (ilog2 p + 1) = 2 ^ 24 * D := by
    rw [hD, ← pow_add]; congr 1; omega
  have hq1 : 2 ^ 23 ≤ p / D := by
    rw [Nat.le_div_iff_mul_le hDpos]; omega
  have hq2 : p / D < 2 ^ 24 := by
    rw [Nat.div_lt_iff_lt_mul hDpos]; omega
  have hval : float_of_long p =
      (if 2 * (p % D) > D ∨ (2 * (p % D) = D ∧ (p / D) % 2 = 1) then p / D + 1 else p / D) * D := by
    unfold float_of_long
    rw [if_neg (by omega)]
    unfold ceilf round_binary32
    simp only [hl1, Nat.sub_zero, Nat.add_sub_cancel, Nat.one_mul]
    have e0 : 127 - (ilog2 p + 127) = 0 := by omega
    rw [e0, pow_zero, Nat.mul_one, if_pos hlo]
    have e1 : 150 - (ilog2 p + 127) = 0 := by omega
    have e2 : ilog2 p + 127 - 150 = ilog2 p - 23 := by omega
    simp only [e1, e2, pow_zero, Nat.mul_one, Nat.sub_self, Nat.add_zero, Nat.div_one, ← hD]
  rw [hval]
  have hpl : 2 ^ (ilog2 p + 1) ≤ 2 ^ 64 := Nat.pow_le_pow_right (by norm_num) (by omega)
  have hpl24 : 2 ^ 24 ≤ 2 ^ ilog2 p := Nat.pow_le_pow_right (by norm_num) hl24
  split
  · constructor
    · calc 2 ^ 24 ≤ 2 ^ 23 * D := by omega
        _ ≤ (p / D + 1) * D := Nat.mul_le_mul_right D (by omega)
    · calc (p / D + 1) * D ≤ 2 ^ 24 * D := Nat.mul_le_mul_right D (by omega)
        _ < 2 ^ 128 := by omega
  · constructor
    · calc 2 ^ 24 ≤ 2 ^ 23 * D := by omega
        _ ≤ (p / D) * D := Nat.mul_le_mul_right D hq1
    · calc (p / D) * D ≤ 2 ^ 24 * D := Nat.mul_le_mul_right D (by omega)
        _ < 2 ^ 128 := by omega

/-- Below 2 ^ 24 posts the page count of `pagination_outputlist` is the exact
integer ceiling of the number of posts over `posts_per_page`, for every positive
`posts_per_page` in the range of `long`. -/
theorem pagination_pages_exact (n : Nat) (p : Int) (hn : n < 2 ^ 24) (hp : 0 < p)
    (hlong : p ≤ LONG_MAX) :
    pagination_pages n p = (n + p.toNat - 1) / p.toNat := by
  obtain ⟨P, hP⟩ : ∃ P : Nat, p = (P : Int) := ⟨p.toNat, (Int.toNat_of_nonneg (le_of_lt hp)).symm⟩
  subst hP
  have hP0 : 0 < P := by exact_mod_cast hp
  have hP64 : P < 2 ^ 64 := by
    have : (P : Int) ≤ 2 ^ 63 - 1 := hlong
    have h2 : (P : Int) < 2 ^ 64 := by omega
    exact_mod_cast h2
  unfold pagination_pages
  simp only [Int.toNat_ofNat, float_of_long_small n hn]
  by_cases h0 : n = 0
  · subst h0
    simp only [if_true]
    rw [Nat.zero_add]
    exact (Nat.div_eq_of_lt (by omega)).symm
  · rw [if_neg h0]
    by_cases hsmall : P < 2 ^ 24
    · rw [float_of_long_small P hsmall]
      exact ceilf_round_binary32 n P (by omega) hn hP0 (lt_of_lt_of_le hP64 (by norm_num))
    · obtain ⟨hb1, hb2⟩ := float_of_long_large P (by omega) hP64
      rw [ceilf_round_binary32 n _ (by omega) hn (by omega) hb2]
      have e1 : (n + float_of_long P - 1) / float_of_long P = 1 :=
        Nat.div_eq_of_lt_le (by omega) (by omega)
      have e2 : (n + P - 1) / P = 1 := Nat.div_eq_of_lt_le (by omega) (by omega)
      rw [e1, e2]


/-! ## Output enumerators -/

theorem outputlist_loop_eq {α : Type} (mk : α → Option bm_filectx_t) (g : α → bm_filectx_t)
    (l : List α) (hmk : ∀ x ∈ l, mk x = some (g x)) (rv : bc_slist_t) :
    outputlist_loop mk l rv = some (rv ++ l.map (fun x => some (g x))) := by
  induction l generalizing rv with
  | nil => simp [outputlist_loop]
  | cons x xs ih =>
    simp only [outputlist_loop, hmk x (List.mem_cons_self _ _), bc_slist_append]
    rw [ih (fun y hy => hmk y (List.mem_cons_of_mem _ hy))]
    simp

theorem pagination_outputlist_eq (bm_filectx_new : bm_ctx_t → String → bm_filectx_t)
    (c : bm_ctx_t) (v pfx ext : String)
    (hposts : c.settings.posts ≠ none)
    (hv : bc_trie_lookup c.settings.settings "posts_per_page" = some v)
    (hp : bc_trie_lookup c.settings.settings "pagination_prefix" = some pfx)
    (he : bc_trie_lookup c.settings.settings "html_ext" = some ext)
    (hpos : 0 < strtol v) :
    pagination_outputlist bm_filectx_new (some c) =
      some ((List.range (pagination_pages c.posts_fctx.length (strtol v))).map
        (fun i => some (bm_filectx_new c
          (c.short_output_dir ++ (if str_is_empty pfx then "" else "/") ++ pfx ++ "/" ++
            printf_d (i + 1) ++ ext)))) := by
  simp only [pagination_outputlist, hposts, hv, hp, he, not_le.mpr hpos, if_false]
  refine (outputlist_loop_eq _ (fun i => bm_filectx_new c
    (c.short_output_dir ++ (if str_is_empty pfx then "" else "/") ++ pfx ++ "/" ++
      printf_d (i + 1) ++ ext)) _ ?_ _).trans ?_
  · intro _ _; rfl
  · rfl

theorem sample_ctx_pagination (bm_filectx_new : bm_ctx_t → String → bm_filectx_t)
    (n : Nat) (v : String) (hpos : 0 < strtol v) :
    pagination_outputlist bm_filectx_new (some (sample_ctx n v)) =
      some ((List.range (pagination_pages n (strtol v))).map
        (fun i => some (bm_filectx_new (sample_ctx n v)
          ("_build" ++ "/" ++ "page" ++ "/" ++ printf_d (i + 1) ++ "/index.html")))) := by
  have h := pagination_outputlist_eq bm_filectx_new (sample_ctx n v) v "page" "/index.html"
    (by simp [sample_ctx]) (by simp [sample_ctx, bc_trie_lookup])
    (by simp [sample_ctx, bc_trie_lookup]) (by simp [sample_ctx, bc_trie_lookup]) hpos
  rw [h]
  have hlen : (sample_ctx n v).posts_fctx.length = n := by simp [sample_ctx]
  have hdir : (sample_ctx n v).short_output_dir = "_build" := rfl
  have hslash : (if str_is_empty "page" then "" else "/") = "/" := by decide
  rw [hlen, hdir, hslash]

/-- C5, at a failing input: for a context that declares 16777217 posts with
`posts_per_page` set to 16777216, `pagination_outputlist` returns one output,
while the exact integer ceiling of 16777217 / 16777216 is 2. The conversion of
the number of posts to `float` rounds 16777217 to 16777216. -/
theorem pagination_outputlist_float_rounding
    (bm_filectx_new : bm_ctx_t → String → bm_filectx_t) :
    (pagination_outputlist bm_filectx_new (some (sample_ctx 16777217 "16777216"))).map
        List.length = some 1 ∧
    (16777217 + 16777216 - 1) / 16777216 = 2 ∧
    float_of_long 16777217 = 16777216 := by
  have hv : strtol "16777216" = 16777216 := by decide
  have hpages : pagination_pages 16777217 16777216 = 1 := by decide
  refine ⟨?_, by decide, by decide⟩
  rw [sample_ctx_pagination bm_filectx_new 16777217 "16777216" (by rw [hv]; decide),
    hv, hpages]
  rfl

/-! ## Tries -/

theorem bc_trie_lookup_insert_self (t : bc_trie_t) (key data : String) :
    bc_trie_lookup (bc_trie_insert t key (some data)) key = some data := by
  induction t with
  | nil => simp [bc_trie_insert, bc_trie_lookup]
  | cons kv t ih =>
    obtain ⟨k, v⟩ := kv
    by_cases h : k = key
    · simp [bc_trie_insert, bc_trie_lookup, h]
    · simp [bc_trie_insert, bc_trie_lookup, h, ih]

theorem bc_trie_lookup_insert_other (t : bc_trie_t) (key other : String)
    (data : Option String) (hne : key ≠ other) :
    bc_trie_lookup (bc_trie_insert t key data) other = bc_trie_lookup t other := by
  cases data with
  | none => cases t <;> rfl
  | some d =>
    induction t with
    | nil => simp [bc_trie_insert, bc_trie_lookup, hne]
    | cons kv t ih =>
      obtain ⟨k, v⟩ := kv
      by_cases h : k = key
      · subst h
        simp [bc_trie_insert, bc_trie_lookup, hne]
      · by_cases h2 : k = other
        · subst h2
          simp [bc_trie_insert, bc_trie_lookup, h]
        · simp [bc_trie_insert, bc_trie_lookup, h, h2, ih]

theorem posts_ordering_lookup_other (ctx : Option bm_ctx_t) (vars : bc_trie_t)
    (var_name other : String) (hne : "FILTER_REVERSE" ≠ other) :
    bc_trie_lookup (posts_ordering ctx vars var_name) other = bc_trie_lookup vars other := by
  unfold posts_ordering
  cases ctx with
  | none => rfl
  | some c =>
    simp only
    split
    · rfl
    · exact bc_trie_lookup_insert_other _ _ _ _ hne

/-! ## The pagination rule -/

theorem pagination_exec_loop_log (st : bm_exec_blogc_args → Int) (c : bm_ctx_t) (v : String)
    (outputs : bc_slist_t) :
    ∀ (page : Nat) (vars : bc_trie_t) (rv : Int) (w : blogc_log),
      bc_trie_lookup vars "FILTER_PER_PAGE" = some v →
      ∃ calls,
        (pagination_exec_loop (recording_blogc st) c outputs page vars rv w).2 = w ++ calls ∧
        calls.map pagination_call_view <+:
          (outputs.enumFrom page).filterMap (pagination_expected_view c v) ∧
        ((∀ a, st a = 0) → calls.map pagination_call_view =
          (outputs.enumFrom page).filterMap (pagination_expected_view c v)) := by
  induction outputs with
  | nil =>
    intro page vars rv w _
    exact ⟨[], by simp [pagination_exec_loop], by simp, by simp⟩
  | cons o l ih =>
    intro page vars rv w hvars
    cases o with
    | none =>
      obtain ⟨calls, h1, h2, h3⟩ := ih (page + 1) vars rv w hvars
      refine ⟨calls, ?_, ?_, ?_⟩
      · simpa [pagination_exec_loop] using h1
      · simpa [List.enumFrom, pagination_expected_view] using h2
      · simpa [List.enumFrom, pagination_expected_view] using h3
    | some fctx =>
      have hvars2 : bc_trie_lookup
          (bc_trie_insert vars "FILTER_PAGE" (some (printf_decimal page)))
          "FILTER_PER_PAGE" = some v := by
        rw [bc_trie_lookup_insert_other _ _ _ _ (by decide)]; exact hvars
      obtain ⟨a, ha⟩ : ∃ a : bm_exec_blogc_args, a =
          ⟨bc_trie_insert vars "FILTER_PAGE" (some (printf_decimal page)), none, true,
            c.main_template_fctx, some fctx, c.posts_fctx, false⟩ := ⟨_, rfl⟩
      have hstep : pagination_exec_loop (recording_blogc st) c (some fctx :: l) page vars rv w =
          if bm_rule_need_rebuild c.posts_fctx c.settings_fctx c.main_template_fctx
              (some fctx) false = true then
            if st a ≠ 0 then (st a, w ++ [a])
            else pagination_exec_loop (recording_blogc st) c l (page + 1)
              (bc_trie_insert vars "FILTER_PAGE" (some (printf_decimal page))) (st a)
              (w ++ [a])
          else pagination_exec_loop (recording_blogc st) c l (page + 1)
            (bc_trie_insert vars "FILTER_PAGE" (some (printf_decimal page))) rv w := by
        rw [ha]; rfl
      have hview : pagination_call_view a = (some fctx, some (toString page), some v) := by
        rw [ha]
        unfold pagination_call_view
        simp only []
        rw [bc_trie_lookup_insert_self, hvars2]
        rfl
      rw [hstep]
      by_cases hstale : bm_rule_need_rebuild c.posts_fctx c.settings_fctx
          c.main_template_fctx (some fctx) false = true
      · have hexp : (List.enumFrom page (some fctx :: l)).filterMap
            (pagination_expected_view c v) =
            (some fctx, some (toString page), some v) ::
              (List.enumFrom (page + 1) l).filterMap (pagination_expected_view c v) := by
          simp [List.enumFrom, pagination_expected_view, hstale]
        rw [if_pos hstale, hexp]
        by_cases hst : st a = 0
        · obtain ⟨calls, h1, h2, h3⟩ := ih (page + 1)
            (bc_trie_insert vars "FILTER_PAGE" (some (printf_decimal page))) (st a)
            (w ++ [a]) hvars2
          refine ⟨a :: calls, ?_, ?_, ?_⟩
          · rw [if_neg (not_not.mpr hst), h1]; simp
          · rw [List.map_cons, hview]
            exact (List.prefix_cons_inj _).mpr h2
          · intro hall
            rw [List.map_cons, hview, h3 hall]
        · refine ⟨[a], ?_, ?_, ?_⟩
          · rw [if_pos hst]
          · rw [List.map_cons, hview, List.map_nil]
            exact (List.prefix_cons_inj _).mpr List.nil_prefix
          · intro hall
            exact absurd (hall a) hst
      · have hexp : (List.enumFrom page (some fctx :: l)).filterMap
            (pagination_expected_view c v) =
            (List.enumFrom (page + 1) l).filterMap (pagination_expected_view c v) := by
          simp [List.enumFrom, pagination_expected_view, hstale]
        rw [if_neg hstale, hexp]
        exact ih (page + 1) _ rv w hvars2

theorem pagination_exec_vars (c : bm_ctx_t) (v : String)
    (hv : bc_trie_lookup c.settings.settings "posts_per_page" = some v) :
    bc_trie_lookup
      (bc_trie_insert
        (bc_trie_insert
          (bc_trie_insert
            (posts_ordering (some c)
              (bc_trie_insert [] "FILTER_PER_PAGE"
                (bc_trie_lookup c.settings.settings "posts_per_page")) "html_order")
            "DATE_FORMAT" (bc_trie_lookup c.settings.settings "date_format"))
          "MAKE_RULE" (some "pagination"))
        "MAKE_TYPE" (some "post"))
      "FILTER_PER_PAGE" = some v := by
  rw [bc_trie_lookup_insert_other _ _ _ _ (by decide),
    bc_trie_lookup_insert_other _ _ _ _ (by decide),
    bc_trie_lookup_insert_other _ _ _ _ (by decide),
    posts_ordering_lookup_other _ _ _ _ (by decide), hv, bc_trie_lookup_insert_self]

theorem printf_d_small (n : Nat) (h : n < 2 ^ 31) : printf_d n = toString n := by
  have h1 : n % 2 ^ 32 = n := Nat.mod_eq_of_lt (by omega)
  unfold printf_d
  rw [h1, if_pos h]

/-- C6, with a failing input: the `k`-th output of the pagination output list
(`k` counted from 1) is named with the text that `%d` gives for `k`, which is
the decimal numeral of `k` as long as `k` is below `2 ^ 31`; `pagination_exec`
calls the renderer, in list order, for stale outputs only, the call for the
`k`-th output being made with `FILTER_PAGE` equal to the decimal numeral of `k`
and `FILTER_PER_PAGE` equal to the `posts_per_page` setting, and when no call
fails every stale output gets its call. For a context with 2147483648 posts and
one post per page, the output at position 2147483648 is named `-2147483648`. -/
theorem pagination_numbering (bm_filectx_new : bm_ctx_t → String → bm_filectx_t)
    (c : bm_ctx_t) (v pfx ext : String)
    (hposts : c.settings.posts ≠ none)
    (hv : bc_trie_lookup c.settings.settings "posts_per_page" = some v)
    (hp : bc_trie_lookup c.settings.settings "pagination_prefix" = some pfx)
    (he : bc_trie_lookup c.settings.settings "html_ext" = some ext) :
    (∃ outputs, pagination_outputlist bm_filectx_new (some c) = some outputs ∧
      ∀ k, k < outputs.length →
        outputs[k]? = some (some (bm_filectx_new c
          (c.short_output_dir ++ (if str_is_empty pfx then "" else "/") ++ pfx ++ "/" ++
            printf_d (k + 1) ++ ext))) ∧
        (k + 1 < 2 ^ 31 → printf_d (k + 1) = toString (k + 1))) ∧
    (∀ (st : bm_exec_blogc_args → Int) (outputs : bc_slist_t) (args : Option bc_trie_t),
      ∃ rv log,
        pagination_exec (recording_blogc st) (some c) outputs args [] = some (rv, log) ∧
        log.map pagination_call_view <+:
          (outputs.enumFrom 1).filterMap (pagination_expected_view c v) ∧
        ((∀ a, st a = 0) → log.map pagination_call_view =
          (outputs.enumFrom 1).filterMap (pagination_expected_view c v))) ∧
    (pagination_outputlist bm_filectx_new (some (sample_ctx 2147483648 "1"))).map
        (fun outputs => outputs[2147483647]?) =
      some (some (some (bm_filectx_new (sample_ctx 2147483648 "1")
        "_build/page/-2147483648/index.html"))) := by
  refine ⟨?_, ?_, ?_⟩
  · by_cases hpos : 0 < strtol v
    · refine ⟨_, pagination_outputlist_eq bm_filectx_new c v pfx ext hposts hv hp he hpos, ?_⟩
      intro k hk
      simp only [List.length_map, List.length_range] at hk
      refine ⟨?_, printf_d_small (k + 1)⟩
      rw [List.getElem?_map, List.getElem?_range hk]
      rfl
    · refine ⟨[], ?_, ?_⟩
      · simp [pagination_outputlist, hposts, hv, not_lt.mp hpos]
      · intro k hk
        simp at hk
  · intro st outputs args
    obtain ⟨calls, h1, h2, h3⟩ := pagination_exec_loop_log st c v outputs 1 _ 0 []
      (pagination_exec_vars c v hv)
    rw [List.nil_append] at h1
    have hrun : pagination_exec (recording_blogc st) (some c) outputs args [] =
        some (pagination_exec_loop (recording_blogc st) c outputs 1
          (bc_trie_insert
            (bc_trie_insert
              (bc_trie_insert
                (posts_ordering (some c)
                  (bc_trie_insert [] "FILTER_PER_PAGE"
                    (bc_trie_lookup c.settings.settings "posts_per_page")) "html_order")
                "DATE_FORMAT" (bc_trie_lookup c.settings.settings "date_format"))
              "MAKE_RULE" (some "pagination"))
            "MAKE_TYPE" (some "post")) 0 []) := by
      simp only [pagination_exec, hposts, if_false]
    rw [hrun]
    refine ⟨_, _, rfl, ?_, ?_⟩
    · rw [h1]; exact h2
    · rw [h1]; exact h3
  · have hs : strtol "1" = 1 := by decide
    have hpages : pagination_pages 2147483648 1 = 2147483648 := by decide
    have hname : "_build" ++ "/" ++ "page" ++ "/" ++ printf_d (2147483647 + 1) ++
        "/index.html" = "_build/page/-2147483648/index.html" := by decide
    rw [sample_ctx_pagination bm_filectx_new 2147483648 "1" (by rw [hs]; decide), hs,
      hpages, Option.map_some', List.getElem?_map,
      List.getElem?_range (by decide : 2147483647 < 2147483648), Option.map_some', hname]

/-- Five posts and two posts per page: three outputs, named 1, 2 and 3, and
three calls of the renderer with `FILTER_PAGE` 1, 2 and 3, in that order. -/
theorem pagination_numbering_witness :
    (pagination_outputlist sample_filectx_new (some (sample_ctx 5 "2"))
      = some sample_pagination_outputs) ∧
    ∃ rv log,
      pagination_exec (recording_blogc (fun _ => 0)) (some (sample_ctx 5 "2"))
        sample_pagination_outputs none [] = some (rv, log) ∧
      log.map pagination_call_view =
        [(sample_pagination_outputs.get ⟨0, by decide⟩, some "1", some "2"),
         (sample_pagination_outputs.get ⟨1, by decide⟩, some "2", some "2"),
         (sample_pagination_outputs.get ⟨2, by decide⟩, some "3", some "2")] := by
  constructor
  · decide
  · obtain ⟨rv, log, h1, _, h3⟩ :=
      (pagination_numbering sample_filectx_new (sample_ctx 5 "2") "2" "page" "/index.html"
        (by decide) (by decide) (by decide) (by decide)).2.1
        (fun _ => 0) sample_pagination_outputs none
    refine ⟨rv, log, h1, ?_⟩
    rw [h3 (fun _ => rfl)]
    decide

/-! ## The enumerators of the posts, pages and copy rules -/

/-- C7: `posts_outputlist`, `pages_outputlist` and `copy_outputlist` return one
output per element of their source list (the declared posts, the declared
pages, the copy file handles), in the same order, the `i`-th output being the
handle of the path built from the `i`-th source: from its declared name for
posts and pages, from its short path for copy. -/
theorem one_to_one_outputlists (bm_filectx_new : bm_ctx_t → String → bm_filectx_t)
    (c : bm_ctx_t) (post_pfx ext : String)
    (hp : bc_trie_lookup c.settings.settings "post_prefix" = some post_pfx)
    (he : bc_trie_lookup c.settings.settings "html_ext" = some ext)
    (hdata : ∀ x ∈ c.copy_fctx, x ≠ none)
    (hcopy : c.settings.copy = none → c.copy_fctx = []) :
    posts_outputlist bm_filectx_new (some c) =
      some ((c.settings.posts.getD []).map (fun post => some (bm_filectx_new c
        (c.short_output_dir ++ (if str_is_empty post_pfx then "" else "/") ++ post_pfx ++
          "/" ++ post ++ ext)))) ∧
    pages_outputlist bm_filectx_new (some c) =
      some ((c.settings.pages.getD []).map (fun page => some (bm_filectx_new c
        (if page = "index" ∧ str_starts_with_slash ext = true
          then c.short_output_dir ++ ext
          else c.short_output_dir ++ "/" ++ page ++ ext)))) ∧
    copy_outputlist bm_filectx_new (some c) =
      some (c.copy_fctx.map (fun s => s.map (fun data => bm_filectx_new c
        (c.short_output_dir ++ "/" ++ data.short_path)))) := by
  refine ⟨?_, ?_, ?_⟩
  · unfold posts_outputlist
    cases hposts : c.settings.posts with
    | none => simp [hposts]
    | some posts =>
      simp only [hposts, hp, he]
      refine (outputlist_loop_eq _ (fun post => bm_filectx_new c
        (c.short_output_dir ++ (if str_is_empty post_pfx then "" else "/") ++ post_pfx ++
          "/" ++ post ++ ext)) _ ?_ _).trans ?_
      · intro _ _; rfl
      · rfl
  · unfold pages_outputlist
    cases hpages : c.settings.pages with
    | none => simp [hpages]
    | some pages =>
      simp only [hpages, he]
      refine (outputlist_loop_eq _ (fun page => bm_filectx_new c
        (c.short_output_dir ++
          (if (page = "index" && str_starts_with_slash ext) = true then "" else "/") ++
          (if (page = "index" && str_starts_with_slash ext) = true then "" else page) ++ ext))
        _ ?_ _).trans ?_
      · intro _ _; rfl
      simp only [List.nil_append, Option.getD_some, Option.some.injEq]
      apply List.map_congr_left
      intro page _
      by_cases h : page = "index" ∧ str_starts_with_slash ext = true
      · simp [h.1, h.2]
      · rw [if_neg h]
        rcases not_and_or.mp h with h1 | h1
        · simp [h1]
        · simp [h1]
  · unfold copy_outputlist
    by_cases h : c.settings.copy = none
    · simp [h, hcopy h]
    · simp only [h, if_false]
      refine (outputlist_loop_eq _ (fun (s : Option bm_filectx_t) =>
        bm_filectx_new c (c.short_output_dir ++ "/" ++
          (s.map (fun data => data.short_path)).getD "")) _ ?_ _).trans ?_
      · intro x hx
        cases x with
        | none => exact absurd rfl (hdata none hx)
        | some data => rfl
      · simp only [List.nil_append, Option.some.injEq]
        apply List.map_congr_left
        intro x hx
        cases x with
        | none => exact absurd rfl (hdata none hx)
        | some data => rfl

/-- The outputs of a site with one post, two pages and two copied files. -/
theorem one_to_one_outputlists_witness :
    (posts_outputlist sample_filectx_new (some sample_site_ctx)).map
        (List.map (Option.map bm_filectx_t.path)) =
      some [some "_build/post/hello/index.html"] ∧
    (pages_outputlist sample_filectx_new (some sample_site_ctx)).map
        (List.map (Option.map bm_filectx_t.path)) =
      some [some "_build/index.html", some "_build/about/index.html"] ∧
    (copy_outputlist sample_filectx_new (some sample_site_ctx)).map
        (List.map (Option.map bm_filectx_t.path)) =
      some [some "_build/assets/a.css", some "_build/assets/img/b.png"] := by
  obtain ⟨h1, h2, h3⟩ := one_to_one_outputlists sample_filectx_new sample_site_ctx
    "post" "/index.html" (by decide) (by decide) (by decide) (by decide)
  rw [h1, h2, h3]
  decide

/-! ## The rule table -/

theorem built_files_append_eq (rv o : bc_slist_t) : built_files_append rv o = rv ++ o := by
  induction o generalizing rv with
  | nil => simp [built_files_append]
  | cons d l ih => simp [built_files_append, bc_slist_append, ih]

/-- C8: `bm_rule_list_built_files`, which is also the output list of the clean
rule, is the concatenation, in table order (index, atom, atom_tags, pagination,
posts, tags, pages, copy), of the output lists of the rules flagged
`generate_files`, nothing being added, dropped, reordered or deduplicated; its
length is the sum of their lengths. -/
theorem built_files_concat {σ : Type} (f : bm_rule_funcs σ) (c : bm_ctx_t) (w : σ)
    (o_index o_atom o_atom_tags o_pagination o_posts o_tags o_pages o_copy : bc_slist_t)
    (h1 : f.index_outputlist (some c) w = some o_index)
    (h2 : f.atom_outputlist (some c) w = some o_atom)
    (h3 : f.atom_tags_outputlist (some c) w = some o_atom_tags)
    (h4 : f.pagination_outputlist (some c) w = some o_pagination)
    (h5 : f.posts_outputlist (some c) w = some o_posts)
    (h6 : f.tags_outputlist (some c) w = some o_tags)
    (h7 : f.pages_outputlist (some c) w = some o_pages)
    (h8 : f.copy_outputlist (some c) w = some o_copy) :
    bm_rule_list_built_files f (some c) w =
      some (o_index ++ o_atom ++ o_atom_tags ++ o_pagination ++ o_posts ++ o_tags ++
        o_pages ++ o_copy) ∧
    clean_outputlist f (some c) w = bm_rule_list_built_files f (some c) w ∧
    (bm_rule_list_built_files f (some c) w).map List.length =
      some (o_index.length + o_atom.length + o_atom_tags.length + o_pagination.length +
        o_posts.length + o_tags.length + o_pages.length + o_copy.length) := by
  have h : bm_rule_list_built_files f (some c) w =
      some (o_index ++ o_atom ++ o_atom_tags ++ o_pagination ++ o_posts ++ o_tags ++
        o_pages ++ o_copy) := by
    simp [bm_rule_list_built_files, rules, built_files_loop, built_files_append_eq,
      h1, h2, h3, h4, h5, h6, h7, h8]
  refine ⟨h, rfl, ?_⟩
  rw [h]
  simp only [Option.map_some', List.length_append]

/-- The built files of a table whose rules have one output each, the index
rule having none. -/
theorem built_files_concat_witness :
    (bm_rule_list_built_files (recording_funcs (fun _ => 0) sample_outs)
        (some (sample_ctx 0 "")) []).map (List.map (Option.map bm_filectx_t.path)) =
      some [some "atom", some "atom_tags", some "pagination", some "posts", some "tags",
        some "pages", some "copy"] := by
  rw [(built_files_concat (recording_funcs (fun _ => 0) sample_outs) (sample_ctx 0 "") []
    (sample_outs "index") (sample_outs "atom") (sample_outs "atom_tags")
    (sample_outs "pagination") (sample_outs "posts") (sample_outs "tags")
    (sample_outs "pages") (sample_outs "copy") rfl rfl rfl rfl rfl rfl rfl rfl).1]
  decide

theorem recording_rule_execute (st : String → Int) (outs : String → bc_slist_t)
    (c : bm_ctx_t) :
    ∀ r ∈ rules (recording_funcs st outs), ∀ (args : Option bc_trie_t) (w : exec_log),
      bm_rule_execute (some c) (some r) args w = some (st r.name, w ++ [(r.name, args)]) := by
  intro r hr args w
  simp only [rules, List.mem_cons, List.mem_singleton, List.mem_nil_iff, or_false] at hr
  rcases hr with h | h | h | h | h | h | h | h | h | h | h | h <;> subst h <;> rfl

theorem all_exec_loop_recording (st : String → Int) (c : bm_ctx_t)
    (tbl : List (bm_rule_t exec_log))
    (hP : ∀ r ∈ tbl, ∀ (args : Option bc_trie_t) (w : exec_log),
      bm_rule_execute (some c) (some r) args w = some (st r.name, w ++ [(r.name, args)]))
    (w : exec_log) :
    all_exec_loop (some c) tbl w =
      some (first_failure st ((tbl.filter (fun r => r.generate_files)).map (fun r => r.name)),
        w ++ (run_until_failure st
          ((tbl.filter (fun r => r.generate_files)).map (fun r => r.name))).map
            (fun name => (name, none))) := by
  induction tbl generalizing w with
  | nil => simp [all_exec_loop, first_failure, run_until_failure]
  | cons r rest ih =>
    have ih2 := ih (fun r hr => hP r (List.mem_cons_of_mem _ hr))
    by_cases hg : r.generate_files = true
    · have hex := hP r (List.mem_cons_self _ _) none w
      by_cases hst : st r.name = 0
      · simp [all_exec_loop, hg, hex, hst, ih2, first_failure, run_until_failure]
      · simp [all_exec_loop, hg, hex, hst, first_failure, run_until_failure]
    · simp [all_exec_loop, hg, ih2]

/-- C9: for every assignment `st` of result statuses to the rules, `all_exec`
executes the rules flagged `generate_files` in table order (index, atom,
atom_tags, pagination, posts, tags, pages, copy), each without arguments, up to
and including the first one whose status is not 0, and returns that status, or 0
when all of them return 0; the rules all, clean, runserver and watch are not
executed. -/
theorem all_exec_runs_build_rules (st : String → Int) (outs : String → bc_slist_t)
    (c : bm_ctx_t) (outputs : bc_slist_t) (args : Option bc_trie_t) (w : exec_log) :
    all_exec (recording_funcs st outs) (some c) outputs args w =
      some (first_failure st build_rule_names,
        w ++ (run_until_failure st build_rule_names).map (fun name => (name, none))) := by
  unfold all_exec
  rw [all_exec_loop_recording st c _ (recording_rule_execute st outs c)]
  rfl

/-! ## Name resolution in `bm_rule_executor` -/

theorem strchr_eq (cs : List Char) (c : Char) :
    strchr cs c =
      if c ∈ cs then some (cs.takeWhile (fun ch => ch ≠ c)).length else none := by
  induction cs with
  | nil => simp [strchr]
  | cons x xs ih =>
    by_cases hx : x = c
    · simp [strchr, hx, List.takeWhile]
    · have hx2 : ¬ c = x := fun h => hx h.symm
      by_cases hm : c ∈ xs
      · simp [strchr, hx, hx2, ih, hm, List.takeWhile]
      · simp [strchr, hx, hx2, ih, hm, List.takeWhile]

theorem take_length_takeWhile (p : Char → Bool) (cs : List Char) :
    cs.take (cs.takeWhile p).length = cs.takeWhile p := by
  induction cs with
  | nil => simp
  | cons x xs ih =>
    by_cases hx : p x = true
    · simp [List.takeWhile, hx, ih]
    · simp [List.takeWhile, hx]

theorem drop_length_takeWhile (p : Char → Bool) (cs : List Char) :
    cs.drop (cs.takeWhile p).length = cs.dropWhile p := by
  induction cs with
  | nil => simp
  | cons x xs ih =>
    by_cases hx : p x = true
    · simp [List.takeWhile, List.dropWhile, hx, ih]
    · simp [List.takeWhile, List.dropWhile, hx]

theorem takeWhile_eq_self_of_not_mem (cs : List Char) (c : Char) (h : c ∉ cs) :
    cs.takeWhile (fun ch => ch ≠ c) = cs := by
  induction cs with
  | nil => simp
  | cons x xs ih =>
    have hx : decide (x ≠ c) = true := by
      simp only [ne_eq, decide_not, Bool.not_eq_true', decide_eq_false_iff_not]
      intro hxc
      exact h (by simp [hxc])
    have hm : c ∉ xs := fun hm => h (List.mem_cons_of_mem _ hm)
    simp only [List.takeWhile, hx]
    rw [ih hm]

theorem strncmp_zero_eq (a b : List Char) (n : Nat) :
    strncmp_zero a b n = decide (a.take n = b.take n) := by
  induction n generalizing a b with
  | zero => simp [strncmp_zero]
  | succ k ih =>
    cases a with
    | nil => cases b <;> simp [strncmp_zero]
    | cons x xs =>
      cases b with
      | nil => simp [strncmp_zero]
      | cons y ys =>
        by_cases hxy : x = y
        · simp [strncmp_zero, hxy, ih]
        · simp [strncmp_zero, hxy]

theorem name_test_eq (cs : List Char) (name : String) :
    (!(decide (name.length < (cs.takeWhile (fun ch => ch ≠ ':')).length)) &&
        strncmp_zero cs name.toList (cs.takeWhile (fun ch => ch ≠ ':')).length) =
      (decide ((cs.takeWhile (fun ch => ch ≠ ':')).length ≤ name.length) &&
        decide (cs.takeWhile (fun ch => ch ≠ ':') <+: name.toList)) := by
  have h1 : strncmp_zero cs name.toList (cs.takeWhile (fun ch => ch ≠ ':')).length =
      decide (cs.takeWhile (fun ch => ch ≠ ':') <+: name.toList) := by
    rw [strncmp_zero_eq, take_length_takeWhile]
    exact decide_eq_decide.mpr List.prefix_iff_eq_take.symm
  have h2 : (!(decide (name.length < (cs.takeWhile (fun ch => ch ≠ ':')).length))) =
      decide ((cs.takeWhile (fun ch => ch ≠ ':')).length ≤ name.length) := by
    rcases Nat.lt_or_ge name.length (cs.takeWhile (fun ch => ch ≠ ':')).length with h | h
    · rw [decide_eq_true h, decide_eq_false (Nat.not_le.mpr h)]; rfl
    · rw [decide_eq_false (Nat.not_lt.mpr h), decide_eq_true h]; rfl
  rw [h1, h2]

theorem scan_result_nil (st : String → Int) (args : Option bc_trie_t)
    (found : Bool) (rv : Int) (w : exec_log) :
    scan_result st args [] found rv w = (false, found, rv, w) := by
  simp [scan_result, first_failure, run_until_failure]

theorem scan_result_cons_failure (st : String → Int) (args : Option bc_trie_t)
    (name : String) (m : List String) (found : Bool) (rv : Int) (w : exec_log)
    (hst : st name ≠ 0) :
    scan_result st args (name :: m) found rv w = (true, true, st name, w ++ [(name, args)]) := by
  simp [scan_result, first_failure, run_until_failure, hst]

theorem scan_result_cons_success (st : String → Int) (args : Option bc_trie_t)
    (name : String) (m : List String) (found : Bool) (rv : Int) (w : exec_log)
    (hst : st name = 0) :
    scan_result st args (name :: m) found rv w =
      scan_result st args m true 0 (w ++ [(name, args)]) := by
  cases m with
  | nil => simp [scan_result, first_failure, run_until_failure, hst]
  | cons x xs => simp [scan_result, first_failure, run_until_failure, hst]

theorem executor_rules_loop_recording (st : String → Int) (c : bm_ctx_t) (cs : List Char)
    (k : Nat) (args : Option bc_trie_t) (p : String → Bool)
    (hp : ∀ name, p name = (!(decide (name.length < k)) && strncmp_zero cs name.toList k))
    (tbl : List (bm_rule_t exec_log))
    (hP : ∀ r ∈ tbl, ∀ (args : Option bc_trie_t) (w : exec_log),
      bm_rule_execute (some c) (some r) args w = some (st r.name, w ++ [(r.name, args)]))
    (found : Bool) (rv : Int) (w : exec_log) :
    executor_rules_loop (some c) cs k args tbl found rv w =
      some (scan_result st args ((tbl.map (fun r => r.name)).filter p) found rv w) := by
  induction tbl generalizing found rv w with
  | nil =>
    rw [List.map_nil, List.filter_nil, scan_result_nil]
    rfl
  | cons r rest ih =>
    have ih2 := ih (fun r hr => hP r (List.mem_cons_of_mem _ hr))
    rw [List.map_cons]
    by_cases hlen : r.name.length < k
    · have hpr : p r.name = false := by rw [hp, decide_eq_true hlen]; rfl
      rw [List.filter_cons_of_neg (by rw [hpr]; exact Bool.false_ne_true), ← ih2]
      simp only [executor_rules_loop, hlen, if_true]
    · by_cases hcmp : strncmp_zero cs r.name.toList k = true
      · have hpr : p r.name = true := by rw [hp, decide_eq_false hlen, hcmp]; rfl
        have hex := hP r (List.mem_cons_self _ _) args w
        rw [List.filter_cons_of_pos hpr]
        by_cases hst : st r.name = 0
        · rw [scan_result_cons_success _ _ _ _ _ _ _ hst, ← ih2]
          simp only [executor_rules_loop, hlen, hcmp, hex, hst, if_false, if_true, ne_eq,
            not_true_eq_false]
        · rw [scan_result_cons_failure _ _ _ _ _ _ _ hst]
          simp only [executor_rules_loop, hlen, hcmp, hex, hst, if_false, if_true, ne_eq,
            not_false_eq_true]
      · have hpr : p r.name = false := by
          rw [hp, decide_eq_false hlen, Bool.not_eq_true _ |>.mp hcmp]; rfl
        rw [List.filter_cons_of_neg (by rw [hpr]; exact Bool.false_ne_true), ← ih2]
        simp only [executor_rules_loop, hlen, hcmp, if_false, Bool.false_eq_true]

theorem executor_single (st : String → Int) (outs : String → bc_slist_t) (c : bm_ctx_t)
    (s : String) (w : exec_log) :
    bm_rule_executor (recording_funcs st outs) (some c) [s] w =
      some (if matching_rules (invocation_name s) = [] then 3
          else first_failure st (matching_rules (invocation_name s)),
        w ++ (run_until_failure st (matching_rules (invocation_name s))).map
          (fun name => (name, invocation_args s))) := by
  have hfp : ∀ (x : String) (w : exec_log),
      (recording_funcs st outs).fprintf_stderr x w = w := fun _ _ => rfl
  have hscan : ∀ (k : Nat) (args : Option bc_trie_t),
      k = (s.toList.takeWhile (fun ch => ch ≠ ':')).length →
      executor_rules_loop (some c) s.toList k args (rules (recording_funcs st outs)) false 0 w =
        some (scan_result st args (matching_rules (invocation_name s)) false 0 w) := by
    intro k args hk
    subst hk
    exact executor_rules_loop_recording st c s.toList _ args
      (fun name => decide ((invocation_name s).length ≤ name.length) &&
        decide (invocation_name s <+: name.toList))
      (fun name => (name_test_eq s.toList name).symm) _
      (recording_rule_execute st outs c) false 0 w
  unfold bm_rule_executor
  simp only [executor_loop, strchr_eq, hfp, ite_self]
  by_cases hmem : ':' ∈ s.toList
  · simp only [hmem, if_true]
    rw [hscan _ _ rfl, drop_length_takeWhile]
    have hargs : invocation_args s = bm_rule_parse_args
        (some (String.mk (s.toList.dropWhile (fun ch => ch ≠ ':')))) := by
      simp only [invocation_args, hmem, if_true]
    rw [← hargs]
    cases hm : matching_rules (invocation_name s) with
    | nil => simp [scan_result_nil, run_until_failure]
    | cons name m =>
      by_cases hst : st name = 0
      · rw [scan_result_cons_success _ _ _ _ _ _ _ hst]
        by_cases hff : first_failure st m = 0
        · simp [scan_result, first_failure, run_until_failure, hst, hff]
        · simp [scan_result, first_failure, run_until_failure, hst, hff]
          intro hnil
          subst hnil
          exact absurd rfl hff
      · rw [scan_result_cons_failure _ _ _ _ _ _ _ hst]
        simp [first_failure, run_until_failure, hst]
  · simp only [hmem, if_false]
    rw [hscan _ _ (by rw [takeWhile_eq_self_of_not_mem _ _ hmem])]
    have hargs : invocation_args s = none := by
      simp only [invocation_args, hmem, if_false]
    rw [← hargs]
    cases hm : matching_rules (invocation_name s) with
    | nil => simp [scan_result_nil, run_until_failure]
    | cons name m =>
      by_cases hst : st name = 0
      · rw [scan_result_cons_success _ _ _ _ _ _ _ hst]
        by_cases hff : first_failure st m = 0
        · simp [scan_result, first_failure, run_until_failure, hst, hff]
        · simp [scan_result, first_failure, run_until_failure, hst, hff]
          intro hnil
          subst hnil
          exact absurd rfl hff
      · rw [scan_result_cons_failure _ _ _ _ _ _ _ hst]
        simp [first_failure, run_until_failure, hst]

/-- C10: for every invocation string, with `n` the text before its first `:`
(the whole string when it has none), `bm_rule_executor` executes the table
entries whose name is at least as long as `n` and begins with `n`, all of them
and no other, in table order, as long as each returns 0; the status is 3 when no
entry matches. The text `p` runs pagination, posts and pages, in that order;
the text `copy` runs copy alone. -/
theorem executor_runs_matching_rules (st : String → Int) (outs : String → bc_slist_t)
    (c : bm_ctx_t) (s : String) (w : exec_log) :
    bm_rule_executor (recording_funcs st outs) (some c) [s] w =
      some (if matching_rules (invocation_name s) = [] then 3
          else first_failure st (matching_rules (invocation_name s)),
        w ++ (run_until_failure st (matching_rules (invocation_name s))).map
          (fun name => (name, invocation_args s))) ∧
    matching_rules (invocation_name "p") = ["pagination", "posts", "pages"] ∧
    matching_rules (invocation_name "copy:a=b") = ["copy"] :=
  ⟨executor_single st outs c s w, by decide, by decide⟩

/-! ## Lists of invocation strings -/

theorem executor_loop_recording (st : String → Int) (outs : String → bc_slist_t)
    (c : bm_ctx_t) (l : List String) :
    ∀ (rv : Int) (w : exec_log),
      executor_loop (recording_funcs st outs) (some c) l rv w =
        some (run_invocations st l rv w) := by
  have hfp : ∀ (x : String) (w : exec_log),
      (recording_funcs st outs).fprintf_stderr x w = w := fun _ _ => rfl
  induction l with
  | nil => intro rv w; rfl
  | cons s l ih =>
    intro rv w
    have hscan : ∀ (k : Nat) (args : Option bc_trie_t),
        k = (s.toList.takeWhile (fun ch => ch ≠ ':')).length →
        executor_rules_loop (some c) s.toList k args (rules (recording_funcs st outs))
            false rv w =
          some (scan_result st args (matching_rules (invocation_name s)) false rv w) := by
      intro k args hk
      subst hk
      exact executor_rules_loop_recording st c s.toList _ args
        (fun name => decide ((invocation_name s).length ≤ name.length) &&
          decide (invocation_name s <+: name.toList))
        (fun name => (name_test_eq s.toList name).symm) _
        (recording_rule_execute st outs c) false rv w
    have hunfold : ∀ (b1 b2 : Bool) (rv1 : Int) (w1 : exec_log),
        scan_result st (invocation_args s) (matching_rules (invocation_name s)) false rv w =
          (b1, b2, rv1, w1) →
        executor_loop (recording_funcs st outs) (some c) (s :: l) rv w =
          if b1 = true then some (rv1, w1)
          else if b2 = true then executor_loop (recording_funcs st outs) (some c) l rv1 w1
          else executor_loop (recording_funcs st outs) (some c) l 3 w1 := by
      intro b1 b2 rv1 w1 hR
      by_cases hmem : ':' ∈ s.toList
      · have hargs : invocation_args s = bm_rule_parse_args
            (some (String.mk (s.toList.dropWhile (fun ch => ch ≠ ':')))) := by
          simp only [invocation_args, hmem, if_true]
        simp only [executor_loop, strchr_eq, hfp, ite_self, hmem, if_true]
        rw [hscan _ _ rfl, drop_length_takeWhile, ← hargs, hR]
        cases b1 <;> cases b2 <;> rfl
      · have hargs : invocation_args s = none := by
          simp only [invocation_args, hmem, if_false]
        simp only [executor_loop, strchr_eq, hfp, ite_self, hmem, if_false]
        rw [hscan _ _ (by rw [takeWhile_eq_self_of_not_mem _ _ hmem]), ← hargs, hR]
        cases b1 <;> cases b2 <;> rfl
    rw [run_invocations]
    cases hm : matching_rules (invocation_name s) with
    | nil =>
      rw [hunfold false false rv w (by rw [hm, scan_result_nil])]
      simp only [ih, first_failure, run_until_failure, ne_eq, not_true_eq_false,
        if_false, if_true, List.map_nil, List.append_nil, Bool.false_eq_true]
    | cons name m =>
      by_cases hff : first_failure st (name :: m) = 0
      · rw [hunfold false true 0 (w ++ (run_until_failure st (name :: m)).map
          (fun name => (name, invocation_args s))) (by rw [hm]; simp [scan_result, hff])]
        simp only [ih, hff, ne_eq, not_true_eq_false, if_false, if_true, reduceCtorEq,
          Bool.false_eq_true]
      · rw [hunfold true true (first_failure st (name :: m))
          (w ++ (run_until_failure st (name :: m)).map
            (fun name => (name, invocation_args s))) (by rw [hm]; simp [scan_result, hff])]
        simp only [hff, ne_eq, not_false_eq_true, if_true]

theorem first_failure_of_all_zero (st : String → Int) (m : List String)
    (h : ∀ name ∈ m, st name = 0) :
    first_failure st m = 0 ∧ run_until_failure st m = m := by
  induction m with
  | nil => exact ⟨rfl, rfl⟩
  | cons x xs ih =>
    have hx : st x = 0 := h x (List.mem_cons_self _ _)
    obtain ⟨h1, h2⟩ := ih (fun name hn => h name (List.mem_cons_of_mem _ hn))
    simp [first_failure, run_until_failure, hx, h1, h2]

theorem run_invocations_of_all_zero (st : String → Int) (l : List String)
    (hzero : ∀ s ∈ l, ∀ name ∈ matching_rules (invocation_name s), st name = 0) :
    ∀ (rv : Int) (w : exec_log),
      run_invocations st l rv w =
        ((match l.getLast? with
          | none => rv
          | some s => if matching_rules (invocation_name s) = [] then 3 else 0),
          w ++ l.flatMap (fun s => (matching_rules (invocation_name s)).map
            (fun name => (name, invocation_args s)))) := by
  induction l with
  | nil => intro rv w; simp [run_invocations]
  | cons s l ih =>
    intro rv w
    obtain ⟨h1, h2⟩ := first_failure_of_all_zero st _ (hzero s (List.mem_cons_self _ _))
    have ih2 := ih (fun s' hs' => hzero s' (List.mem_cons_of_mem _ hs'))
    rw [run_invocations, h1, h2, if_neg (by simp), ih2]
    cases l with
    | nil => simp
    | cons x xs =>
      rw [List.getLast?_cons_cons, List.flatMap_cons, List.append_assoc]
      cases hgl : (x :: xs).getLast? with
      | none => simp at hgl
      | some y => rfl

/-- C11: for every non-null context and every list of invocation strings in
which each executed rule returns 0, `bm_rule_executor` processes every string
of the list (the rules each string matches are executed, string after string)
and returns 3 when the last string matches no table entry and 0 otherwise, 0
for the empty list: a status 3 recorded for an earlier string is overwritten. -/
theorem executor_status_of_last (st : String → Int) (outs : String → bc_slist_t)
    (c : bm_ctx_t) (l : List String) (w : exec_log)
    (hzero : ∀ s ∈ l, ∀ name ∈ matching_rules (invocation_name s), st name = 0) :
    bm_rule_executor (recording_funcs st outs) (some c) l w =
      some ((match l.getLast? with
          | none => 0
          | some s => if matching_rules (invocation_name s) = [] then 3 else 0),
        w ++ l.flatMap (fun s => (matching_rules (invocation_name s)).map
          (fun name => (name, invocation_args s)))) := by
  unfold bm_rule_executor
  simp only []
  rw [executor_loop_recording, run_invocations_of_all_zero st l hzero]

/-- An unknown rule followed by `copy`: status 0, copy executed; the other way
round: status 3, copy executed. -/
theorem executor_status_of_last_witness :
    bm_rule_executor (recording_funcs (fun _ => 0) sample_outs) (some sample_site_ctx)
        ["nope", "copy"] [] = some (0, [("copy", none)]) ∧
    bm_rule_executor (recording_funcs (fun _ => 0) sample_outs) (some sample_site_ctx)
        ["copy", "nope"] [] = some (3, [("copy", none)]) := by
  constructor
  · rw [executor_status_of_last (fun _ => 0) sample_outs sample_site_ctx ["nope", "copy"] []
      (fun _ _ _ _ => rfl)]
    rfl
  · rw [executor_status_of_last (fun _ => 0) sample_outs sample_site_ctx ["copy", "nope"] []
      (fun _ _ _ _ => rfl)]
    rfl

theorem run_until_failure_spec (st : String → Int) (m : List String) :
    (first_failure st m = 0 ∧ ∀ name ∈ run_until_failure st m, st name = 0) ∨
    (first_failure st m ≠ 0 ∧ ∃ pre name, run_until_failure st m = pre ++ [name] ∧
      (∀ x ∈ pre, st x = 0) ∧ st name = first_failure st m) := by
  induction m with
  | nil => left; exact ⟨rfl, by simp [run_until_failure]⟩
  | cons x xs ih =>
    by_cases hx : st x = 0
    · rcases ih with ⟨h1, h2⟩ | ⟨h1, pre, name, h2, h3, h4⟩
      · left
        refine ⟨by simp [first_failure, hx, h1], ?_⟩
        intro name hn
        simp only [run_until_failure, hx, ne_eq, not_true_eq_false, if_false,
          List.mem_cons] at hn
        rcases hn with hn | hn
        · rw [hn]; exact hx
        · exact h2 name hn
      · right
        refine ⟨by simp [first_failure, hx, h1], x :: pre, name, ?_, ?_, ?_⟩
        · simp [run_until_failure, hx, h2]
        · intro y hy
          rcases List.mem_cons.mp hy with hy | hy
          · rw [hy]; exact hx
          · exact h3 y hy
        · simp [first_failure, hx, h4]
    · right
      exact ⟨by simp [first_failure, hx], [], x, by simp [run_until_failure, hx],
        by simp, by simp [first_failure, hx]⟩

theorem run_invocations_spec (st : String → Int) (l : List String) :
    ∀ (rv : Int) (w : exec_log), (∀ e ∈ w, st e.1 = 0) →
      (∀ e ∈ (run_invocations st l rv w).2, st e.1 = 0) ∨
      (∃ pre e, (run_invocations st l rv w).2 = pre ++ [e] ∧ (∀ x ∈ pre, st x.1 = 0) ∧
        st e.1 ≠ 0 ∧ (run_invocations st l rv w).1 = st e.1) := by
  induction l with
  | nil => intro rv w hw; left; simpa [run_invocations] using hw
  | cons s l ih =>
    intro rv w hw
    rw [run_invocations]
    rcases run_until_failure_spec st (matching_rules (invocation_name s)) with
      ⟨h1, h2⟩ | ⟨h1, pre, name, h2, h3, h4⟩
    · rw [if_neg (by simp [h1])]
      apply ih
      intro e he
      rcases List.mem_append.mp he with he | he
      · exact hw e he
      · obtain ⟨name, hn, rfl⟩ := List.mem_map.mp he
        exact h2 name hn
    · rw [if_pos h1]
      right
      refine ⟨w ++ pre.map (fun name => (name, invocation_args s)),
        (name, invocation_args s), ?_, ?_, ?_, ?_⟩
      · simp [h2]
      · intro x hx
        rcases List.mem_append.mp hx with hx | hx
        · exact hw x hx
        · obtain ⟨y, hy, rfl⟩ := List.mem_map.mp hx
          exact h3 y hy
      · simp only []; rw [h4]; exact h1
      · simp only []; rw [h4]

/-- C12: for every list of invocation strings, the run of `bm_rule_executor`
either executes only rules that return 0, or it ends with the execution of the
first rule that returns a nonzero status: that execution is the last of the log
(no further table entry and no further invocation string is executed) and its
status is the status returned. -/
theorem executor_stops_at_failure (st : String → Int) (outs : String → bc_slist_t)
    (c : bm_ctx_t) (l : List String) :
    ∃ rv log, bm_rule_executor (recording_funcs st outs) (some c) l [] = some (rv, log) ∧
      ((∀ e ∈ log, st e.1 = 0) ∨
        (∃ pre e, log = pre ++ [e] ∧ (∀ x ∈ pre, st x.1 = 0) ∧ st e.1 ≠ 0 ∧ rv = st e.1)) := by
  refine ⟨(run_invocations st l 0 []).1, (run_invocations st l 0 []).2, ?_, ?_⟩
  · unfold bm_rule_executor
    simp only []
    rw [executor_loop_recording]
  · exact run_invocations_spec st l 0 [] (by simp)

/-! ## Malformed argument blocks -/

theorem takeWhile_append_sep (n r : List Char) (h : ':' ∉ n) :
    (n ++ ':' :: r).takeWhile (fun ch => ch ≠ ':') = n := by
  induction n with
  | nil => simp [List.takeWhile]
  | cons x xs ih =>
    have hx : decide (x ≠ ':') = true := by
      simp only [ne_eq, decide_not, Bool.not_eq_true', decide_eq_false_iff_not]
      intro hxc
      exact h (by simp [hxc])
    have hm : ':' ∉ xs := fun hm => h (List.mem_cons_of_mem _ hm)
    rw [List.cons_append, List.takeWhile_cons]
    simp only [hx, if_true]
    rw [ih hm]

theorem dropWhile_append_sep (n r : List Char) (h : ':' ∉ n) :
    (n ++ ':' :: r).dropWhile (fun ch => ch ≠ ':') = ':' :: r := by
  induction n with
  | nil => simp [List.dropWhile]
  | cons x xs ih =>
    have hx : decide (x ≠ ':') = true := by
      simp only [ne_eq, decide_not, Bool.not_eq_true', decide_eq_false_iff_not]
      intro hxc
      exact h (by simp [hxc])
    have hm : ':' ∉ xs := fun hm => h (List.mem_cons_of_mem _ hm)
    rw [List.cons_append, List.dropWhile_cons]
    simp only [hx, if_true]
    rw [ih hm]

theorem invocation_with_block (name block : String) (h : ':' ∉ name.toList) :
    invocation_name (name ++ ":" ++ block) = name.toList ∧
    invocation_args (name ++ ":" ++ block) = bm_rule_parse_args (some (":" ++ block)) := by
  have hl : (name ++ ":" ++ block).toList = name.toList ++ ':' :: block.toList := by
    show (name ++ ":" ++ block).data = name.data ++ ':' :: block.data
    rw [String.data_append, String.data_append]
    simp
  have hb : String.mk (':' :: block.toList) = ":" ++ block := by
    apply String.ext
    show ':' :: block.data = (":" ++ block).data
    rw [String.data_append]
    rfl
  constructor
  · unfold invocation_name
    rw [hl, takeWhile_append_sep _ _ h]
  · unfold invocation_args
    rw [hl, dropWhile_append_sep _ _ h, if_pos (by simp), hb]

theorem invocation_bare (name : String) (h : ':' ∉ name.toList) :
    invocation_name name = name.toList ∧ invocation_args name = none := by
  constructor
  · unfold invocation_name
    exact takeWhile_eq_self_of_not_mem _ _ h
  · unfold invocation_args
    rw [if_neg h]

/-- C13: for every invocation string `name:block` whose block
`bm_rule_parse_args` fails to parse, `bm_rule_executor` executes the same rules,
in the same order and with the same status, as for the bare string `name`, each
of them with absent (`NULL`) arguments; the malformed block neither aborts the
run nor changes the status. -/
theorem executor_malformed_block (st : String → Int) (outs : String → bc_slist_t)
    (c : bm_ctx_t) (name block : String) (w : exec_log)
    (hname : ':' ∉ name.toList)
    (hbad : bm_rule_parse_args (some (":" ++ block)) = none) :
    bm_rule_executor (recording_funcs st outs) (some c) [name ++ ":" ++ block] w =
      bm_rule_executor (recording_funcs st outs) (some c) [name] w ∧
    bm_rule_executor (recording_funcs st outs) (some c) [name ++ ":" ++ block] w =
      some (if matching_rules name.toList = [] then 3
          else first_failure st (matching_rules name.toList),
        w ++ (run_until_failure st (matching_rules name.toList)).map
          (fun rule => (rule, none))) := by
  obtain ⟨h1, h2⟩ := invocation_with_block name block hname
  obtain ⟨h3, h4⟩ := invocation_bare name hname
  have hb := executor_single st outs c (name ++ ":" ++ block) w
  have hn := executor_single st outs c name w
  rw [h1, h2, hbad] at hb
  rw [h3, h4] at hn
  exact ⟨hb.trans hn.symm, hb⟩

/-- The string `atom_tags:bad` runs `atom_tags` with absent arguments and
returns its status. -/
theorem executor_malformed_block_witness :
    bm_rule_executor (recording_funcs (fun _ => 0) sample_outs) (some sample_site_ctx)
      ["atom_tags:bad"] [] = some (0, [("atom_tags", none)]) := by
  have h := (executor_malformed_block (fun _ => 0) sample_outs sample_site_ctx
    "atom_tags" "bad" [] (by decide) (by decide)).2
  have e : ("atom_tags" ++ ":" ++ "bad" : String) = "atom_tags:bad" := by decide
  rw [e] at h
  rw [h]
  rfl

/-! ## `bm_rule_parse_args` -/

theorem strchr_append (c : Char) (a r : List Char) (h : c ∉ a) :
    strchr (a ++ c :: r) c = some a.length := by
  induction a with
  | nil => simp [strchr]
  | cons x xs ih =>
    have hx : ¬ x = c := fun hxc => h (by simp [hxc])
    have hm : c ∉ xs := fun hm => h (List.mem_cons_of_mem _ hm)
    simp [strchr, hx, ih hm]

theorem strchr_none_of_not_mem (c : Char) (a : List Char) (h : c ∉ a) : strchr a c = none := by
  rw [strchr_eq, if_neg h]

theorem strchr_some_split (c : Char) (t : List Char) (i : Nat) (h : strchr t c = some i) :
    ∃ a r, t = a ++ c :: r ∧ c ∉ a ∧ a.length = i ∧ t.take i = a ∧ t.drop (i + 1) = r := by
  induction t generalizing i with
  | nil => simp [strchr] at h
  | cons x xs ih =>
    by_cases hx : x = c
    · subst hx
      simp only [strchr, if_true, Option.some.injEq] at h
      subst h
      exact ⟨[], xs, rfl, by simp, rfl, rfl, rfl⟩
    · simp only [strchr, hx, if_false, Option.map_eq_some'] at h
      obtain ⟨j, hj, rfl⟩ := h
      obtain ⟨a, r, h1, h2, h3, h4, h5⟩ := ih j hj
      refine ⟨x :: a, r, by rw [h1]; rfl, ?_, by simp [h3], by simp [h4], by simp [h5]⟩
      intro hm
      rcases List.mem_cons.mp hm with hm | hm
      · exact hx hm.symm
      · exact h2 hm

theorem split_unique (c : Char) (a a' b b' : List Char) (ha : c ∉ a) (ha' : c ∉ a')
    (h : a ++ c :: b = a' ++ c :: b') : a = a' ∧ b = b' := by
  induction a generalizing a' with
  | nil =>
    cases a' with
    | nil => simpa using h
    | cons y ys =>
      simp only [List.nil_append, List.cons_append, List.cons.injEq] at h
      exact absurd (by simp [h.1]) ha'
  | cons x xs ih =>
    cases a' with
    | nil =>
      simp only [List.nil_append, List.cons_append, List.cons.injEq] at h
      exact absurd (by simp [h.1]) ha
    | cons y ys =>
      simp only [List.cons_append, List.cons.injEq] at h
      obtain ⟨h1, h2⟩ := ih ys (fun hm => ha (List.mem_cons_of_mem _ hm))
        (fun hm => ha' (List.mem_cons_of_mem _ hm)) h.2
      exact ⟨by rw [h.1, h1], h2⟩

theorem take_append_cons (c : Char) (a r : List Char) : (a ++ c :: r).take a.length = a := by
  induction a with
  | nil => rfl
  | cons x xs ih => simp [ih]

theorem drop_append_cons (c : Char) (a r : List Char) :
    (a ++ c :: r).drop (a.length + 1) = r := by
  induction a with
  | nil => rfl
  | cons x xs ih => simp

theorem parse_args_loop_no_equals (fuel : Nat) (t : List Char) (rv : bc_trie_t)
    (h : '=' ∉ t) : parse_args_loop fuel t rv = none := by
  cases fuel with
  | zero => rfl
  | succ fuel => simp only [parse_args_loop, strchr_none_of_not_mem _ _ h]

theorem parse_args_loop_last (fuel : Nat) (k v : List Char) (rv : bc_trie_t)
    (hk : '=' ∉ k) (hv : ',' ∉ v) :
    parse_args_loop (fuel + 1) (k ++ '=' :: v) rv =
      some (bc_trie_insert rv (String.mk k) (some (String.mk v))) := by
  simp only [parse_args_loop, strchr_append _ _ _ hk, take_append_cons, drop_append_cons,
    strchr_none_of_not_mem _ _ hv]

theorem parse_args_loop_more (fuel : Nat) (k v rest : List Char) (rv : bc_trie_t)
    (hk : '=' ∉ k) (hv : ',' ∉ v) :
    parse_args_loop (fuel + 1) (k ++ '=' :: (v ++ ',' :: rest)) rv =
      parse_args_loop fuel rest (bc_trie_insert rv (String.mk k) (some (String.mk v))) := by
  simp only [parse_args_loop, strchr_append _ _ _ hk, take_append_cons, drop_append_cons,
    strchr_append _ _ _ hv]

theorem parse_args_loop_pairs (ps : List (String × String)) :
    ps ≠ [] → (∀ p ∈ ps, '=' ∉ p.1.toList ∧ ',' ∉ p.2.toList) →
    ∀ (fuel : Nat) (rv : bc_trie_t), ps.length ≤ fuel →
      parse_args_loop fuel (args_text ps) rv = some (insert_pairs rv ps) := by
  induction ps with
  | nil => intro h; exact absurd rfl h
  | cons p ps ih =>
    intro _ hok fuel rv hfuel
    obtain ⟨hk, hv⟩ := hok p (List.mem_cons_self _ _)
    cases fuel with
    | zero => simp at hfuel
    | succ fuel =>
      cases ps with
      | nil =>
        rw [args_text, parse_args_loop_last _ _ _ _ hk hv]
        rfl
      | cons q qs =>
        have ih2 := ih (by simp) (fun x hx => hok x (List.mem_cons_of_mem _ hx)) fuel
          (bc_trie_insert rv p.1 (some p.2)) (by simpa using hfuel)
        rw [args_text, parse_args_loop_more _ _ _ _ _ hk hv]
        exact ih2

theorem args_text_length (ps : List (String × String)) : ps.length ≤ (args_text ps).length := by
  induction ps with
  | nil => simp
  | cons p ps ih =>
    cases ps with
    | nil =>
      simp only [args_text, List.length_cons, List.length_append, List.length_nil]
      omega
    | cons q qs =>
      simp only [args_text, List.length_cons, List.length_append] at ih ⊢
      omega

theorem lookup_insert_pairs (ps : List (String × String)) (key : String) :
    ∀ rv : bc_trie_t, bc_trie_lookup (insert_pairs rv ps) key =
      match ps.reverse.find? (fun p => p.1 = key) with
      | some p => some p.2
      | none => bc_trie_lookup rv key := by
  induction ps with
  | nil => intro rv; rfl
  | cons p ps ih =>
    intro rv
    have hstep : insert_pairs rv (p :: ps) = insert_pairs (bc_trie_insert rv p.1 (some p.2)) ps :=
      rfl
    rw [hstep, ih, List.reverse_cons, List.find?_append]
    cases hf : ps.reverse.find? (fun p => p.1 = key) with
    | some q => rfl
    | none =>
      by_cases hk : p.1 = key
      · simp only [hk, Option.none_or, List.find?_cons_of_pos, decide_True]
        rw [← hk, bc_trie_lookup_insert_self]
      · simp only [Option.none_or, List.find?_cons_of_neg, hk, decide_False,
          Bool.false_eq_true, not_false_eq_true, List.find?_nil]
        rw [bc_trie_lookup_insert_other _ _ _ _ hk]

/-- C14: for every non-empty list of pairs in which no key contains `=` and no
value contains `,` (keys may hold commas and values may hold `=`),
`bm_rule_parse_args` applied to `:` followed by the pairs written `key=value`
and joined by `,`, without a comma after the last pair, returns the mapping
obtained by inserting the pairs in order into the empty mapping; a later pair
overwrites an earlier one with the same key, so that the value of a key is that
of the last pair with this key. -/
theorem parse_args_pairs (ps : List (String × String)) (hne : ps ≠ [])
    (hok : ∀ p ∈ ps, '=' ∉ p.1.toList ∧ ',' ∉ p.2.toList) :
    bm_rule_parse_args (some (String.mk (':' :: args_text ps))) =
      some (insert_pairs [] ps) ∧
    ∀ key, bc_trie_lookup (insert_pairs [] ps) key =
      ((ps.reverse.find? (fun p => p.1 = key)).map (fun p => p.2)) := by
  constructor
  · show parse_args_loop ((args_text ps).length + 1) (args_text ps) [] = _
    exact parse_args_loop_pairs ps hne hok _ [] (le_trans (args_text_length ps) (Nat.le_succ _))
  · intro key
    rw [lookup_insert_pairs]
    cases ps.reverse.find? (fun p => p.1 = key) <;> rfl

/-- The block `:a=1,b=x=y,a=2` gives `a` the value `2` and `b` the value
`x=y`. -/
theorem parse_args_pairs_witness :
    bm_rule_parse_args (some ":a=1,b=x=y,a=2") = some [("a", "2"), ("b", "x=y")] := by
  have h := (parse_args_pairs [("a", "1"), ("b", "x=y"), ("a", "2")] (by simp)
    (by decide)).1
  have e : String.mk (':' :: args_text [("a", "1"), ("b", "x=y"), ("a", "2")]) =
      ":a=1,b=x=y,a=2" := by decide
  rw [e] at h
  rw [h]
  decide

theorem not_mem_of_strchr_none (c : Char) (t : List Char) (h : strchr t c = none) : c ∉ t := by
  intro hm
  rw [strchr_eq, if_pos hm] at h
  exact absurd h (by simp)

theorem args_malformed_last (k r : List Char) (hk : '=' ∉ k) (hr : ',' ∉ r) :
    ¬ args_malformed (k ++ '=' :: r) := by
  intro h
  generalize he : k ++ '=' :: r = t at h
  cases h with
  | no_equals _ h1 =>
    apply h1
    rw [← he]
    simp
  | after_comma k1 v1 rest1 hk1 hv1 h1 =>
    obtain ⟨_, h3⟩ := split_unique '=' k k1 r (v1 ++ ',' :: rest1) hk hk1 he
    apply hr
    rw [h3]
    simp

theorem args_malformed_more (k v rest : List Char) (hk : '=' ∉ k) (hv : ',' ∉ v) :
    args_malformed (k ++ '=' :: (v ++ ',' :: rest)) ↔ args_malformed rest := by
  constructor
  · intro h
    generalize he : k ++ '=' :: (v ++ ',' :: rest) = t at h
    cases h with
    | no_equals _ h1 =>
      exfalso
      apply h1
      rw [← he]
      simp
    | after_comma k1 v1 rest1 hk1 hv1 h1 =>
      obtain ⟨_, h3⟩ := split_unique '=' k k1 _ _ hk hk1 he
      obtain ⟨_, h5⟩ := split_unique ',' v v1 _ _ hv hv1 h3
      rw [h5]
      exact h1
  · intro h
    exact args_malformed.after_comma k v rest hk hv h

theorem parse_args_loop_none_iff (fuel : Nat) :
    ∀ (t : List Char), t.length < fuel → ∀ rv : bc_trie_t,
      (parse_args_loop fuel t rv = none ↔ args_malformed t) := by
  induction fuel with
  | zero => intro t ht; simp at ht
  | succ fuel ih =>
    intro t ht rv
    cases hs : strchr t '=' with
    | none =>
      have hn := not_mem_of_strchr_none _ _ hs
      rw [parse_args_loop_no_equals _ _ _ hn]
      exact ⟨fun _ => args_malformed.no_equals t hn, fun _ => rfl⟩
    | some i =>
      obtain ⟨k, r, h1, hk, _, _, _⟩ := strchr_some_split _ _ _ hs
      subst h1
      cases hs2 : strchr r ',' with
      | none =>
        have hr := not_mem_of_strchr_none _ _ hs2
        rw [parse_args_loop_last _ _ _ _ hk hr]
        exact ⟨fun h => by simp at h, fun h => absurd h (args_malformed_last k r hk hr)⟩
      | some j =>
        obtain ⟨v, rest, h2, hv, _, _, _⟩ := strchr_some_split _ _ _ hs2
        subst h2
        rw [parse_args_loop_more _ _ _ _ _ hk hv, args_malformed_more k v rest hk hv]
        apply ih
        simp only [List.length_append, List.length_cons] at ht
        omega

/-- C15: `bm_rule_parse_args` returns no mapping for `NULL`, for the empty
string and for every string that does not start with `:`; for a string that
starts with `:` it returns no mapping exactly when the text right after the `:`,
or right after a comma that ends a value, holds no `=`, and a mapping
otherwise. The strings `:`, `:bad`, `:a=b,c` and `:a=b,` give no mapping. -/
theorem parse_args_none_iff :
    bm_rule_parse_args none = none ∧
    bm_rule_parse_args (some "") = none ∧
    (∀ s : String, (∀ t, s.toList ≠ ':' :: t) → bm_rule_parse_args (some s) = none) ∧
    (∀ t : List Char,
      (bm_rule_parse_args (some (String.mk (':' :: t))) = none ↔ args_malformed t) ∧
      (¬ args_malformed t → ∃ rv, bm_rule_parse_args (some (String.mk (':' :: t))) = some rv)) ∧
    bm_rule_parse_args (some ":") = none ∧
    bm_rule_parse_args (some ":bad") = none ∧
    bm_rule_parse_args (some ":a=b,c") = none ∧
    bm_rule_parse_args (some ":a=b,") = none := by
  have hiff : ∀ t : List Char,
      (bm_rule_parse_args (some (String.mk (':' :: t))) = none ↔ args_malformed t) := by
    intro t
    show parse_args_loop (t.length + 1) t [] = none ↔ _
    exact parse_args_loop_none_iff _ t (Nat.lt_succ_self _) []
  refine ⟨rfl, rfl, ?_, ?_, by decide, by decide, by decide, by decide⟩
  · intro s hs
    have hdef : bm_rule_parse_args (some s) =
        match s.toList with
        | ':' :: end_ => parse_args_loop (end_.length + 1) end_ []
        | _ => none := rfl
    rw [hdef]
    split
    · rename_i e heq
      exact absurd heq (hs e)
    · rfl
  · intro t
    refine ⟨hiff t, ?_⟩
    intro h
    cases hp : bm_rule_parse_args (some (String.mk (':' :: t))) with
    | none => exact absurd ((hiff t).mp hp) h
    | some rv => exact ⟨rv, rfl⟩


/-! ## The naming of the page outputs -/

theorem pages_outputlist_eq (bm_filectx_new : bm_ctx_t → String → bm_filectx_t)
    (c : bm_ctx_t) (pages : List String) (ext : String)
    (hpages : c.settings.pages = some pages)
    (he : bc_trie_lookup c.settings.settings "html_ext" = some ext) :
    pages_outputlist bm_filectx_new (some c) =
      some (pages.map (fun page => some (bm_filectx_new c
        (c.short_output_dir ++
          (if (page = "index" && str_starts_with_slash ext) = true then "" else "/") ++
          (if (page = "index" && str_starts_with_slash ext) = true then "" else page) ++
          ext)))) := by
  unfold pages_outputlist
  simp only [hpages, he]
  refine (outputlist_loop_eq _ (fun page => bm_filectx_new c
    (c.short_output_dir ++
      (if (page = "index" && str_starts_with_slash ext) = true then "" else "/") ++
      (if (page = "index" && str_starts_with_slash ext) = true then "" else page) ++ ext))
    _ ?_ _).trans ?_
  · intro _ _; rfl
  · rfl

/-- C18: for every declared page list and every `html_ext` setting,
`pages_outputlist` returns one output per page; the output of a page named
exactly `index`, when `html_ext` begins with `/`, is the handle of the output
directory immediately followed by `html_ext`; the output of every other page,
and of `index` when `html_ext` does not begin with `/`, is the handle of the
output directory, `/`, the page name and `html_ext`. -/
theorem pages_outputlist_index_naming (bm_filectx_new : bm_ctx_t → String → bm_filectx_t)
    (c : bm_ctx_t) (pages : List String) (ext : String)
    (hpages : c.settings.pages = some pages)
    (he : bc_trie_lookup c.settings.settings "html_ext" = some ext) :
    ∃ outs, pages_outputlist bm_filectx_new (some c) = some outs ∧
      outs.length = pages.length ∧
      (∀ i : Nat, pages[i]? = some "index" → str_starts_with_slash ext = true →
        outs[i]? = some (some (bm_filectx_new c (c.short_output_dir ++ ext)))) ∧
      (∀ (i : Nat) (page : String), pages[i]? = some page →
        page ≠ "index" ∨ str_starts_with_slash ext = false →
        outs[i]? = some (some (bm_filectx_new c
          (c.short_output_dir ++ "/" ++ page ++ ext)))) := by
  refine ⟨_, pages_outputlist_eq bm_filectx_new c pages ext hpages he, ?_, ?_, ?_⟩
  · simp
  · intro i hi hs
    rw [List.getElem?_map, hi]
    simp [hs]
  · intro i page hi h
    rw [List.getElem?_map, hi]
    rcases h with h | h
    · simp [h]
    · simp [h]

/-- The pages `index` and `about` of the sample site with the extension
`/index.html`, and the page `index` with the extension `.html`. -/
theorem pages_outputlist_index_naming_witness :
    (∃ outs, pages_outputlist sample_filectx_new (some sample_site_ctx) = some outs ∧
      outs.map (Option.map bm_filectx_t.path) =
        [some "_build/index.html", some "_build/about/index.html"]) ∧
    (pages_outputlist sample_filectx_new
        (some { sample_site_ctx with settings :=
          { sample_site_ctx.settings with settings := [("html_ext", ".html")] } })).map
      (List.map (Option.map bm_filectx_t.path)) =
        some [some "_build/index.html", some "_build/about.html"] := by
  obtain ⟨outs, h, hlen, h1, h2⟩ := pages_outputlist_index_naming sample_filectx_new
    sample_site_ctx ["index", "about"] "/index.html" rfl (by decide)
  refine ⟨⟨outs, h, ?_⟩, by decide⟩
  have e0 := h1 0 rfl (by decide)
  have e1 := h2 1 "about" rfl (Or.inl (by decide))
  match outs, hlen, e0, e1 with
  | [a, b], _, e0, e1 =>
    simp only [List.getElem?_cons_zero, List.getElem?_cons_succ, Option.some.injEq] at e0 e1
    subst e0 e1
    decide


/-! ## Loops over output lists -/

theorem stale_calls_nil {ι α : Type} (stale : ι → bm_filectx_t → Bool)
    (mk : ι → bm_filectx_t → α) : stale_calls stale mk [] = [] := rfl

theorem stale_calls_cons_none {ι α : Type} (stale : ι → bm_filectx_t → Bool)
    (mk : ι → bm_filectx_t → α) (p : ι) (l : List (ι × Option bm_filectx_t)) :
    stale_calls stale mk ((p, none) :: l) = stale_calls stale mk l := by
  simp [stale_calls]

theorem stale_calls_cons_stale {ι α : Type} (stale : ι → bm_filectx_t → Bool)
    (mk : ι → bm_filectx_t → α) (p : ι) (f : bm_filectx_t)
    (l : List (ι × Option bm_filectx_t)) (h : stale p f = true) :
    stale_calls stale mk ((p, some f) :: l) = mk p f :: stale_calls stale mk l := by
  simp [stale_calls, h]

theorem stale_calls_cons_fresh {ι α : Type} (stale : ι → bm_filectx_t → Bool)
    (mk : ι → bm_filectx_t → α) (p : ι) (f : bm_filectx_t)
    (l : List (ι × Option bm_filectx_t)) (h : ¬ stale p f = true) :
    stale_calls stale mk ((p, some f) :: l) = stale_calls stale mk l := by
  simp [stale_calls, h]

theorem run_calls_cons_failure {α : Type} (st : List α → α → Int) (a : α) (rest w : List α)
    (h : st w a ≠ 0) : run_calls st (a :: rest) w = (st w a, w ++ [a]) := by
  simp [run_calls, h]

theorem run_calls_cons_success {α : Type} (st : List α → α → Int) (a : α) (rest w : List α)
    (h : st w a = 0) : run_calls st (a :: rest) w = run_calls st rest (w ++ [a]) := by
  simp [run_calls, h]

theorem stale_calls_enumFrom_const {α : Type} (stale : bm_filectx_t → Bool)
    (mk : bm_filectx_t → α) (l : bc_slist_t) :
    ∀ i : Nat, stale_calls (fun _ f => stale f) (fun _ f => mk f) (l.enumFrom i) =
      l.filterMap (fun o => o.bind (fun f => if stale f then some (mk f) else none)) := by
  induction l with
  | nil => intro i; rfl
  | cons o l ih =>
    intro i
    rw [List.enumFrom_cons]
    cases o with
    | none => rw [stale_calls_cons_none, ih]; simp
    | some f =>
      by_cases h : stale f = true
      · rw [stale_calls_cons_stale _ _ _ _ _ h, ih]; simp [h]
      · rw [stale_calls_cons_fresh _ _ _ _ _ h, ih]; simp [h]

theorem run_calls_log {α : Type} (st : List α → α → Int) (l : List α) :
    ∀ w : List α, ∃ k, (run_calls st l w).2 = w ++ l.take k := by
  induction l with
  | nil => intro w; exact ⟨0, by simp [run_calls]⟩
  | cons a rest ih =>
    intro w
    by_cases hs : st w a = 0
    · obtain ⟨k, hk⟩ := ih (w ++ [a])
      exact ⟨k + 1, by rw [run_calls_cons_success _ _ _ _ hs, hk]; simp⟩
    · exact ⟨1, by rw [run_calls_cons_failure _ _ _ _ hs]; simp⟩

theorem clean_exec_loop_recording
    (st : List bm_exec_native_rm_args → bm_exec_native_rm_args → Int)
    (c : bm_ctx_t) (l : bc_slist_t) :
    ∀ (i : Nat) (w : clean_world),
      clean_exec_loop (recording_rm st) c l 0 w =
        ((run_calls st (stale_calls (fun _ f => f.readable)
            (fun _ f => (c.output_dir, f, c.verbose)) (l.enumFrom i)) w.1).1,
          ((run_calls st (stale_calls (fun _ f => f.readable)
            (fun _ f => (c.output_dir, f, c.verbose)) (l.enumFrom i)) w.1).2, w.2)) := by
  induction l with
  | nil => intro i w; rfl
  | cons o l ih =>
    intro i w
    rw [List.enumFrom_cons]
    cases o with
    | none =>
      rw [stale_calls_cons_none, ← ih (i + 1) w]
      rfl
    | some f =>
      by_cases h : f.readable = true
      · rw [stale_calls_cons_stale _ _ _ _ _ h]
        by_cases hs : st w.1 (c.output_dir, f, c.verbose) = 0
        · rw [run_calls_cons_success _ _ _ _ hs]
          have e := ih (i + 1) (w.1 ++ [(c.output_dir, f, c.verbose)], w.2)
          simp only at e
          rw [← e]
          simp [clean_exec_loop, h, recording_rm, hs]
        · rw [run_calls_cons_failure _ _ _ _ hs]
          simp [clean_exec_loop, h, recording_rm, hs]
      · rw [stale_calls_cons_fresh _ _ _ _ _ h, ← ih (i + 1) w]
        simp [clean_exec_loop, h]

/-! ## The clean rule -/

/-- C16: for every output list and every behaviour of the native remove step
(its status may depend on the call and on the calls made before), `clean_exec`
calls remove on exactly the readable outputs, in list order, up to and
including the first call that returns nonzero, never on an unreadable output,
and returns that first nonzero status, or 0 when there is none; whether the
output directory is empty afterwards decides only whether the warning is
written, not the status. -/
theorem clean_exec_removes_readable
    (st : List bm_exec_native_rm_args → bm_exec_native_rm_args → Int)
    (is_empty_dir : String → clean_world → Bool)
    (c : bm_ctx_t) (outputs : bc_slist_t) (args : Option bc_trie_t) :
    clean_exec (recording_rm st) is_empty_dir recording_stderr (some c) outputs args
        ([], []) =
      some ((run_calls st (outputs.filterMap (fun o => o.bind (fun f =>
          if f.readable then some (c.output_dir, f, c.verbose) else none))) []).1,
        ((run_calls st (outputs.filterMap (fun o => o.bind (fun f =>
          if f.readable then some (c.output_dir, f, c.verbose) else none))) []).2,
         if is_empty_dir c.output_dir
             ((run_calls st (outputs.filterMap (fun o => o.bind (fun f =>
               if f.readable then some (c.output_dir, f, c.verbose) else none))) []).2, [])
           then []
           else ["blogc-make: warning: output directory is not empty!\n"])) ∧
    ∀ a ∈ (run_calls st (outputs.filterMap (fun o => o.bind (fun f =>
          if f.readable then some (c.output_dir, f, c.verbose) else none))) []).2,
      a.2.1.readable = true ∧ some a.2.1 ∈ outputs := by
  constructor
  · unfold clean_exec
    simp only [clean_exec_loop_recording st c outputs 0 ([], []),
      stale_calls_enumFrom_const (fun f => f.readable)
        (fun f => (c.output_dir, f, c.verbose)) outputs 0]
    cases is_empty_dir c.output_dir _ <;> simp [recording_stderr]
  · intro a ha
    obtain ⟨k, hk⟩ := run_calls_log st (outputs.filterMap (fun o => o.bind (fun f =>
      if f.readable then some (c.output_dir, f, c.verbose) else none))) []
    rw [hk, List.nil_append] at ha
    have hm := List.mem_of_mem_take ha
    rw [List.mem_filterMap] at hm
    obtain ⟨o, ho, hoa⟩ := hm
    cases o with
    | none => simp at hoa
    | some f =>
      by_cases h : f.readable = true
      · simp [h] at hoa
        subst hoa
        exact ⟨h, ho⟩
      · simp [h] at hoa


/-! ## The loops of the rendering and copying executors -/

theorem bc_trie_insert_insert (t : bc_trie_t) (key a b : String) :
    bc_trie_insert (bc_trie_insert t key (some a)) key (some b) =
      bc_trie_insert t key (some b) := by
  induction t with
  | nil => simp [bc_trie_insert]
  | cons kv t ih =>
    obtain ⟨k, v⟩ := kv
    by_cases h : k = key
    · simp [bc_trie_insert, h]
    · simp [bc_trie_insert, h, ih]

theorem index_exec_loop_recording (st : List bm_exec_blogc_args → bm_exec_blogc_args → Int)
    (c : bm_ctx_t) (vars : bc_trie_t) (l : bc_slist_t) :
    ∀ (i : Nat) (w : List bm_exec_blogc_args),
      index_exec_loop (recording_render st) c vars l 0 w =
        run_calls st (stale_calls
          (fun _ f => bm_rule_need_rebuild c.posts_fctx c.settings_fctx
            c.main_template_fctx (some f) false)
          (fun _ f => listing_call c c.main_template_fctx vars f) (l.enumFrom i)) w := by
  induction l with
  | nil => intro i w; rfl
  | cons o l ih =>
    intro i w
    rw [List.enumFrom_cons]
    cases o with
    | none =>
      rw [stale_calls_cons_none, ← ih (i + 1) w]
      rfl
    | some f =>
      by_cases h : bm_rule_need_rebuild c.posts_fctx c.settings_fctx
          c.main_template_fctx (some f) false = true
      · rw [stale_calls_cons_stale _ _ _ _ _ h]
        by_cases hs : st w (listing_call c c.main_template_fctx vars f) = 0
        · rw [run_calls_cons_success _ _ _ _ hs, ← ih (i + 1)]
          have hs2 := hs
          unfold listing_call at hs2
          simp [index_exec_loop, h, recording_render, recording_call, hs2, listing_call]
        · rw [run_calls_cons_failure _ _ _ _ hs]
          have hs2 := hs
          unfold listing_call at hs2
          simp [index_exec_loop, h, recording_render, recording_call, hs2, listing_call]
      · rw [stale_calls_cons_fresh _ _ _ _ _ h, ← ih (i + 1) w]
        simp [index_exec_loop, h]

theorem atom_exec_loop_recording (st : List bm_exec_blogc_args → bm_exec_blogc_args → Int)
    (c : bm_ctx_t) (vars : bc_trie_t) (l : bc_slist_t) :
    ∀ (i : Nat) (w : List bm_exec_blogc_args),
      atom_exec_loop (recording_render st) c vars l 0 w =
        run_calls st (stale_calls
          (fun _ f => bm_rule_need_rebuild c.posts_fctx c.settings_fctx none (some f) false)
          (fun _ f => listing_call c c.atom_template_fctx vars f) (l.enumFrom i)) w := by
  induction l with
  | nil => intro i w; rfl
  | cons o l ih =>
    intro i w
    rw [List.enumFrom_cons]
    cases o with
    | none =>
      rw [stale_calls_cons_none, ← ih (i + 1) w]
      rfl
    | some f =>
      by_cases h : bm_rule_need_rebuild c.posts_fctx c.settings_fctx none (some f) false
          = true
      · rw [stale_calls_cons_stale _ _ _ _ _ h]
        by_cases hs : st w (listing_call c c.atom_template_fctx vars f) = 0
        · rw [run_calls_cons_success _ _ _ _ hs, ← ih (i + 1)]
          have hs2 := hs
          unfold listing_call at hs2
          simp [atom_exec_loop, h, recording_render, recording_call, hs2, listing_call]
        · rw [run_calls_cons_failure _ _ _ _ hs]
          have hs2 := hs
          unfold listing_call at hs2
          simp [atom_exec_loop, h, recording_render, recording_call, hs2, listing_call]
      · rw [stale_calls_cons_fresh _ _ _ _ _ h, ← ih (i + 1) w]
        simp [atom_exec_loop, h]

theorem copy_exec_loop_recording
    (st : List bm_exec_native_cp_args → bm_exec_native_cp_args → Int) (c : bm_ctx_t)
    (s : bc_slist_t) :
    ∀ (o : bc_slist_t) (w : List bm_exec_native_cp_args),
      copy_exec_loop (recording_call st) c s o 0 w =
        run_calls st (stale_calls
          (fun s f => bm_rule_need_rebuild s c.settings_fctx none (some f) true)
          (fun s f => (s.head?.join, f, c.verbose)) ((source_suffixes s).zip o)) w := by
  induction s with
  | nil => intro o w; rfl
  | cons x s ih =>
    intro o w
    cases o with
    | nil => rfl
    | cons y o =>
      rw [source_suffixes, List.zip_cons_cons]
      cases y with
      | none =>
        rw [stale_calls_cons_none, ← ih o w]
        rfl
      | some f =>
        by_cases h : bm_rule_need_rebuild (x :: s) c.settings_fctx none (some f) true = true
        · rw [stale_calls_cons_stale _ _ _ _ _ h]
          have hx : (x :: s).head?.join = x := by cases x <;> rfl
          rw [hx]
          by_cases hs : st w (x, f, c.verbose) = 0
          · rw [run_calls_cons_success _ _ _ _ hs, ← ih o]
            simp [copy_exec_loop, h, recording_call, hs]
          · rw [run_calls_cons_failure _ _ _ _ hs]
            simp [copy_exec_loop, h, recording_call, hs]
        · rw [stale_calls_cons_fresh _ _ _ _ _ h, ← ih o w]
          simp [copy_exec_loop, h]


theorem tags_at_lt (tags : List String) (i : Nat) (h : i < tags.length) :
    tags_at tags i = some (some (tags[i])) := by
  simp [tags_at, h]

theorem atom_tags_exec_loop_recording
    (st : List bm_exec_blogc_args → bm_exec_blogc_args → Int)
    (c : bm_ctx_t) (tags : List String) (vars0 : bc_trie_t) (l : bc_slist_t) :
    ∀ (i : Nat) (vars : bc_trie_t) (w : List bm_exec_blogc_args),
      i + l.length ≤ tags.length →
      (∀ x, bc_trie_insert vars "FILTER_TAG" (some x) =
        bc_trie_insert vars0 "FILTER_TAG" (some x)) →
      atom_tags_exec_loop (recording_render st) c tags l i vars 0 w =
        some (run_calls st (stale_calls
          (fun _ f => bm_rule_need_rebuild c.posts_fctx c.settings_fctx none (some f) false)
          (fun j f => listing_call c c.atom_template_fctx
            (bc_trie_insert vars0 "FILTER_TAG" tags[j]?) f) (l.enumFrom i)) w) := by
  induction l with
  | nil => intro i vars w _ _; rfl
  | cons o l ih =>
    intro i vars w hlen hvars
    rw [List.enumFrom_cons]
    rw [List.length_cons] at hlen
    cases o with
    | none =>
      rw [stale_calls_cons_none, ← ih (i + 1) vars w (by omega) hvars]
      rfl
    | some f =>
      have hi : i < tags.length := by omega
      have hnext : ∀ x, bc_trie_insert (bc_trie_insert vars "FILTER_TAG"
          (some (tags[i]))) "FILTER_TAG" (some x) =
          bc_trie_insert vars0 "FILTER_TAG" (some x) := by
        intro x
        rw [bc_trie_insert_insert, hvars]
      have hget : tags[i]? = some (tags[i]) := by simp
      by_cases h : bm_rule_need_rebuild c.posts_fctx c.settings_fctx none (some f) false
          = true
      · rw [stale_calls_cons_stale _ _ _ _ _ h, hget, ← hvars]
        by_cases hs : st w (listing_call c c.atom_template_fctx
            (bc_trie_insert vars "FILTER_TAG" (some (tags[i]))) f) = 0
        · rw [run_calls_cons_success _ _ _ _ hs, ← ih (i + 1) _ _ (by omega) hnext]
          have hs2 := hs
          unfold listing_call at hs2
          simp [atom_tags_exec_loop, tags_at_lt tags i hi, h, recording_render,
            recording_call, hs2, listing_call]
        · rw [run_calls_cons_failure _ _ _ _ hs]
          have hs2 := hs
          unfold listing_call at hs2
          simp [atom_tags_exec_loop, tags_at_lt tags i hi, h, recording_render,
            recording_call, hs2, listing_call]
      · rw [stale_calls_cons_fresh _ _ _ _ _ h, ← ih (i + 1) _ w (by omega) hnext]
        simp [atom_tags_exec_loop, tags_at_lt tags i hi, h]

theorem tags_exec_loop_recording
    (st : List bm_exec_blogc_args → bm_exec_blogc_args → Int)
    (c : bm_ctx_t) (tags : List String) (vars0 : bc_trie_t) (l : bc_slist_t) :
    ∀ (i : Nat) (vars : bc_trie_t) (w : List bm_exec_blogc_args),
      i + l.length ≤ tags.length →
      (∀ x, bc_trie_insert vars "FILTER_TAG" (some x) =
        bc_trie_insert vars0 "FILTER_TAG" (some x)) →
      tags_exec_loop (recording_render st) c tags l i vars 0 w =
        some (run_calls st (stale_calls
          (fun _ f => bm_rule_need_rebuild c.posts_fctx c.settings_fctx
            c.main_template_fctx (some f) false)
          (fun j f => listing_call c c.main_template_fctx
            (bc_trie_insert vars0 "FILTER_TAG" tags[j]?) f) (l.enumFrom i)) w) := by
  induction l with
  | nil => intro i vars w _ _; rfl
  | cons o l ih =>
    intro i vars w hlen hvars
    rw [List.enumFrom_cons]
    rw [List.length_cons] at hlen
    cases o with
    | none =>
      rw [stale_calls_cons_none, ← ih (i + 1) vars w (by omega) hvars]
      rfl
    | some f =>
      have hi : i < tags.length := by omega
      have hnext : ∀ x, bc_trie_insert (bc_trie_insert vars "FILTER_TAG"
          (some (tags[i]))) "FILTER_TAG" (some x) =
          bc_trie_insert vars0 "FILTER_TAG" (some x) := by
        intro x
        rw [bc_trie_insert_insert, hvars]
      have hget : tags[i]? = some (tags[i]) := by simp
      by_cases h : bm_rule_need_rebuild c.posts_fctx c.settings_fctx
          c.main_template_fctx (some f) false = true
      · rw [stale_calls_cons_stale _ _ _ _ _ h, hget, ← hvars]
        by_cases hs : st w (listing_call c c.main_template_fctx
            (bc_trie_insert vars "FILTER_TAG" (some (tags[i]))) f) = 0
        · rw [run_calls_cons_success _ _ _ _ hs, ← ih (i + 1) _ _ (by omega) hnext]
          have hs2 := hs
          unfold listing_call at hs2
          simp [tags_exec_loop, tags_at_lt tags i hi, h, recording_render,
            recording_call, hs2, listing_call]
        · rw [run_calls_cons_failure _ _ _ _ hs]
          have hs2 := hs
          unfold listing_call at hs2
          simp [tags_exec_loop, tags_at_lt tags i hi, h, recording_render,
            recording_call, hs2, listing_call]
      · rw [stale_calls_cons_fresh _ _ _ _ _ h, ← ih (i + 1) _ w (by omega) hnext]
        simp [tags_exec_loop, tags_at_lt tags i hi, h]

theorem pagination_exec_loop_recording
    (st : List bm_exec_blogc_args → bm_exec_blogc_args → Int)
    (c : bm_ctx_t) (vars0 : bc_trie_t) (l : bc_slist_t) :
    ∀ (page : Nat) (vars : bc_trie_t) (w : List bm_exec_blogc_args),
      (∀ x, bc_trie_insert vars "FILTER_PAGE" (some x) =
        bc_trie_insert vars0 "FILTER_PAGE" (some x)) →
      pagination_exec_loop (recording_render st) c l page vars 0 w =
        run_calls st (stale_calls
          (fun _ f => bm_rule_need_rebuild c.posts_fctx c.settings_fctx
            c.main_template_fctx (some f) false)
          (fun j f => listing_call c c.main_template_fctx
            (bc_trie_insert vars0 "FILTER_PAGE" (some (printf_decimal j))) f)
          (l.enumFrom page)) w := by
  induction l with
  | nil => intro page vars w _; rfl
  | cons o l ih =>
    intro page vars w hvars
    rw [List.enumFrom_cons]
    cases o with
    | none =>
      rw [stale_calls_cons_none, ← ih (page + 1) vars w hvars]
      rfl
    | some f =>
      have hnext : ∀ x, bc_trie_insert (bc_trie_insert vars "FILTER_PAGE"
          (some (printf_decimal page))) "FILTER_PAGE" (some x) =
          bc_trie_insert vars0 "FILTER_PAGE" (some x) := by
        intro x
        rw [bc_trie_insert_insert, hvars]
      by_cases h : bm_rule_need_rebuild c.posts_fctx c.settings_fctx
          c.main_template_fctx (some f) false = true
      · rw [stale_calls_cons_stale _ _ _ _ _ h, ← hvars]
        by_cases hs : st w (listing_call c c.main_template_fctx
            (bc_trie_insert vars "FILTER_PAGE" (some (printf_decimal page))) f) = 0
        · rw [run_calls_cons_success _ _ _ _ hs, ← ih (page + 1) _ _ hnext]
          have hs2 := hs
          unfold listing_call at hs2
          simp [pagination_exec_loop, h, recording_render, recording_call, hs2,
            listing_call]
        · rw [run_calls_cons_failure _ _ _ _ hs]
          have hs2 := hs
          unfold listing_call at hs2
          simp [pagination_exec_loop, h, recording_render, recording_call, hs2,
            listing_call]
      · rw [stale_calls_cons_fresh _ _ _ _ _ h, ← ih (page + 1) _ w hnext]
        simp [pagination_exec_loop, h]

theorem source_call_cons (c : bm_ctx_t) (vars : bc_trie_t) (s_fctx : bm_filectx_t)
    (s : bc_slist_t) (f : bm_filectx_t) :
    source_call c vars (some s_fctx :: s) f =
      ⟨vars, some (bc_trie_insert [] "MAKE_SLUG" s_fctx.slug), false,
        c.main_template_fctx, some f, some s_fctx :: s, true⟩ := rfl

theorem sources_exec_loop_recording
    (st : List bm_exec_blogc_args → bm_exec_blogc_args → Int)
    (c : bm_ctx_t) (vars : bc_trie_t) (s : bc_slist_t) :
    ∀ (o : bc_slist_t) (w : List bm_exec_blogc_args),
      (∀ x ∈ s, x ≠ none) →
      sources_exec_loop (recording_render st) c vars s o 0 w =
        some (run_calls st (stale_calls
          (fun s f => bm_rule_need_rebuild s c.settings_fctx c.main_template_fctx
            (some f) true)
          (fun s f => source_call c vars s f) ((source_suffixes s).zip o)) w) := by
  induction s with
  | nil => intro o w _; rfl
  | cons x s ih =>
    intro o w hs
    have hs_next : ∀ y ∈ s, y ≠ none := fun y hy => hs y (List.mem_cons_of_mem _ hy)
    cases o with
    | nil => rfl
    | cons y o =>
      rw [source_suffixes, List.zip_cons_cons]
      cases y with
      | none =>
        rw [stale_calls_cons_none, ← ih o w hs_next]
        rfl
      | some f =>
        cases x with
        | none => exact absurd rfl (hs none (List.mem_cons_self _ _))
        | some s_fctx =>
          by_cases h : bm_rule_need_rebuild (some s_fctx :: s) c.settings_fctx
              c.main_template_fctx (some f) true = true
          · rw [stale_calls_cons_stale _ _ _ _ _ h]
            by_cases hst : st w (source_call c vars (some s_fctx :: s) f) = 0
            · rw [run_calls_cons_success _ _ _ _ hst, ← ih o _ hs_next]
              have hs2 := hst
              rw [source_call_cons] at hs2
              simp [sources_exec_loop, h, recording_render, recording_call, hs2,
                source_call_cons]
            · rw [run_calls_cons_failure _ _ _ _ hst]
              have hs2 := hst
              rw [source_call_cons] at hs2
              simp [sources_exec_loop, h, recording_render, recording_call, hs2,
                source_call_cons]
          · rw [stale_calls_cons_fresh _ _ _ _ _ h, ← ih o w hs_next]
            simp [sources_exec_loop, h]


/-! ## The rendering and copying executors -/

theorem index_exec_recording (st : List bm_exec_blogc_args → bm_exec_blogc_args → Int)
    (c : bm_ctx_t) (outputs : bc_slist_t) (args : Option bc_trie_t) (vars : bc_trie_t)
    (hvars : index_variables c = some vars) (w : List bm_exec_blogc_args) :
    index_exec (recording_render st) (some c) outputs args w =
      some (if c.settings.posts = none then (0, w)
        else run_calls st (stale_calls
          (fun (_ : Nat) f => bm_rule_need_rebuild c.posts_fctx c.settings_fctx
            c.main_template_fctx (some f) false)
          (fun _ f => listing_call c c.main_template_fctx vars f)
          (outputs.enumFrom 0)) w) := by
  unfold index_exec
  by_cases h : c.settings.posts = none
  · simp only [h, if_true]
  · simp only [h, if_false, hvars, index_exec_loop_recording st c vars outputs 0 w]

theorem atom_exec_recording (st : List bm_exec_blogc_args → bm_exec_blogc_args → Int)
    (c : bm_ctx_t) (outputs : bc_slist_t) (args : Option bc_trie_t) (vars : bc_trie_t)
    (hvars : atom_variables c "atom" = some vars) (w : List bm_exec_blogc_args) :
    atom_exec (recording_render st) (some c) outputs args w =
      some (if c.settings.posts = none then (0, w)
        else run_calls st (stale_calls
          (fun (_ : Nat) f => bm_rule_need_rebuild c.posts_fctx c.settings_fctx none
            (some f) false)
          (fun _ f => listing_call c c.atom_template_fctx vars f)
          (outputs.enumFrom 0)) w) := by
  unfold atom_exec
  by_cases h : c.settings.posts = none
  · simp only [h, if_true]
  · simp only [h, if_false, hvars, atom_exec_loop_recording st c vars outputs 0 w]

theorem atom_tags_exec_recording
    (st : List bm_exec_blogc_args → bm_exec_blogc_args → Int)
    (c : bm_ctx_t) (outputs : bc_slist_t) (args : Option bc_trie_t) (vars : bc_trie_t)
    (hvars : atom_variables c "atom_tags" = some vars)
    (hlen : ∀ tags, c.settings.tags = some tags → outputs.length ≤ tags.length)
    (w : List bm_exec_blogc_args) :
    atom_tags_exec (recording_render st) (some c) outputs args w =
      some (if c.settings.posts = none ∨ c.settings.tags = none then (0, w)
        else run_calls st (stale_calls
          (fun (_ : Nat) f => bm_rule_need_rebuild c.posts_fctx c.settings_fctx none
            (some f) false)
          (fun j f => listing_call c c.atom_template_fctx
            (bc_trie_insert vars "FILTER_TAG" (c.settings.tags.getD [])[j]?) f)
          (outputs.enumFrom 0)) w) := by
  unfold atom_tags_exec
  cases hp : c.settings.posts with
  | none => simp [hp]
  | some posts =>
    cases ht : c.settings.tags with
    | none => simp [hp, ht]
    | some tags =>
      simp only [hp, ht, hvars, Option.getD_some, reduceCtorEq, or_self, if_false]
      exact atom_tags_exec_loop_recording st c tags vars outputs 0 vars w
        (by have := hlen tags ht; omega) (fun _ => rfl)

theorem tags_exec_recording
    (st : List bm_exec_blogc_args → bm_exec_blogc_args → Int)
    (c : bm_ctx_t) (outputs : bc_slist_t) (args : Option bc_trie_t) (vars : bc_trie_t)
    (hvars : tags_variables c = some vars)
    (hlen : ∀ tags, c.settings.tags = some tags → outputs.length ≤ tags.length)
    (w : List bm_exec_blogc_args) :
    tags_exec (recording_render st) (some c) outputs args w =
      some (if c.settings.posts = none ∨ c.settings.tags = none then (0, w)
        else run_calls st (stale_calls
          (fun (_ : Nat) f => bm_rule_need_rebuild c.posts_fctx c.settings_fctx
            c.main_template_fctx (some f) false)
          (fun j f => listing_call c c.main_template_fctx
            (bc_trie_insert vars "FILTER_TAG" (c.settings.tags.getD [])[j]?) f)
          (outputs.enumFrom 0)) w) := by
  unfold tags_exec
  cases hp : c.settings.posts with
  | none => simp [hp]
  | some posts =>
    cases ht : c.settings.tags with
    | none => simp [hp, ht]
    | some tags =>
      simp only [hp, ht, hvars, Option.getD_some, reduceCtorEq, or_self, if_false]
      exact tags_exec_loop_recording st c tags vars outputs 0 vars w
        (by have := hlen tags ht; omega) (fun _ => rfl)

theorem pagination_exec_recording
    (st : List bm_exec_blogc_args → bm_exec_blogc_args → Int)
    (c : bm_ctx_t) (outputs : bc_slist_t) (args : Option bc_trie_t)
    (w : List bm_exec_blogc_args) :
    pagination_exec (recording_render st) (some c) outputs args w =
      some (if c.settings.posts = none then (0, w)
        else run_calls st (stale_calls
          (fun (_ : Nat) f => bm_rule_need_rebuild c.posts_fctx c.settings_fctx
            c.main_template_fctx (some f) false)
          (fun j f => listing_call c c.main_template_fctx
            (bc_trie_insert (pagination_variables c) "FILTER_PAGE"
              (some (printf_decimal j))) f)
          (outputs.enumFrom 1)) w) := by
  unfold pagination_exec
  by_cases h : c.settings.posts = none
  · simp only [h, if_true]
  · simp only [h, if_false]
    exact congrArg some (pagination_exec_loop_recording st c (pagination_variables c)
      outputs 1 (pagination_variables c) w (fun _ => rfl))

theorem posts_exec_recording (st : List bm_exec_blogc_args → bm_exec_blogc_args → Int)
    (c : bm_ctx_t) (outputs : bc_slist_t) (args : Option bc_trie_t)
    (hsrc : ∀ x ∈ c.posts_fctx, x ≠ none) (w : List bm_exec_blogc_args) :
    posts_exec (recording_render st) (some c) outputs args w =
      some (if c.settings.posts = none then (0, w)
        else run_calls st (stale_calls
          (fun s f => bm_rule_need_rebuild s c.settings_fctx c.main_template_fctx
            (some f) true)
          (fun s f => source_call c (posts_variables c) s f)
          ((source_suffixes c.posts_fctx).zip outputs)) w) := by
  unfold posts_exec
  by_cases h : c.settings.posts = none
  · simp only [h, if_true]
  · simp only [h, if_false]
    exact sources_exec_loop_recording st c (posts_variables c) c.posts_fctx outputs w hsrc

theorem pages_exec_recording (st : List bm_exec_blogc_args → bm_exec_blogc_args → Int)
    (c : bm_ctx_t) (outputs : bc_slist_t) (args : Option bc_trie_t)
    (hsrc : ∀ x ∈ c.pages_fctx, x ≠ none) (w : List bm_exec_blogc_args) :
    pages_exec (recording_render st) (some c) outputs args w =
      some (if c.settings.pages = none then (0, w)
        else run_calls st (stale_calls
          (fun s f => bm_rule_need_rebuild s c.settings_fctx c.main_template_fctx
            (some f) true)
          (fun s f => source_call c (pages_variables c) s f)
          ((source_suffixes c.pages_fctx).zip outputs)) w) := by
  unfold pages_exec
  by_cases h : c.settings.pages = none
  · simp only [h, if_true]
  · simp only [h, if_false]
    exact sources_exec_loop_recording st c (pages_variables c) c.pages_fctx outputs w hsrc

theorem copy_exec_recording
    (st : List bm_exec_native_cp_args → bm_exec_native_cp_args → Int)
    (c : bm_ctx_t) (outputs : bc_slist_t) (args : Option bc_trie_t)
    (w : List bm_exec_native_cp_args) :
    copy_exec (recording_call st) (some c) outputs args w =
      some (if c.settings.copy = none then (0, w)
        else run_calls st (stale_calls
          (fun s f => bm_rule_need_rebuild s c.settings_fctx none (some f) true)
          (fun s f => (s.head?.join, f, c.verbose))
          ((source_suffixes c.copy_fctx).zip outputs)) w) := by
  unfold copy_exec
  by_cases h : c.settings.copy = none
  · simp only [h, if_true]
  · simp only [h, if_false]
    exact congrArg some (copy_exec_loop_recording st c c.copy_fctx outputs w)


/-! ## The tags rule -/

/-- C19, as stated, fails: the sample blog declares a post and the tags `a`
and `b`, and with a `posts_per_page` setting of `0` the tags rule enumerates no
output. -/
theorem tags_outputlist_unpaginated :
    sample_blog_unpaginated.settings.posts = some ["hello"] ∧
    sample_blog_unpaginated.settings.tags = some ["a", "b"] ∧
    tags_outputlist sample_filectx_new (some sample_blog_unpaginated) = some [] := by
  refine ⟨rfl, rfl, ?_⟩
  decide

/-- C19, amended: for every context with posts declared, the tags rule
enumerates one output per declared tag, in declaration order, named from the
output directory, the tag prefix, the tag and the extension, when the
`posts_per_page` setting parses to a nonzero number, and no output when it
parses to zero; when no tags are declared it enumerates nothing and its
executor makes no call of the renderer and returns 0. -/
theorem tags_rule_outputs (bm_filectx_new : bm_ctx_t → String → bm_filectx_t)
    (st : List bm_exec_blogc_args → bm_exec_blogc_args → Int)
    (c : bm_ctx_t) (posts : List String) (hposts : c.settings.posts = some posts) :
    (∀ tags v pfx ext, c.settings.tags = some tags →
      bc_trie_lookup c.settings.settings "posts_per_page" = some v →
      bc_trie_lookup c.settings.settings "tag_prefix" = some pfx →
      bc_trie_lookup c.settings.settings "html_ext" = some ext →
      tags_outputlist bm_filectx_new (some c) =
        some (if strtol v = 0 then []
          else tags.map (fun tag => some (bm_filectx_new c
            (c.short_output_dir ++ (if str_is_empty pfx then "" else "/") ++ pfx ++
              "/" ++ tag ++ ext))))) ∧
    (c.settings.tags = none →
      tags_outputlist bm_filectx_new (some c) = some [] ∧
      ∀ outputs args w,
        tags_exec (recording_render st) (some c) outputs args w = some (0, w)) := by
  constructor
  · intro tags v pfx ext ht hv hp he
    unfold tags_outputlist
    simp only [hposts, ht, posts_pagination_enabled, hv]
    by_cases h0 : strtol v = 0
    · simp [h0]
    · have hne : (strtol v != 0) = true := by simp [h0]
      simp only [hne, hp, he, h0, if_false]
      refine (outputlist_loop_eq _ (fun tag => bm_filectx_new c
        (c.short_output_dir ++ (if str_is_empty pfx then "" else "/") ++ pfx ++
          "/" ++ tag ++ ext)) _ ?_ _).trans ?_
      · intro _ _; rfl
      · rfl
  · intro ht
    constructor
    · unfold tags_outputlist
      simp [hposts, ht]
    · intro outputs args w
      unfold tags_exec
      simp [hposts, ht]

/-- The tags rule on the sample blog, which declares the tags `a` and `b`. -/
theorem tags_rule_outputs_witness :
    (tags_outputlist sample_filectx_new (some sample_blog_ctx)).map
        (List.map (Option.map bm_filectx_t.path)) =
      some [some "_build/tag/a/index.html", some "_build/tag/b/index.html"] := by
  rw [(tags_rule_outputs sample_filectx_new (fun _ _ => 0) sample_blog_ctx ["hello"] rfl).1
    ["a", "b"] "10" "tag" "/index.html" rfl (by decide) (by decide) (by decide)]
  decide


/-! ## The feed rules and the atom template -/

theorem stale_calls_map {ι α β : Type} (stale : ι → bm_filectx_t → Bool)
    (mk : ι → bm_filectx_t → α) (g : α → β) (l : List (ι × Option bm_filectx_t)) :
    (stale_calls stale mk l).map g = stale_calls stale (fun p f => g (mk p f)) l := by
  induction l with
  | nil => rfl
  | cons x l ih =>
    obtain ⟨p, o⟩ := x
    cases o with
    | none => rw [stale_calls_cons_none, stale_calls_cons_none, ih]
    | some f =>
      by_cases h : stale p f = true
      · rw [stale_calls_cons_stale _ _ _ _ _ h, stale_calls_cons_stale _ _ _ _ _ h,
          List.map_cons, ih]
      · rw [stale_calls_cons_fresh _ _ _ _ _ h, stale_calls_cons_fresh _ _ _ _ _ h, ih]

theorem run_calls_map {α β : Type} (st : List α → α → Int) (so : List β → β → Int)
    (g : α → β) (hst : ∀ w a, st w a = so (w.map g) (g a)) (l : List α) :
    ∀ w : List α, ((run_calls st l w).1, (run_calls st l w).2.map g) =
      run_calls so (l.map g) (w.map g) := by
  induction l with
  | nil => intro w; rfl
  | cons a rest ih =>
    intro w
    rw [List.map_cons]
    by_cases hs : st w a = 0
    · have hs2 : so (w.map g) (g a) = 0 := by rw [← hst]; exact hs
      rw [run_calls_cons_success _ _ _ _ hs, run_calls_cons_success _ _ _ _ hs2, ih]
      simp
    · have hs2 : so (w.map g) (g a) ≠ 0 := by rw [← hst]; exact hs
      rw [run_calls_cons_failure _ _ _ _ hs, run_calls_cons_failure _ _ _ _ hs2]
      simp [hst]

theorem rendered_outputs_run_calls
    (so : List (Option bm_filectx_t) → Option bm_filectx_t → Int)
    (stale : bm_filectx_t → Bool) (mk : Nat → bm_filectx_t → bm_exec_blogc_args)
    (hmk : ∀ j f, (mk j f).output = some f) (outputs : bc_slist_t) (i : Nat) :
    rendered_outputs (run_calls (status_by_output so)
        (stale_calls (fun _ f => stale f) mk (outputs.enumFrom i)) []) =
      run_calls so (outputs.filterMap (fun o => o.bind (fun f =>
        if stale f then some (some f) else none))) [] := by
  have h := run_calls_map (status_by_output so) so bm_exec_blogc_args.output
    (fun _ _ => rfl) (stale_calls (fun _ f => stale f) mk (outputs.enumFrom i)) []
  rw [stale_calls_map] at h
  simp only [hmk, List.map_nil] at h
  rw [stale_calls_enumFrom_const stale (fun f => some f) outputs i] at h
  exact h

/-! ## The ordering flag -/

/-- C27: for every context, variable mapping and ordering setting,
`posts_ordering` leaves the mapping unchanged when the setting is exactly `ASC`
or exactly `asc`; for every other value of the setting, an unset one included,
the resulting mapping holds `FILTER_REVERSE` with the value `1`; in both cases
the value of every other key is unchanged. The values `Asc` and `DESC` give the
reverse order. -/
theorem posts_ordering_reverse (c : bm_ctx_t) (vars : bc_trie_t) (var_name : String) :
    ((bc_trie_lookup c.settings.settings var_name = some "ASC" ∨
        bc_trie_lookup c.settings.settings var_name = some "asc") →
      posts_ordering (some c) vars var_name = vars) ∧
    (¬ (bc_trie_lookup c.settings.settings var_name = some "ASC" ∨
        bc_trie_lookup c.settings.settings var_name = some "asc") →
      posts_ordering (some c) vars var_name =
        bc_trie_insert vars "FILTER_REVERSE" (some "1") ∧
      bc_trie_lookup (posts_ordering (some c) vars var_name) "FILTER_REVERSE" = some "1") ∧
    (∀ other, other ≠ "FILTER_REVERSE" →
      bc_trie_lookup (posts_ordering (some c) vars var_name) other =
        bc_trie_lookup vars other) ∧
    bc_trie_lookup (posts_ordering
      (some { sample_site_ctx with settings :=
        { sample_site_ctx.settings with settings := [("html_order", "Asc")] } })
      [] "html_order") "FILTER_REVERSE" = some "1" ∧
    bc_trie_lookup (posts_ordering
      (some { sample_site_ctx with settings :=
        { sample_site_ctx.settings with settings := [("html_order", "DESC")] } })
      [] "html_order") "FILTER_REVERSE" = some "1" ∧
    bc_trie_lookup (posts_ordering
      (some { sample_site_ctx with settings :=
        { sample_site_ctx.settings with settings := [("html_order", "asc")] } })
      [] "html_order") "FILTER_REVERSE" = none := by
  refine ⟨?_, ?_, ?_, by decide, by decide, by decide⟩
  · intro h
    simp only [posts_ordering, h, if_true]
  · intro h
    have e : posts_ordering (some c) vars var_name =
        bc_trie_insert vars "FILTER_REVERSE" (some "1") := by
      simp only [posts_ordering, h, if_false]
    exact ⟨e, by rw [e, bc_trie_lookup_insert_self]⟩
  · intro other h
    exact posts_ordering_lookup_other _ _ _ _ (fun e => h e.symm)

/-! ## Invariants of the rule table -/

/-- C22: in the rule table, whatever code its entries point to, the names are
non-empty and pairwise distinct; the entries flagged `generate_files` are
index, atom, atom_tags, pagination, posts, tags, pages and copy, in that order,
each with an output enumerator and its own executor; the other entries are all,
clean, runserver and watch; and the results of `all_exec` and of
`bm_rule_list_built_files` do not change when the functions of those four
entries are replaced, so that neither of them is entered again from inside
itself. -/
theorem rule_table_invariants {σ : Type} (f : bm_rule_funcs σ) :
    (∀ r ∈ rules f, r.name ≠ "") ∧
    ((rules f).map (fun r => r.name)).Nodup ∧
    ((rules f).filter (fun r => r.generate_files)).map
        (fun r => (r.name, r.outputlist_func, r.exec_func)) =
      [("index", some f.index_outputlist, f.index_exec),
       ("atom", some f.atom_outputlist, f.atom_exec),
       ("atom_tags", some f.atom_tags_outputlist, f.atom_tags_exec),
       ("pagination", some f.pagination_outputlist, f.pagination_exec),
       ("posts", some f.posts_outputlist, f.posts_exec),
       ("tags", some f.tags_outputlist, f.tags_exec),
       ("pages", some f.pages_outputlist, f.pages_exec),
       ("copy", some f.copy_outputlist, f.copy_exec)] ∧
    (∀ r ∈ rules f, r.generate_files = true → r.outputlist_func ≠ none) ∧
    ((rules f).filter (fun r => !r.generate_files)).map (fun r => r.name) =
      ["all", "clean", "runserver", "watch"] ∧
    (∀ (a ce r wa : bm_rule_exec_func σ) (co : bm_rule_outputlist_func σ)
        (ctx : Option bm_ctx_t) (outputs : bc_slist_t) (args : Option bc_trie_t) (w : σ),
      all_exec { f with
          all_exec := a, clean_outputlist := co, clean_exec := ce, runserver_exec := r,
          watch_exec := wa } ctx outputs args w =
        all_exec f ctx outputs args w ∧
      bm_rule_list_built_files { f with
          all_exec := a, clean_outputlist := co, clean_exec := ce, runserver_exec := r,
          watch_exec := wa } ctx w =
        bm_rule_list_built_files f ctx w) := by
  refine ⟨?_, ?_, rfl, ?_, rfl, ?_⟩
  · intro r hr
    simp only [rules, List.mem_cons, List.mem_singleton, List.mem_nil_iff, or_false] at hr
    rcases hr with h | h | h | h | h | h | h | h | h | h | h | h <;> subst h <;> simp
  · have e : (rules f).map (fun r => r.name) = rule_names := rfl
    rw [e]
    decide
  · intro r hr
    simp only [rules, List.mem_cons, List.mem_singleton, List.mem_nil_iff, or_false] at hr
    rcases hr with h | h | h | h | h | h | h | h | h | h | h | h <;> subst h <;> simp
  · intro a ce r wa co ctx outputs args w
    constructor
    · rfl
    · cases ctx <;> rfl


/-! ## Invocation by the exact name of a rule -/

/-- C26: for every rule name of the table, `bm_rule_executor` called with that
name alone executes the rule of that name, without arguments, and no other
rule, and returns its status, except for the name `atom`, which executes atom
and then, when atom returns 0, atom_tags; among the names of the table, `atom`
and `atom_tags` are the only two distinct names of which one begins the
other. -/
theorem executor_exact_name (st : String → Int) (outs : String → bc_slist_t)
    (c : bm_ctx_t) (name : String) (hname : name ∈ rule_names) (w : exec_log) :
    bm_rule_executor (recording_funcs st outs) (some c) [name] w =
      some (if name = "atom" then
          (first_failure st ["atom", "atom_tags"],
            w ++ (run_until_failure st ["atom", "atom_tags"]).map (fun n => (n, none)))
        else (st name, w ++ [(name, none)])) ∧
    (∀ a ∈ rule_names, ∀ b ∈ rule_names, a.toList <+: b.toList →
      a = b ∨ (a = "atom" ∧ b = "atom_tags")) := by
  refine ⟨?_, by decide⟩
  have hone : ∀ n : String, matching_rules (invocation_name n) = [n] →
      invocation_args n = none → n ≠ "atom" →
      bm_rule_executor (recording_funcs st outs) (some c) [n] w =
        some (if n = "atom" then
            (first_failure st ["atom", "atom_tags"],
              w ++ (run_until_failure st ["atom", "atom_tags"]).map (fun n => (n, none)))
          else (st n, w ++ [(n, none)])) := by
    intro n hm ha hne
    rw [executor_single, hm, ha, if_neg hne]
    by_cases hs : st n = 0
    · simp [first_failure, run_until_failure, hs]
    · simp [first_failure, run_until_failure, hs]
  simp only [rule_names, List.mem_cons, List.mem_singleton, List.mem_nil_iff,
    or_false] at hname
  rcases hname with h | h | h | h | h | h | h | h | h | h | h | h
  · subst h; exact hone _ (by decide) (by decide) (by decide)
  · subst h; exact hone _ (by decide) (by decide) (by decide)
  · subst h
    rw [executor_single]
    have hm : matching_rules (invocation_name "atom") = ["atom", "atom_tags"] := by decide
    have ha : invocation_args "atom" = none := by decide
    rw [hm, ha]
    simp
  · subst h; exact hone _ (by decide) (by decide) (by decide)
  · subst h; exact hone _ (by decide) (by decide) (by decide)
  · subst h; exact hone _ (by decide) (by decide) (by decide)
  · subst h; exact hone _ (by decide) (by decide) (by decide)
  · subst h; exact hone _ (by decide) (by decide) (by decide)
  · subst h; exact hone _ (by decide) (by decide) (by decide)
  · subst h; exact hone _ (by decide) (by decide) (by decide)
  · subst h; exact hone _ (by decide) (by decide) (by decide)
  · subst h; exact hone _ (by decide) (by decide) (by decide)

/-- The name `atom` with rules that succeed runs atom and atom_tags; the name
`atom_tags` runs atom_tags alone. -/
theorem executor_exact_name_witness :
    bm_rule_executor (recording_funcs (fun _ => 0) sample_outs) (some (sample_ctx 0 ""))
        ["atom"] [] = some (0, [("atom", none), ("atom_tags", none)]) ∧
    bm_rule_executor (recording_funcs (fun _ => 0) sample_outs) (some (sample_ctx 0 ""))
        ["atom_tags"] [] = some (0, [("atom_tags", none)]) := by
  rw [(executor_exact_name (fun _ => 0) sample_outs (sample_ctx 0 "") "atom"
      (by decide) []).1,
    (executor_exact_name (fun _ => 0) sample_outs (sample_ctx 0 "") "atom_tags"
      (by decide) []).1]
  exact ⟨rfl, rfl⟩


/-! ## The enumerators that use a configured prefix -/

theorem index_outputlist_eq (bm_filectx_new : bm_ctx_t → String → bm_filectx_t)
    (c : bm_ctx_t) (v ext pfx : String)
    (hposts : c.settings.posts ≠ none)
    (hv : bc_trie_lookup c.settings.settings "posts_per_page" = some v)
    (he : bc_trie_lookup c.settings.settings "html_ext" = some ext)
    (hp : bc_trie_lookup c.settings.settings "index_prefix" = some pfx) :
    index_outputlist bm_filectx_new (some c) =
      some (if strtol v = 0 then []
        else [some (bm_filectx_new c (c.short_output_dir ++
          (if (str_is_empty pfx && str_starts_with_slash ext) = true then "" else "/") ++
          pfx ++ ext))]) := by
  by_cases h0 : strtol v = 0
  · have hne : (strtol v != 0) = false := by simp [h0]
    rw [if_pos h0]
    simp only [index_outputlist, hposts, posts_pagination_enabled, hv, hne, if_false]
  · have hne : (strtol v != 0) = true := by simp [h0]
    rw [if_neg h0]
    simp only [index_outputlist, hposts, posts_pagination_enabled, hv, hne, he, hp,
      if_false, bc_slist_append, List.nil_append]

theorem atom_outputlist_eq (bm_filectx_new : bm_ctx_t → String → bm_filectx_t)
    (c : bm_ctx_t) (v pfx ext : String)
    (hposts : c.settings.posts ≠ none)
    (hv : bc_trie_lookup c.settings.settings "atom_posts_per_page" = some v)
    (hp : bc_trie_lookup c.settings.settings "atom_prefix" = some pfx)
    (he : bc_trie_lookup c.settings.settings "atom_ext" = some ext) :
    atom_outputlist bm_filectx_new (some c) =
      some (if strtol v = 0 then []
        else [some (bm_filectx_new c (c.short_output_dir ++
          (if str_is_empty pfx then "" else "/") ++ pfx ++ ext))]) := by
  by_cases h0 : strtol v = 0
  · have hne : (strtol v != 0) = false := by simp [h0]
    rw [if_pos h0]
    simp only [atom_outputlist, hposts, posts_pagination_enabled, hv, hne, if_false]
  · have hne : (strtol v != 0) = true := by simp [h0]
    rw [if_neg h0]
    simp only [atom_outputlist, hposts, posts_pagination_enabled, hv, hne, he, hp,
      if_false, bc_slist_append, List.nil_append]

theorem atom_tags_outputlist_eq (bm_filectx_new : bm_ctx_t → String → bm_filectx_t)
    (c : bm_ctx_t) (posts tags : List String) (v pfx ext : String)
    (hposts : c.settings.posts = some posts) (htags : c.settings.tags = some tags)
    (hv : bc_trie_lookup c.settings.settings "atom_posts_per_page" = some v)
    (hp : bc_trie_lookup c.settings.settings "atom_prefix" = some pfx)
    (he : bc_trie_lookup c.settings.settings "atom_ext" = some ext) :
    atom_tags_outputlist bm_filectx_new (some c) =
      some (if strtol v = 0 then []
        else tags.map (fun tag => some (bm_filectx_new c
          (c.short_output_dir ++ (if str_is_empty pfx then "" else "/") ++ pfx ++
            "/" ++ tag ++ ext)))) := by
  unfold atom_tags_outputlist
  simp only [hposts, htags, posts_pagination_enabled, hv]
  by_cases h0 : strtol v = 0
  · simp [h0]
  · have hne : (strtol v != 0) = true := by simp [h0]
    simp only [hne, hp, he, h0, if_false]
    refine (outputlist_loop_eq _ (fun tag => bm_filectx_new c
      (c.short_output_dir ++ (if str_is_empty pfx then "" else "/") ++ pfx ++
        "/" ++ tag ++ ext)) _ ?_ _).trans ?_
    · intro _ _; rfl
    · rfl

theorem tags_outputlist_eq (bm_filectx_new : bm_ctx_t → String → bm_filectx_t)
    (c : bm_ctx_t) (posts tags : List String) (v pfx ext : String)
    (hposts : c.settings.posts = some posts) (htags : c.settings.tags = some tags)
    (hv : bc_trie_lookup c.settings.settings "posts_per_page" = some v)
    (hp : bc_trie_lookup c.settings.settings "tag_prefix" = some pfx)
    (he : bc_trie_lookup c.settings.settings "html_ext" = some ext) :
    tags_outputlist bm_filectx_new (some c) =
      some (if strtol v = 0 then []
        else tags.map (fun tag => some (bm_filectx_new c
          (c.short_output_dir ++ (if str_is_empty pfx then "" else "/") ++ pfx ++
            "/" ++ tag ++ ext)))) := by
  unfold tags_outputlist
  simp only [hposts, htags, posts_pagination_enabled, hv]
  by_cases h0 : strtol v = 0
  · simp [h0]
  · have hne : (strtol v != 0) = true := by simp [h0]
    simp only [hne, hp, he, h0, if_false]
    refine (outputlist_loop_eq _ (fun tag => bm_filectx_new c
      (c.short_output_dir ++ (if str_is_empty pfx then "" else "/") ++ pfx ++
        "/" ++ tag ++ ext)) _ ?_ _).trans ?_
    · intro _ _; rfl
    · rfl

theorem posts_outputlist_eq (bm_filectx_new : bm_ctx_t → String → bm_filectx_t)
    (c : bm_ctx_t) (posts : List String) (pfx ext : String)
    (hposts : c.settings.posts = some posts)
    (hp : bc_trie_lookup c.settings.settings "post_prefix" = some pfx)
    (he : bc_trie_lookup c.settings.settings "html_ext" = some ext) :
    posts_outputlist bm_filectx_new (some c) =
      some (posts.map (fun post => some (bm_filectx_new c
        (c.short_output_dir ++ (if str_is_empty pfx then "" else "/") ++ pfx ++
          "/" ++ post ++ ext)))) := by
  unfold posts_outputlist
  simp only [hposts, hp, he]
  refine (outputlist_loop_eq _ (fun post => bm_filectx_new c
    (c.short_output_dir ++ (if str_is_empty pfx then "" else "/") ++ pfx ++
      "/" ++ post ++ ext)) _ ?_ _).trans ?_
  · intro _ _; rfl
  · rfl

/-- C23: for every context with posts declared, `index_outputlist` returns no
output when the `posts_per_page` setting parses to zero and exactly one output
when it parses to a nonzero number, a negative one included; `atom_outputlist`
does the same with the `atom_posts_per_page` setting. -/
theorem index_atom_outputlist_count (bm_filectx_new : bm_ctx_t → String → bm_filectx_t)
    (c : bm_ctx_t) (v av : String)
    (hposts : c.settings.posts ≠ none)
    (hv : bc_trie_lookup c.settings.settings "posts_per_page" = some v)
    (hav : bc_trie_lookup c.settings.settings "atom_posts_per_page" = some av) :
    (strtol v = 0 → index_outputlist bm_filectx_new (some c) = some []) ∧
    (strtol v ≠ 0 → ∀ ext pfx,
      bc_trie_lookup c.settings.settings "html_ext" = some ext →
      bc_trie_lookup c.settings.settings "index_prefix" = some pfx →
      ∃ o, index_outputlist bm_filectx_new (some c) = some [some o]) ∧
    (strtol av = 0 → atom_outputlist bm_filectx_new (some c) = some []) ∧
    (strtol av ≠ 0 → ∀ pfx ext,
      bc_trie_lookup c.settings.settings "atom_prefix" = some pfx →
      bc_trie_lookup c.settings.settings "atom_ext" = some ext →
      ∃ o, atom_outputlist bm_filectx_new (some c) = some [some o]) := by
  refine ⟨?_, ?_, ?_, ?_⟩
  · intro h0
    have hne : (strtol v != 0) = false := by simp [h0]
    simp only [index_outputlist, hposts, posts_pagination_enabled, hv, hne, if_false]
  · intro h0 ext pfx he hp
    exact ⟨_, by rw [index_outputlist_eq bm_filectx_new c v ext pfx hposts hv he hp,
      if_neg h0]⟩
  · intro h0
    have hne : (strtol av != 0) = false := by simp [h0]
    simp only [atom_outputlist, hposts, posts_pagination_enabled, hav, hne, if_false]
  · intro h0 pfx ext hp he
    exact ⟨_, by rw [atom_outputlist_eq bm_filectx_new c av pfx ext hposts hav hp he,
      if_neg h0]⟩


/-- The index and atom rules of the sample blog with the setting `-3`: one
output each. -/
theorem index_atom_outputlist_count_witness :
    (index_outputlist sample_filectx_new (some (sample_paged_ctx "-3"))).map List.length =
      some 1 ∧
    (atom_outputlist sample_filectx_new (some (sample_paged_ctx "-3"))).map List.length =
      some 1 ∧
    index_outputlist sample_filectx_new (some (sample_paged_ctx "0")) = some [] := by
  obtain ⟨_, h2, _, h4⟩ := index_atom_outputlist_count sample_filectx_new
    (sample_paged_ctx "-3") "-3" "-3" (by decide) (by decide) (by decide)
  obtain ⟨o, ho⟩ := h2 (by decide) "/index.html" "" (by decide) (by decide)
  obtain ⟨a, ha⟩ := h4 (by decide) "atom" ".xml" (by decide) (by decide)
  rw [ho, ha]
  exact ⟨rfl, rfl, by decide⟩

/-- C24, as stated, fails for the index rule: with an empty index prefix and
the extension `.html`, the path of the index output is `_build/.html`; the
separator after the output directory is kept although the prefix is empty. -/
theorem index_outputlist_keeps_separator :
    bc_trie_lookup sample_flat_ctx.settings.settings "index_prefix" = some "" ∧
    (index_outputlist sample_filectx_new (some sample_flat_ctx)).map
        (List.map (Option.map bm_filectx_t.path)) = some [some "_build/.html"] := by
  decide

/-- C24, amended: when the settings read by the enumerators are present and
the rules enumerate (`posts_per_page` parses to a positive number and
`atom_posts_per_page` to a nonzero one), every output path of index, atom,
atom_tags, pagination, posts and tags is the output directory, a separator,
the prefix, then `/` and the identifier when there is one (the tag, the page
number, the post), then the extension. The separator after the output
directory is `/`, and it is omitted exactly when the prefix is empty, except
for index, where it is omitted exactly when the prefix is empty and the
extension begins with `/`. -/
theorem prefixed_output_paths (bm_filectx_new : bm_ctx_t → String → bm_filectx_t)
    (c : bm_ctx_t) (posts tags : List String) (v av ext ip ap ae pp pop tp : String)
    (hposts : c.settings.posts = some posts) (htags : c.settings.tags = some tags)
    (hv : bc_trie_lookup c.settings.settings "posts_per_page" = some v)
    (hpos : 0 < strtol v)
    (hav : bc_trie_lookup c.settings.settings "atom_posts_per_page" = some av)
    (hanz : strtol av ≠ 0)
    (he : bc_trie_lookup c.settings.settings "html_ext" = some ext)
    (hip : bc_trie_lookup c.settings.settings "index_prefix" = some ip)
    (hap : bc_trie_lookup c.settings.settings "atom_prefix" = some ap)
    (hae : bc_trie_lookup c.settings.settings "atom_ext" = some ae)
    (hpp : bc_trie_lookup c.settings.settings "pagination_prefix" = some pp)
    (hpop : bc_trie_lookup c.settings.settings "post_prefix" = some pop)
    (htp : bc_trie_lookup c.settings.settings "tag_prefix" = some tp) :
    index_outputlist bm_filectx_new (some c) =
      some [some (bm_filectx_new c (c.short_output_dir ++
        (if (str_is_empty ip && str_starts_with_slash ext) = true then "" else "/") ++
        ip ++ ext))] ∧
    atom_outputlist bm_filectx_new (some c) =
      some [some (bm_filectx_new c (c.short_output_dir ++
        (if str_is_empty ap then "" else "/") ++ ap ++ ae))] ∧
    atom_tags_outputlist bm_filectx_new (some c) =
      some (tags.map (fun tag => some (bm_filectx_new c (c.short_output_dir ++
        (if str_is_empty ap then "" else "/") ++ ap ++ "/" ++ tag ++ ae)))) ∧
    pagination_outputlist bm_filectx_new (some c) =
      some ((List.range (pagination_pages c.posts_fctx.length (strtol v))).map
        (fun i => some (bm_filectx_new c (c.short_output_dir ++
          (if str_is_empty pp then "" else "/") ++ pp ++ "/" ++
          printf_d (i + 1) ++ ext)))) ∧
    posts_outputlist bm_filectx_new (some c) =
      some (posts.map (fun post => some (bm_filectx_new c (c.short_output_dir ++
        (if str_is_empty pop then "" else "/") ++ pop ++ "/" ++ post ++ ext)))) ∧
    tags_outputlist bm_filectx_new (some c) =
      some (tags.map (fun tag => some (bm_filectx_new c (c.short_output_dir ++
        (if str_is_empty tp then "" else "/") ++ tp ++ "/" ++ tag ++ ext)))) := by
  have hp : c.settings.posts ≠ none := by rw [hposts]; exact Option.some_ne_none _
  have hvnz : strtol v ≠ 0 := by omega
  refine ⟨?_, ?_, ?_, ?_, ?_, ?_⟩
  · rw [index_outputlist_eq bm_filectx_new c v ext ip hp hv he hip, if_neg hvnz]
  · rw [atom_outputlist_eq bm_filectx_new c av ap ae hp hav hap hae, if_neg hanz]
  · rw [atom_tags_outputlist_eq bm_filectx_new c posts tags av ap ae hposts htags hav hap hae,
      if_neg hanz]
  · exact pagination_outputlist_eq bm_filectx_new c v pp ext hp hv hpp he hpos
  · exact posts_outputlist_eq bm_filectx_new c posts pop ext hposts hpop he
  · rw [tags_outputlist_eq bm_filectx_new c posts tags v tp ext hposts htags hv htp he,
      if_neg hvnz]

/-- The output paths of the sample blog with one post per page: the index
prefix is empty and the extension begins with `/`, so that the index output is
`_build/index.html`. -/
theorem prefixed_output_paths_witness :
    (index_outputlist sample_filectx_new (some (sample_paged_ctx "1"))).map
        (List.map (Option.map bm_filectx_t.path)) = some [some "_build/index.html"] ∧
    (atom_tags_outputlist sample_filectx_new (some (sample_paged_ctx "1"))).map
        (List.map (Option.map bm_filectx_t.path)) =
      some [some "_build/atom/a.xml", some "_build/atom/b.xml"] ∧
    (posts_outputlist sample_filectx_new (some (sample_paged_ctx "1"))).map
        (List.map (Option.map bm_filectx_t.path)) =
      some [some "_build/post/hello/index.html"] := by
  obtain ⟨h1, _, h3, _, h5, _⟩ := prefixed_output_paths sample_filectx_new
    (sample_paged_ctx "1") ["hello"] ["a", "b"] "1" "1" "/index.html" "" "atom" ".xml"
    "page" "post" "tag" rfl rfl (by decide) (by decide) (by decide) (by decide)
    (by decide) (by decide) (by decide) (by decide) (by decide) (by decide) (by decide)
  rw [h1, h3, h5]
  decide


/-! ## A negative number of posts per page -/

theorem posts_pagination_eq (c : bm_ctx_t) (vars : bc_trie_t) (var_name v : String)
    (hv : bc_trie_lookup c.settings.settings var_name = some v) :
    posts_pagination (some c) vars var_name =
      some (if strtol v ≥ 0 then
          bc_trie_insert (bc_trie_insert vars "FILTER_PAGE" (some "1"))
            "FILTER_PER_PAGE" (some v)
        else vars) := by
  unfold posts_pagination
  simp only [hv]
  by_cases h : strtol v ≥ 0
  · simp only [h, if_true]
  · simp only [h, if_false]

/-- C28: for every context with posts declared and a `posts_per_page` setting
that parses to a negative number, `index_outputlist` returns one output,
`pagination_outputlist` returns none, and the variables with which
`index_exec` calls the renderer, for its stale outputs, hold neither
`FILTER_PAGE` nor `FILTER_PER_PAGE`. For every setting, `posts_pagination`
adds `FILTER_PAGE` with the value `1` and `FILTER_PER_PAGE` with the text of
the setting when it parses to a number that is not negative, and leaves the
variables unchanged otherwise. -/
theorem index_negative_posts_per_page
    (bm_filectx_new : bm_ctx_t → String → bm_filectx_t)
    (st : List bm_exec_blogc_args → bm_exec_blogc_args → Int)
    (c : bm_ctx_t) (v ext pfx : String)
    (hposts : c.settings.posts ≠ none)
    (hv : bc_trie_lookup c.settings.settings "posts_per_page" = some v)
    (hneg : strtol v < 0)
    (he : bc_trie_lookup c.settings.settings "html_ext" = some ext)
    (hp : bc_trie_lookup c.settings.settings "index_prefix" = some pfx) :
    index_outputlist bm_filectx_new (some c) =
      some [some (bm_filectx_new c (c.short_output_dir ++
        (if (str_is_empty pfx && str_starts_with_slash ext) = true then "" else "/") ++
        pfx ++ ext))] ∧
    pagination_outputlist bm_filectx_new (some c) = some [] ∧
    (∃ vars, index_variables c = some vars ∧
      bc_trie_lookup vars "FILTER_PAGE" = none ∧
      bc_trie_lookup vars "FILTER_PER_PAGE" = none ∧
      ∀ outputs args,
        index_exec (recording_render st) (some c) outputs args [] =
          some (run_calls st (stale_calls
            (fun (_ : Nat) f => bm_rule_need_rebuild c.posts_fctx c.settings_fctx
              c.main_template_fctx (some f) false)
            (fun _ f => listing_call c c.main_template_fctx vars f)
            (outputs.enumFrom 0)) [])) ∧
    (∀ (vars : bc_trie_t) (var_name x : String),
      bc_trie_lookup c.settings.settings var_name = some x →
      posts_pagination (some c) vars var_name =
        some (if strtol x ≥ 0 then
            bc_trie_insert (bc_trie_insert vars "FILTER_PAGE" (some "1"))
              "FILTER_PER_PAGE" (some x)
          else vars)) := by
  have hnz : strtol v ≠ 0 := by omega
  have hnn : ¬ strtol v ≥ 0 := by omega
  have hle : strtol v ≤ 0 := by omega
  refine ⟨?_, ?_, ?_, fun vars var_name x hx => posts_pagination_eq c vars var_name x hx⟩
  · rw [index_outputlist_eq bm_filectx_new c v ext pfx hposts hv he hp, if_neg hnz]
  · simp only [pagination_outputlist, hposts, hv, hle, if_true, if_false]
  · have hvars : index_variables c = some
        (bc_trie_insert (bc_trie_insert (bc_trie_insert
          (posts_ordering (some c) [] "html_order") "DATE_FORMAT"
            (bc_trie_lookup c.settings.settings "date_format"))
          "MAKE_RULE" (some "index")) "MAKE_TYPE" (some "post")) := by
      unfold index_variables
      rw [posts_pagination_eq c [] "posts_per_page" v hv, if_neg hnn]
    refine ⟨_, hvars, ?_, ?_, ?_⟩
    · rw [bc_trie_lookup_insert_other _ _ _ _ (by decide),
        bc_trie_lookup_insert_other _ _ _ _ (by decide),
        bc_trie_lookup_insert_other _ _ _ _ (by decide),
        posts_ordering_lookup_other _ _ _ _ (by decide)]
      rfl
    · rw [bc_trie_lookup_insert_other _ _ _ _ (by decide),
        bc_trie_lookup_insert_other _ _ _ _ (by decide),
        bc_trie_lookup_insert_other _ _ _ _ (by decide),
        posts_ordering_lookup_other _ _ _ _ (by decide)]
      rfl
    · intro outputs args
      rw [index_exec_recording st c outputs args _ hvars [], if_neg hposts]

/-- The sample blog with the setting `-1`: the index rule has one output, the
pagination rule none, and the index output, which does not exist yet, is
rendered without `FILTER_PAGE` and `FILTER_PER_PAGE`. -/
theorem index_negative_posts_per_page_witness :
    (index_outputlist sample_filectx_new (some (sample_paged_ctx "-1"))).map
        (List.map (Option.map bm_filectx_t.path)) = some [some "_build/index.html"] ∧
    pagination_outputlist sample_filectx_new (some (sample_paged_ctx "-1")) = some [] ∧
    (index_exec (recording_render (fun _ _ => 0)) (some (sample_paged_ctx "-1"))
        [some (sample_filectx_new (sample_paged_ctx "-1") "_build/index.html")] none []).map
      (fun r => (r.1, r.2.map pagination_call_view)) =
      some (0, [(some (sample_filectx_new (sample_paged_ctx "-1") "_build/index.html"),
        none, none)]) := by
  obtain ⟨h1, h2, _, _⟩ := index_negative_posts_per_page sample_filectx_new
    (fun _ _ => 0) (sample_paged_ctx "-1") "-1" "/index.html" "" (by decide) (by decide)
    (by decide) (by decide) (by decide)
  rw [h1, h2]
  exact ⟨by decide, rfl, rfl⟩


/-! ## The sources that decide the staleness of a post or page output -/

theorem bc_trie_count_insert_other (t : bc_trie_t) (key other : String)
    (data : Option String) (hne : key ≠ other) :
    bc_trie_count (bc_trie_insert t key data) other = bc_trie_count t other := by
  cases data with
  | none => cases t <;> rfl
  | some d =>
    induction t with
    | nil => simp [bc_trie_insert, bc_trie_count, hne]
    | cons kv t ih =>
      obtain ⟨k, v⟩ := kv
      unfold bc_trie_count at ih ⊢
      by_cases h : k = key
      · subst h
        simp [bc_trie_insert, hne]
      · by_cases h2 : k = other
        · subst h2
          simp [bc_trie_insert, h, ih]
        · simp [bc_trie_insert, h, h2, ih]

theorem bc_trie_count_insert_new (t : bc_trie_t) (key data : String)
    (h0 : bc_trie_count t key = 0) :
    bc_trie_count (bc_trie_insert t key (some data)) key = 1 := by
  induction t with
  | nil => simp [bc_trie_insert, bc_trie_count]
  | cons kv t ih =>
    obtain ⟨k, v⟩ := kv
    unfold bc_trie_count at ih h0 ⊢
    by_cases h : k = key
    · subst h
      simp at h0
    · have h0t : (t.filter (fun kv => kv.1 = key)).length = 0 := by
        simpa [h] using h0
      simp [bc_trie_insert, h, ih h0t]

theorem bc_trie_lookup_of_count_zero (t : bc_trie_t) (key : String)
    (h0 : bc_trie_count t key = 0) : bc_trie_lookup t key = none := by
  induction t with
  | nil => rfl
  | cons kv t ih =>
    obtain ⟨k, v⟩ := kv
    unfold bc_trie_count at ih h0
    by_cases h : k = key
    · subst h
      simp at h0
    · have h0t : (t.filter (fun kv => kv.1 = key)).length = 0 := by
        simpa [h] using h0
      simp [bc_trie_lookup, h, ih h0t]

theorem posts_ordering_count_other (ctx : Option bm_ctx_t) (vars : bc_trie_t)
    (var_name other : String) (hne : "FILTER_REVERSE" ≠ other) :
    bc_trie_count (posts_ordering ctx vars var_name) other = bc_trie_count vars other := by
  unfold posts_ordering
  cases ctx with
  | none => rfl
  | some c =>
    simp only
    split
    · rfl
    · exact bc_trie_count_insert_other _ _ _ _ hne

theorem posts_pagination_count_other (c : bm_ctx_t) (vars vars2 : bc_trie_t)
    (var_name other : String) (h1 : "FILTER_PAGE" ≠ other) (h2 : "FILTER_PER_PAGE" ≠ other)
    (h : posts_pagination (some c) vars var_name = some vars2) :
    bc_trie_count vars2 other = bc_trie_count vars other := by
  unfold posts_pagination at h
  cases hv : bc_trie_lookup c.settings.settings var_name with
  | none => simp [hv] at h
  | some v =>
    simp only [hv] at h
    by_cases hs : strtol v ≥ 0
    · simp only [hs, if_true, Option.some.injEq] at h
      rw [← h, bc_trie_count_insert_other _ _ _ _ h2, bc_trie_count_insert_other _ _ _ _ h1]
    · simp only [hs, if_false, Option.some.injEq] at h
      rw [h]

theorem tags_variables_count (c : bm_ctx_t) (vars : bc_trie_t)
    (h : tags_variables c = some vars) : bc_trie_count vars "FILTER_TAG" = 0 := by
  unfold tags_variables at h
  cases hp : posts_pagination (some c) [] "posts_per_page" with
  | none => simp [hp] at h
  | some v0 =>
    simp only [hp, Option.some.injEq] at h
    rw [← h, bc_trie_count_insert_other _ _ _ _ (by decide),
      bc_trie_count_insert_other _ _ _ _ (by decide),
      bc_trie_count_insert_other _ _ _ _ (by decide),
      posts_ordering_count_other _ _ _ _ (by decide),
      posts_pagination_count_other c [] v0 _ _ (by decide) (by decide) hp]
    rfl

theorem atom_variables_count (c : bm_ctx_t) (rule : String) (vars : bc_trie_t)
    (h : atom_variables c rule = some vars) : bc_trie_count vars "FILTER_TAG" = 0 := by
  unfold atom_variables at h
  cases hp : posts_pagination (some c) [] "atom_posts_per_page" with
  | none => simp [hp] at h
  | some v0 =>
    simp only [hp, Option.some.injEq] at h
    rw [← h, bc_trie_count_insert_other _ _ _ _ (by decide),
      bc_trie_count_insert_other _ _ _ _ (by decide),
      bc_trie_count_insert_other _ _ _ _ (by decide),
      posts_ordering_count_other _ _ _ _ (by decide),
      posts_pagination_count_other c [] v0 _ _ (by decide) (by decide) hp]
    rfl

theorem outputlist_loop_length {α : Type} (mk : α → Option bm_filectx_t) (l : List α) :
    ∀ (rv out : bc_slist_t), outputlist_loop mk l rv = some out →
      out.length = rv.length + l.length := by
  induction l with
  | nil =>
    intro rv out h
    simp only [outputlist_loop, Option.some.injEq] at h
    simp [← h]
  | cons x xs ih =>
    intro rv out h
    cases hx : mk x with
    | none => simp [outputlist_loop, hx] at h
    | some fctx =>
      simp only [outputlist_loop, hx] at h
      rw [ih _ _ h]
      simp [bc_slist_append]
      omega

theorem stale_calls_mem {ι α : Type} (stale : ι → bm_filectx_t → Bool)
    (mk : ι → bm_filectx_t → α) (l : List (ι × Option bm_filectx_t)) (a : α)
    (h : a ∈ stale_calls stale mk l) :
    ∃ p f, (p, some f) ∈ l ∧ stale p f = true ∧ a = mk p f := by
  unfold stale_calls at h
  rw [List.mem_filterMap] at h
  obtain ⟨⟨p, o⟩, hmem, hval⟩ := h
  cases o with
  | none => simp at hval
  | some f =>
    by_cases hs : stale p f = true
    · simp [hs] at hval
      exact ⟨p, f, hmem, hs, hval.symm⟩
    · simp [hs] at hval

theorem run_calls_status_zero {α : Type} (st : List α → α → Int) (l : List α) :
    ∀ w : List α, (run_calls st l w).1 = 0 → (run_calls st l w).2 = w ++ l := by
  induction l with
  | nil => intro w _; simp [run_calls]
  | cons a rest ih =>
    intro w h
    by_cases hs : st w a = 0
    · rw [run_calls_cons_success _ _ _ _ hs] at h ⊢
      rw [ih _ h]
      simp
    · rw [run_calls_cons_failure _ _ _ _ hs] at h
      exact absurd h hs


theorem tags_variables_defined (c : bm_ctx_t) (v : String)
    (hv : bc_trie_lookup c.settings.settings "posts_per_page" = some v) :
    ∃ vars, tags_variables c = some vars := by
  unfold tags_variables
  rw [posts_pagination_eq c [] "posts_per_page" v hv]
  exact ⟨_, rfl⟩

theorem atom_variables_defined (c : bm_ctx_t) (rule v : String)
    (hv : bc_trie_lookup c.settings.settings "atom_posts_per_page" = some v) :
    ∃ vars, atom_variables c rule = some vars := by
  unfold atom_variables
  rw [posts_pagination_eq c [] "atom_posts_per_page" v hv]
  exact ⟨_, rfl⟩

theorem tags_outputlist_defined (bm_filectx_new : bm_ctx_t → String → bm_filectx_t)
    (c : bm_ctx_t) (posts tags : List String) (outputs : bc_slist_t)
    (hposts : c.settings.posts = some posts) (htags : c.settings.tags = some tags)
    (hout : tags_outputlist bm_filectx_new (some c) = some outputs) :
    outputs.length ≤ tags.length ∧
    ∃ v, bc_trie_lookup c.settings.settings "posts_per_page" = some v := by
  unfold tags_outputlist at hout
  simp only [hposts, htags, posts_pagination_enabled] at hout
  cases hv : bc_trie_lookup c.settings.settings "posts_per_page" with
  | none => simp [hv] at hout
  | some v =>
    refine ⟨?_, v, rfl⟩
    simp only [hv] at hout
    cases hb : (strtol v != 0) with
    | false =>
      simp only [hb, Option.some.injEq] at hout
      simp [← hout]
    | true =>
      simp only [hb] at hout
      cases hp : bc_trie_lookup c.settings.settings "tag_prefix" with
      | none => simp [hp] at hout
      | some pfx =>
        simp only [hp] at hout
        have := outputlist_loop_length _ _ _ _ hout
        simp at this
        omega

theorem atom_tags_outputlist_defined (bm_filectx_new : bm_ctx_t → String → bm_filectx_t)
    (c : bm_ctx_t) (posts tags : List String) (outputs : bc_slist_t)
    (hposts : c.settings.posts = some posts) (htags : c.settings.tags = some tags)
    (hout : atom_tags_outputlist bm_filectx_new (some c) = some outputs) :
    outputs.length ≤ tags.length ∧
    ∃ v, bc_trie_lookup c.settings.settings "atom_posts_per_page" = some v := by
  unfold atom_tags_outputlist at hout
  simp only [hposts, htags, posts_pagination_enabled] at hout
  cases hv : bc_trie_lookup c.settings.settings "atom_posts_per_page" with
  | none => simp [hv] at hout
  | some v =>
    refine ⟨?_, v, rfl⟩
    simp only [hv] at hout
    cases hb : (strtol v != 0) with
    | false =>
      simp only [hb, Option.some.injEq] at hout
      simp [← hout]
    | true =>
      simp only [hb] at hout
      cases hp : bc_trie_lookup c.settings.settings "atom_prefix" with
      | none => simp [hp] at hout
      | some pfx =>
        simp only [hp] at hout
        have := outputlist_loop_length _ _ _ _ hout
        simp at this
        omega

/-! ## Rejected `-D` arguments of `blogc` -/

theorem main_args_loop_define {σ S T E : Type} (env : blogc_env σ S T E)
    (arg tmp : List Char) (rest rest2 : List (List Char)) (o : main_options) (w : σ)
    (harg : (arg = ['-', 'D'] ∧ rest = tmp :: rest2) ∨
      (arg = '-' :: 'D' :: tmp ∧ tmp ≠ [] ∧ rest = rest2)) :
    main_args_loop env (arg :: rest) o w =
      match main_define env tmp o.config w with
      | .error r => (some r.1, o, r.2)
      | .ok config => main_args_loop env rest2 { o with config := config } w := by
  rcases harg with ⟨h1, h2⟩ | ⟨h1, h2, h3⟩
  · subst h1 h2
    rw [main_args_loop]
    simp
  · subst h1 h3
    cases rest with
    | nil =>
      rw [main_args_loop]
      simp [h2]
    | cons next rest2 =>
      rw [main_args_loop]
      simp [h2]


/-- C29, at a failing input and in general: when the scan of the command line
by `main` arrives at a `-D` argument with the text `tmp` (given as `-D tmp` or
as `-Dtmp`), then `main` writes an error message and renders nothing in each of
the three cases of rejection, but its exit status is 2 only when `tmp` has no
`=` or when its key holds a character other than `A`..`Z` and `_`; when `tmp`
is not valid UTF-8 the exit status is 0. -/
theorem main_rejected_define {σ S T E : Type} (env : blogc_env σ S T E)
    (argv : List (List Char)) (arg tmp : List Char) (rest rest2 : List (List Char))
    (o : main_options) (w w2 : σ)
    (hreach : main_args_loop env argv.tail (main_initial_options env) w =
      main_args_loop env (arg :: rest) o w2)
    (harg : (arg = ['-', 'D'] ∧ rest = tmp :: rest2) ∨
      (arg = '-' :: 'D' :: tmp ∧ tmp ≠ [] ∧ rest = rest2)) :
    (env.blogc_utf8_validate tmp = false →
      main env argv w = (0, env.fprintf_stderr
        ("blogc: error: invalid value for -D (must be valid UTF-8 string): " ++
          String.mk tmp ++ "\n") w2)) ∧
    (env.blogc_utf8_validate tmp = true →
      (∀ key value, env.sb_str_split tmp '=' 2 ≠ [key, value]) →
      main env argv w = (2, env.fprintf_stderr
        ("blogc: error: invalid value for -D (must have an '='): " ++
          String.mk tmp ++ "\n") w2)) ∧
    (∀ key value, env.blogc_utf8_validate tmp = true →
      env.sb_str_split tmp '=' 2 = [key, value] → key.all config_key_char = false →
      main env argv w = (2, env.fprintf_stderr
        ("blogc: error: invalid value for -D (configuration key must be uppercase " ++
          "with '_'): " ++ String.mk key ++ "\n") w2)) := by
  have hloop : main_args_loop env argv.tail
      ⟨false, false, none, none, none, [],
        bc_trie_insert [] "BLOGC_VERSION" (some env.PACKAGE_VERSION)⟩ w =
      match main_define env tmp o.config w2 with
      | .error r => (some r.1, o, r.2)
      | .ok config => main_args_loop env rest2 { o with config := config } w2 :=
    hreach.trans (main_args_loop_define env arg tmp rest rest2 o w2 harg)
  refine ⟨?_, ?_, ?_⟩
  · intro hval
    have hd : main_define env tmp o.config w2 = .error (0, env.fprintf_stderr
        ("blogc: error: invalid value for -D (must be valid UTF-8 string): " ++
          String.mk tmp ++ "\n") w2) := by
      simp [main_define, hval]
    rw [hd] at hloop
    simp only [main, hloop]
  · intro hval hsplit
    have hd : main_define env tmp o.config w2 = .error (2, env.fprintf_stderr
        ("blogc: error: invalid value for -D (must have an '='): " ++
          String.mk tmp ++ "\n") w2) := by
      unfold main_define
      simp only [hval, Bool.not_true, Bool.false_eq_true, if_false]
    rw [hd] at hloop
    simp only [main, hloop]
  · intro key value hval hsplit hkey
    have hd : main_define env tmp o.config w2 = .error (2, env.fprintf_stderr
        ("blogc: error: invalid value for -D (configuration key must be uppercase " ++
          "with '_'): " ++ String.mk key ++ "\n") w2) := by
      simp [main_define, hval, hsplit, hkey]
    rw [hd] at hloop
    simp only [main, hloop]

/-- The command line `blogc -D` followed by a text that starts with the byte
255, in an environment whose validator refuses that byte: the only event is
the error message, and the exit status is 0. -/
theorem main_rejected_define_witness :
    main sample_blogc_env ["blogc".toList, "-D".toList, [Char.ofNat 255, '=', '1']] [] =
      (0, ["stderr: " ++
        ("blogc: error: invalid value for -D (must be valid UTF-8 string): " ++
          String.mk [Char.ofNat 255, '=', '1'] ++ "\n")]) :=
  (main_rejected_define sample_blogc_env
    ["blogc".toList, "-D".toList, [Char.ofNat 255, '=', '1']]
    ['-', 'D'] [Char.ofNat 255, '=', '1'] [[Char.ofNat 255, '=', '1']] []
    (main_initial_options sample_blogc_env) [] [] rfl (Or.inl ⟨rfl, rfl⟩)).1 (by decide)


/-! ## The executors on the outputs of their enumerators -/

theorem index_variables_defined (c : bm_ctx_t) (v : String)
    (hv : bc_trie_lookup c.settings.settings "posts_per_page" = some v) :
    ∃ vars, index_variables c = some vars := by
  unfold index_variables
  rw [posts_pagination_eq c [] "posts_per_page" v hv]
  exact ⟨_, rfl⟩

theorem index_outputlist_defined (bm_filectx_new : bm_ctx_t → String → bm_filectx_t)
    (c : bm_ctx_t) (outputs : bc_slist_t) (hposts : c.settings.posts ≠ none)
    (hout : index_outputlist bm_filectx_new (some c) = some outputs) :
    ∃ v, bc_trie_lookup c.settings.settings "posts_per_page" = some v := by
  cases hv : bc_trie_lookup c.settings.settings "posts_per_page" with
  | none => simp [index_outputlist, hposts, posts_pagination_enabled, hv] at hout
  | some v => exact ⟨v, rfl⟩

theorem atom_outputlist_defined (bm_filectx_new : bm_ctx_t → String → bm_filectx_t)
    (c : bm_ctx_t) (outputs : bc_slist_t) (hposts : c.settings.posts ≠ none)
    (hout : atom_outputlist bm_filectx_new (some c) = some outputs) :
    ∃ v, bc_trie_lookup c.settings.settings "atom_posts_per_page" = some v := by
  cases hv : bc_trie_lookup c.settings.settings "atom_posts_per_page" with
  | none => simp [atom_outputlist, hposts, posts_pagination_enabled, hv] at hout
  | some v => exact ⟨v, rfl⟩

theorem posts_outputlist_length (bm_filectx_new : bm_ctx_t → String → bm_filectx_t)
    (c : bm_ctx_t) (posts : List String) (outputs : bc_slist_t)
    (hposts : c.settings.posts = some posts)
    (hout : posts_outputlist bm_filectx_new (some c) = some outputs) :
    outputs.length = posts.length := by
  unfold posts_outputlist at hout
  simp only [hposts] at hout
  cases hp : bc_trie_lookup c.settings.settings "post_prefix" with
  | none => simp [hp] at hout
  | some pfx =>
    simp only [hp] at hout
    have := outputlist_loop_length _ _ _ _ hout
    simpa using this

theorem pages_outputlist_length (bm_filectx_new : bm_ctx_t → String → bm_filectx_t)
    (c : bm_ctx_t) (pages : List String) (outputs : bc_slist_t)
    (hpages : c.settings.pages = some pages)
    (hout : pages_outputlist bm_filectx_new (some c) = some outputs) :
    outputs.length = pages.length := by
  unfold pages_outputlist at hout
  simp only [hpages] at hout
  have := outputlist_loop_length _ _ _ _ hout
  simpa using this

theorem copy_outputlist_length (bm_filectx_new : bm_ctx_t → String → bm_filectx_t)
    (c : bm_ctx_t) (outputs : bc_slist_t) (hcopy : c.settings.copy ≠ none)
    (hout : copy_outputlist bm_filectx_new (some c) = some outputs) :
    outputs.length = c.copy_fctx.length := by
  unfold copy_outputlist at hout
  simp only [hcopy, if_false] at hout
  have := outputlist_loop_length _ _ _ _ hout
  simpa using this

theorem source_suffixes_drop (S : bc_slist_t) (i : Nat) (h : i < S.length) :
    source_suffixes (S.drop i) = S.drop i :: source_suffixes (S.drop (i + 1)) := by
  have hd : S.drop i = S[i] :: S.drop (i + 1) := List.drop_eq_getElem_cons h
  generalize S.drop i = l at hd ⊢
  subst hd
  rfl

theorem stale_calls_zip_suffixes {α : Type} (stale : bc_slist_t → bm_filectx_t → Bool)
    (mk : bc_slist_t → bm_filectx_t → α) (S : bc_slist_t) (outputs : bc_slist_t) :
    ∀ i : Nat, i + outputs.length ≤ S.length →
      stale_calls stale mk ((source_suffixes (S.drop i)).zip outputs) =
        stale_calls (fun j f => stale (S.drop j) f) (fun j f => mk (S.drop j) f)
          (outputs.enumFrom i) := by
  induction outputs with
  | nil => intro i _; simp [stale_calls]
  | cons o os ih =>
    intro i hlen
    rw [List.length_cons] at hlen
    rw [source_suffixes_drop S i (by omega), List.zip_cons_cons, List.enumFrom_cons]
    cases o with
    | none => rw [stale_calls_cons_none, stale_calls_cons_none, ih (i + 1) (by omega)]
    | some f =>
      by_cases h : stale (S.drop i) f = true
      · rw [stale_calls_cons_stale _ _ _ _ _ h,
          stale_calls_cons_stale (fun j f => stale (S.drop j) f) _ _ _ _ h,
          ih (i + 1) (by omega)]
      · rw [stale_calls_cons_fresh _ _ _ _ _ h,
          stale_calls_cons_fresh (fun j f => stale (S.drop j) f) _ _ _ _ h,
          ih (i + 1) (by omega)]


theorem index_exec_enumerated (bm_filectx_new : bm_ctx_t → String → bm_filectx_t)
    (st : List bm_exec_blogc_args → bm_exec_blogc_args → Int)
    (c : bm_ctx_t) (outputs : bc_slist_t) (args : Option bc_trie_t)
    (hout : index_outputlist bm_filectx_new (some c) = some outputs) :
    index_exec (recording_render st) (some c) outputs args [] =
      some (run_calls st (stale_calls
        (fun (_ : Nat) f => bm_rule_need_rebuild c.posts_fctx c.settings_fctx
          c.main_template_fctx (some f) false)
        (fun _ f => listing_call c c.main_template_fctx ((index_variables c).getD []) f)
        (outputs.enumFrom 0)) []) := by
  by_cases hp : c.settings.posts = none
  · have ho : outputs = [] := by
      simp only [index_outputlist, hp, if_true, Option.some.injEq] at hout
      exact hout.symm
    subst ho
    simp [index_exec, hp, stale_calls, run_calls]
  · obtain ⟨v, hv⟩ := index_outputlist_defined bm_filectx_new c outputs hp hout
    obtain ⟨iv, hiv⟩ := index_variables_defined c v hv
    rw [hiv, Option.getD_some, index_exec_recording st c outputs args iv hiv [], if_neg hp]

theorem atom_exec_enumerated (bm_filectx_new : bm_ctx_t → String → bm_filectx_t)
    (st : List bm_exec_blogc_args → bm_exec_blogc_args → Int)
    (c : bm_ctx_t) (outputs : bc_slist_t) (args : Option bc_trie_t)
    (hout : atom_outputlist bm_filectx_new (some c) = some outputs) :
    atom_exec (recording_render st) (some c) outputs args [] =
      some (run_calls st (stale_calls
        (fun (_ : Nat) f => bm_rule_need_rebuild c.posts_fctx c.settings_fctx none
          (some f) false)
        (fun _ f => listing_call c c.atom_template_fctx
          ((atom_variables c "atom").getD []) f)
        (outputs.enumFrom 0)) []) := by
  by_cases hp : c.settings.posts = none
  · have ho : outputs = [] := by
      simp only [atom_outputlist, hp, if_true, Option.some.injEq] at hout
      exact hout.symm
    subst ho
    simp [atom_exec, hp, stale_calls, run_calls]
  · obtain ⟨v, hv⟩ := atom_outputlist_defined bm_filectx_new c outputs hp hout
    obtain ⟨av, hav⟩ := atom_variables_defined c "atom" v hv
    rw [hav, Option.getD_some, atom_exec_recording st c outputs args av hav [], if_neg hp]

theorem pagination_exec_enumerated (bm_filectx_new : bm_ctx_t → String → bm_filectx_t)
    (st : List bm_exec_blogc_args → bm_exec_blogc_args → Int)
    (c : bm_ctx_t) (outputs : bc_slist_t) (args : Option bc_trie_t)
    (hout : pagination_outputlist bm_filectx_new (some c) = some outputs) :
    pagination_exec (recording_render st) (some c) outputs args [] =
      some (run_calls st (stale_calls
        (fun (_ : Nat) f => bm_rule_need_rebuild c.posts_fctx c.settings_fctx
          c.main_template_fctx (some f) false)
        (fun j f => listing_call c c.main_template_fctx
          (bc_trie_insert (pagination_variables c) "FILTER_PAGE"
            (some (printf_decimal j))) f)
        (outputs.enumFrom 1)) []) := by
  rw [pagination_exec_recording st c outputs args []]
  by_cases hp : c.settings.posts = none
  · have ho : outputs = [] := by
      simp only [pagination_outputlist, hp, if_true, Option.some.injEq] at hout
      exact hout.symm
    subst ho
    simp [hp, stale_calls, run_calls]
  · rw [if_neg hp]

theorem tags_exec_enumerated (bm_filectx_new : bm_ctx_t → String → bm_filectx_t)
    (st : List bm_exec_blogc_args → bm_exec_blogc_args → Int)
    (c : bm_ctx_t) (outputs : bc_slist_t) (args : Option bc_trie_t)
    (hout : tags_outputlist bm_filectx_new (some c) = some outputs) :
    tags_exec (recording_render st) (some c) outputs args [] =
      some (run_calls st (stale_calls
        (fun (_ : Nat) f => bm_rule_need_rebuild c.posts_fctx c.settings_fctx
          c.main_template_fctx (some f) false)
        (fun j f => listing_call c c.main_template_fctx
          (bc_trie_insert ((tags_variables c).getD []) "FILTER_TAG"
            (c.settings.tags.getD [])[j]?) f)
        (outputs.enumFrom 0)) []) := by
  cases hp : c.settings.posts with
  | none =>
    have ho : outputs = [] := by
      simp only [tags_outputlist, hp, Option.some.injEq] at hout
      exact hout.symm
    subst ho
    simp [tags_exec, hp, stale_calls, run_calls]
  | some posts =>
    cases ht : c.settings.tags with
    | none =>
      have ho : outputs = [] := by
        simp only [tags_outputlist, hp, ht, Option.some.injEq] at hout
        exact hout.symm
      subst ho
      simp [tags_exec, hp, ht, stale_calls, run_calls]
    | some tags =>
      obtain ⟨hlen, v, hv⟩ := tags_outputlist_defined bm_filectx_new c posts tags outputs
        hp ht hout
      obtain ⟨tv, htv⟩ := tags_variables_defined c v hv
      have h := tags_exec_recording st c outputs args tv htv
        (fun t h => by rw [ht] at h; cases h; exact hlen) []
      rw [if_neg (by rw [hp, ht]; simp), ht] at h
      rw [htv, h]
      rfl

theorem atom_tags_exec_enumerated (bm_filectx_new : bm_ctx_t → String → bm_filectx_t)
    (st : List bm_exec_blogc_args → bm_exec_blogc_args → Int)
    (c : bm_ctx_t) (outputs : bc_slist_t) (args : Option bc_trie_t)
    (hout : atom_tags_outputlist bm_filectx_new (some c) = some outputs) :
    atom_tags_exec (recording_render st) (some c) outputs args [] =
      some (run_calls st (stale_calls
        (fun (_ : Nat) f => bm_rule_need_rebuild c.posts_fctx c.settings_fctx none
          (some f) false)
        (fun j f => listing_call c c.atom_template_fctx
          (bc_trie_insert ((atom_variables c "atom_tags").getD []) "FILTER_TAG"
            (c.settings.tags.getD [])[j]?) f)
        (outputs.enumFrom 0)) []) := by
  cases hp : c.settings.posts with
  | none =>
    have ho : outputs = [] := by
      simp only [atom_tags_outputlist, hp, Option.some.injEq] at hout
      exact hout.symm
    subst ho
    simp [atom_tags_exec, hp, stale_calls, run_calls]
  | some posts =>
    cases ht : c.settings.tags with
    | none =>
      have ho : outputs = [] := by
        simp only [atom_tags_outputlist, hp, ht, Option.some.injEq] at hout
        exact hout.symm
      subst ho
      simp [atom_tags_exec, hp, ht, stale_calls, run_calls]
    | some tags =>
      obtain ⟨hlen, v, hv⟩ := atom_tags_outputlist_defined bm_filectx_new c posts tags
        outputs hp ht hout
      obtain ⟨tv, htv⟩ := atom_variables_defined c "atom_tags" v hv
      have h := atom_tags_exec_recording st c outputs args tv htv
        (fun t h => by rw [ht] at h; cases h; exact hlen) []
      rw [if_neg (by rw [hp, ht]; simp), ht] at h
      rw [htv, h]
      rfl

theorem posts_exec_enumerated (bm_filectx_new : bm_ctx_t → String → bm_filectx_t)
    (st : List bm_exec_blogc_args → bm_exec_blogc_args → Int)
    (c : bm_ctx_t) (outputs : bc_slist_t) (args : Option bc_trie_t)
    (hout : posts_outputlist bm_filectx_new (some c) = some outputs)
    (hsrc : ∀ x ∈ c.posts_fctx, x ≠ none)
    (hlen : ∀ posts, c.settings.posts = some posts → posts.length ≤ c.posts_fctx.length) :
    posts_exec (recording_render st) (some c) outputs args [] =
      some (run_calls st (stale_calls
        (fun j f => bm_rule_need_rebuild (c.posts_fctx.drop j) c.settings_fctx
          c.main_template_fctx (some f) true)
        (fun j f => source_call c (posts_variables c) (c.posts_fctx.drop j) f)
        (outputs.enumFrom 0)) []) := by
  rw [posts_exec_recording st c outputs args hsrc []]
  cases hp : c.settings.posts with
  | none =>
    have ho : outputs = [] := by
      simp only [posts_outputlist, hp, Option.some.injEq] at hout
      exact hout.symm
    subst ho
    simp [stale_calls, run_calls]
  | some posts =>
    have hl := posts_outputlist_length bm_filectx_new c posts outputs hp hout
    have h := stale_calls_zip_suffixes
      (fun s f => bm_rule_need_rebuild s c.settings_fctx c.main_template_fctx (some f) true)
      (fun s f => source_call c (posts_variables c) s f) c.posts_fctx outputs 0
      (by have := hlen posts hp; omega)
    rw [List.drop_zero] at h
    rw [if_neg (by simp), h]

theorem pages_exec_enumerated (bm_filectx_new : bm_ctx_t → String → bm_filectx_t)
    (st : List bm_exec_blogc_args → bm_exec_blogc_args → Int)
    (c : bm_ctx_t) (outputs : bc_slist_t) (args : Option bc_trie_t)
    (hout : pages_outputlist bm_filectx_new (some c) = some outputs)
    (hsrc : ∀ x ∈ c.pages_fctx, x ≠ none)
    (hlen : ∀ pages, c.settings.pages = some pages → pages.length ≤ c.pages_fctx.length) :
    pages_exec (recording_render st) (some c) outputs args [] =
      some (run_calls st (stale_calls
        (fun j f => bm_rule_need_rebuild (c.pages_fctx.drop j) c.settings_fctx
          c.main_template_fctx (some f) true)
        (fun j f => source_call c (pages_variables c) (c.pages_fctx.drop j) f)
        (outputs.enumFrom 0)) []) := by
  rw [pages_exec_recording st c outputs args hsrc []]
  cases hp : c.settings.pages with
  | none =>
    have ho : outputs = [] := by
      simp only [pages_outputlist, hp, Option.some.injEq] at hout
      exact hout.symm
    subst ho
    simp [stale_calls, run_calls]
  | some pages =>
    have hl := pages_outputlist_length bm_filectx_new c pages outputs hp hout
    have h := stale_calls_zip_suffixes
      (fun s f => bm_rule_need_rebuild s c.settings_fctx c.main_template_fctx (some f) true)
      (fun s f => source_call c (pages_variables c) s f) c.pages_fctx outputs 0
      (by have := hlen pages hp; omega)
    rw [List.drop_zero] at h
    rw [if_neg (by simp), h]

theorem copy_exec_enumerated (bm_filectx_new : bm_ctx_t → String → bm_filectx_t)
    (st : List bm_exec_native_cp_args → bm_exec_native_cp_args → Int)
    (c : bm_ctx_t) (outputs : bc_slist_t) (args : Option bc_trie_t)
    (hout : copy_outputlist bm_filectx_new (some c) = some outputs) :
    copy_exec (recording_call st) (some c) outputs args [] =
      some (run_calls st (stale_calls
        (fun j f => bm_rule_need_rebuild (c.copy_fctx.drop j) c.settings_fctx none
          (some f) true)
        (fun j f => ((c.copy_fctx.drop j).head?.join, f, c.verbose))
        (outputs.enumFrom 0)) []) := by
  rw [copy_exec_recording st c outputs args []]
  by_cases hp : c.settings.copy = none
  · have ho : outputs = [] := by
      simp only [copy_outputlist, hp, if_true, Option.some.injEq] at hout
      exact hout.symm
    subst ho
    simp [hp, stale_calls, run_calls]
  · have hl := copy_outputlist_length bm_filectx_new c outputs hp hout
    have h := stale_calls_zip_suffixes
      (fun s f => bm_rule_need_rebuild s c.settings_fctx none (some f) true)
      (fun (s : bc_slist_t) f => (s.head?.join, f, c.verbose)) c.copy_fctx outputs 0
      (by omega)
    rw [List.drop_zero] at h
    rw [if_neg hp, h]


/-- C17: for every context and every behaviour of the render and copy steps
(their status may depend on the call and on the calls made before), each of
`index_exec`, `atom_exec`, `atom_tags_exec`, `pagination_exec`, `posts_exec`,
`tags_exec`, `pages_exec` and `copy_exec`, run on the output list that the
enumerator of its rule returns, as `bm_rule_execute` does, calls the step for
the outputs of the list for which `bm_rule_need_rebuild` is true and for no
other output, in list order, until a call returns nonzero, and returns that
first nonzero status, or 0 when there is none; when no output is stale it makes
no call and returns 0. For posts, pages and copy the output at position `j` is
tested against the source at position `j`. The context holds a handle for each
declared post and page. -/
theorem executors_render_stale_outputs
    (bm_filectx_new : bm_ctx_t → String → bm_filectx_t)
    (st : List bm_exec_blogc_args → bm_exec_blogc_args → Int)
    (st_cp : List bm_exec_native_cp_args → bm_exec_native_cp_args → Int)
    (c : bm_ctx_t) (args : Option bc_trie_t)
    (o_index o_atom o_atom_tags o_pagination o_posts o_tags o_pages o_copy : bc_slist_t)
    (h_index : index_outputlist bm_filectx_new (some c) = some o_index)
    (h_atom : atom_outputlist bm_filectx_new (some c) = some o_atom)
    (h_atom_tags : atom_tags_outputlist bm_filectx_new (some c) = some o_atom_tags)
    (h_pagination : pagination_outputlist bm_filectx_new (some c) = some o_pagination)
    (h_posts : posts_outputlist bm_filectx_new (some c) = some o_posts)
    (h_tags : tags_outputlist bm_filectx_new (some c) = some o_tags)
    (h_pages : pages_outputlist bm_filectx_new (some c) = some o_pages)
    (h_copy : copy_outputlist bm_filectx_new (some c) = some o_copy)
    (hposts_src : ∀ x ∈ c.posts_fctx, x ≠ none)
    (hpages_src : ∀ x ∈ c.pages_fctx, x ≠ none)
    (hposts_len : ∀ posts, c.settings.posts = some posts →
      posts.length ≤ c.posts_fctx.length)
    (hpages_len : ∀ pages, c.settings.pages = some pages →
      pages.length ≤ c.pages_fctx.length) :
    index_exec (recording_render st) (some c) o_index args [] =
      some (run_calls st (stale_calls
        (fun (_ : Nat) f => bm_rule_need_rebuild c.posts_fctx c.settings_fctx
          c.main_template_fctx (some f) false)
        (fun _ f => listing_call c c.main_template_fctx ((index_variables c).getD []) f)
        (o_index.enumFrom 0)) []) ∧
    atom_exec (recording_render st) (some c) o_atom args [] =
      some (run_calls st (stale_calls
        (fun (_ : Nat) f => bm_rule_need_rebuild c.posts_fctx c.settings_fctx none
          (some f) false)
        (fun _ f => listing_call c c.atom_template_fctx
          ((atom_variables c "atom").getD []) f)
        (o_atom.enumFrom 0)) []) ∧
    atom_tags_exec (recording_render st) (some c) o_atom_tags args [] =
      some (run_calls st (stale_calls
        (fun (_ : Nat) f => bm_rule_need_rebuild c.posts_fctx c.settings_fctx none
          (some f) false)
        (fun j f => listing_call c c.atom_template_fctx
          (bc_trie_insert ((atom_variables c "atom_tags").getD []) "FILTER_TAG"
            (c.settings.tags.getD [])[j]?) f)
        (o_atom_tags.enumFrom 0)) []) ∧
    pagination_exec (recording_render st) (some c) o_pagination args [] =
      some (run_calls st (stale_calls
        (fun (_ : Nat) f => bm_rule_need_rebuild c.posts_fctx c.settings_fctx
          c.main_template_fctx (some f) false)
        (fun j f => listing_call c c.main_template_fctx
          (bc_trie_insert (pagination_variables c) "FILTER_PAGE"
            (some (printf_decimal j))) f)
        (o_pagination.enumFrom 1)) []) ∧
    posts_exec (recording_render st) (some c) o_posts args [] =
      some (run_calls st (stale_calls
        (fun j f => bm_rule_need_rebuild (c.posts_fctx.drop j) c.settings_fctx
          c.main_template_fctx (some f) true)
        (fun j f => source_call c (posts_variables c) (c.posts_fctx.drop j) f)
        (o_posts.enumFrom 0)) []) ∧
    tags_exec (recording_render st) (some c) o_tags args [] =
      some (run_calls st (stale_calls
        (fun (_ : Nat) f => bm_rule_need_rebuild c.posts_fctx c.settings_fctx
          c.main_template_fctx (some f) false)
        (fun j f => listing_call c c.main_template_fctx
          (bc_trie_insert ((tags_variables c).getD []) "FILTER_TAG"
            (c.settings.tags.getD [])[j]?) f)
        (o_tags.enumFrom 0)) []) ∧
    pages_exec (recording_render st) (some c) o_pages args [] =
      some (run_calls st (stale_calls
        (fun j f => bm_rule_need_rebuild (c.pages_fctx.drop j) c.settings_fctx
          c.main_template_fctx (some f) true)
        (fun j f => source_call c (pages_variables c) (c.pages_fctx.drop j) f)
        (o_pages.enumFrom 0)) []) ∧
    copy_exec (recording_call st_cp) (some c) o_copy args [] =
      some (run_calls st_cp (stale_calls
        (fun j f => bm_rule_need_rebuild (c.copy_fctx.drop j) c.settings_fctx none
          (some f) true)
        (fun j f => ((c.copy_fctx.drop j).head?.join, f, c.verbose))
        (o_copy.enumFrom 0)) []) :=
  ⟨index_exec_enumerated bm_filectx_new st c o_index args h_index,
   atom_exec_enumerated bm_filectx_new st c o_atom args h_atom,
   atom_tags_exec_enumerated bm_filectx_new st c o_atom_tags args h_atom_tags,
   pagination_exec_enumerated bm_filectx_new st c o_pagination args h_pagination,
   posts_exec_enumerated bm_filectx_new st c o_posts args h_posts hposts_src hposts_len,
   tags_exec_enumerated bm_filectx_new st c o_tags args h_tags,
   pages_exec_enumerated bm_filectx_new st c o_pages args h_pages hpages_src hpages_len,
   copy_exec_enumerated bm_filectx_new st_cp c o_copy args h_copy⟩

/-- The executors on the sample blog, in an output directory that holds the
listing of the tag `a` and the page of the post, both newer than every source,
and nothing else: `tags_exec` renders the listing of the tag `b` only,
`posts_exec` renders nothing, `index_exec` renders the index and `copy_exec`
copies the one file; each returns 0. -/
theorem executors_render_stale_outputs_witness :
    (tags_outputlist sample_filectx_built (some sample_full_ctx)).map
        (List.map (Option.map bm_filectx_t.path)) =
      some [some "_build/tag/a/index.html", some "_build/tag/b/index.html"] ∧
    (tags_exec (recording_render (fun _ _ => 0)) (some sample_full_ctx)
        ((tags_outputlist sample_filectx_built (some sample_full_ctx)).getD []) none []).map
      (fun r => (r.1, r.2.map (fun a => (a.output.map bm_filectx_t.path,
        bc_trie_lookup a.global_variables "FILTER_TAG")))) =
      some (0, [(some "_build/tag/b/index.html", some "b")]) ∧
    (posts_exec (recording_render (fun _ _ => 0)) (some sample_full_ctx)
        ((posts_outputlist sample_filectx_built (some sample_full_ctx)).getD []) none []).map
      (fun r => (r.1, r.2.map (fun a => a.output.map bm_filectx_t.path))) =
      some (0, []) ∧
    (index_exec (recording_render (fun _ _ => 0)) (some sample_full_ctx)
        ((index_outputlist sample_filectx_built (some sample_full_ctx)).getD []) none []).map
      (fun r => (r.1, r.2.map (fun a => a.output.map bm_filectx_t.path))) =
      some (0, [some "_build/index.html"]) ∧
    (copy_exec (recording_call (fun _ _ => 0)) (some sample_full_ctx)
        ((copy_outputlist sample_filectx_built (some sample_full_ctx)).getD []) none []).map
      (fun r => (r.1, r.2.map (fun a => a.2.1.path))) =
      some (0, ["_build/assets/a.css"]) := by
  obtain ⟨h1, _, _, _, h5, h6, _, h8⟩ := executors_render_stale_outputs
    sample_filectx_built (fun _ _ => 0) (fun _ _ => 0) sample_full_ctx none
    ((index_outputlist sample_filectx_built (some sample_full_ctx)).getD [])
    ((atom_outputlist sample_filectx_built (some sample_full_ctx)).getD [])
    ((atom_tags_outputlist sample_filectx_built (some sample_full_ctx)).getD [])
    ((pagination_outputlist sample_filectx_built (some sample_full_ctx)).getD [])
    ((posts_outputlist sample_filectx_built (some sample_full_ctx)).getD [])
    ((tags_outputlist sample_filectx_built (some sample_full_ctx)).getD [])
    ((pages_outputlist sample_filectx_built (some sample_full_ctx)).getD [])
    ((copy_outputlist sample_filectx_built (some sample_full_ctx)).getD [])
    rfl rfl rfl rfl rfl rfl rfl rfl
    (by decide) (by decide)
    (by intro posts h; cases h; decide) (by intro pages h; cases h; decide)
  rw [h1, h5, h6, h8]
  exact ⟨by decide, rfl, rfl, rfl, rfl⟩


/-! ## The atom template handle in the feed executors -/

/-- C20, as stated, fails: the sample blog declares the tags `a` and `b`, and
the enumerator of the atom_tags rule returns the same two outputs, which do not
exist yet, whatever the atom template handle is. A renderer that fails on a
template that is not readable is called by `atom_tags_exec` for both outputs
when the atom template is readable, and for the first output only when it is
not. -/
theorem atom_tags_exec_template_failure :
    (atom_tags_outputlist sample_filectx_new (some sample_full_ctx)).map
        (List.map (Option.map bm_filectx_t.path)) =
      some [some "_build/atom/a.xml", some "_build/atom/b.xml"] ∧
    atom_tags_outputlist sample_filectx_new
        (some { sample_full_ctx with atom_template_fctx := some sample_missing_source }) =
      atom_tags_outputlist sample_filectx_new (some sample_full_ctx) ∧
    (atom_tags_exec (recording_render status_by_template) (some sample_full_ctx)
        ((atom_tags_outputlist sample_filectx_new (some sample_full_ctx)).getD [])
        none []).map
      (fun r => (r.1, r.2.map (fun a => a.output.map bm_filectx_t.path))) =
      some (0, [some "_build/atom/a.xml", some "_build/atom/b.xml"]) ∧
    (atom_tags_exec (recording_render status_by_template)
        (some { sample_full_ctx with atom_template_fctx := some sample_missing_source })
        ((atom_tags_outputlist sample_filectx_new (some sample_full_ctx)).getD [])
        none []).map
      (fun r => (r.1, r.2.map (fun a => a.output.map bm_filectx_t.path))) =
      some (1, [some "_build/atom/a.xml"]) := by
  refine ⟨by decide, rfl, rfl, rfl⟩

/-- C20, amended: for every two contexts that differ only in the atom template
handle, every output list and every renderer (its status may depend on the
call, the template included, and on the calls made before), `atom_exec` and
`atom_tags_exec` call the renderer, in list order and up to the first call that
returns nonzero, for the outputs for which `bm_rule_need_rebuild` is true
against the post handles and the settings handle; the outputs due in this way
are the same for both contexts, the atom template handle being only handed to
the renderer. When the status of the renderer is decided by the outputs it is
called for, both contexts give the same status and the same rendered
outputs. -/
theorem atom_rules_ignore_template
    (c : bm_ctx_t) (t1 t2 : Option bm_filectx_t)
    (outputs : bc_slist_t) (args : Option bc_trie_t) (av atv : bc_trie_t)
    (hav : atom_variables c "atom" = some av)
    (hatv : atom_variables c "atom_tags" = some atv)
    (hlen : ∀ tags, c.settings.tags = some tags → outputs.length ≤ tags.length) :
    (∀ (st : List bm_exec_blogc_args → bm_exec_blogc_args → Int)
        (t : Option bm_filectx_t),
      atom_exec (recording_render st) (some { c with atom_template_fctx := t })
          outputs args [] =
        some (if c.settings.posts = none then (0, [])
          else run_calls st (stale_calls
            (fun (_ : Nat) f => bm_rule_need_rebuild c.posts_fctx c.settings_fctx none
              (some f) false)
            (fun _ f => listing_call c t av f) (outputs.enumFrom 0)) []) ∧
      atom_tags_exec (recording_render st) (some { c with atom_template_fctx := t })
          outputs args [] =
        some (if c.settings.posts = none ∨ c.settings.tags = none then (0, [])
          else run_calls st (stale_calls
            (fun (_ : Nat) f => bm_rule_need_rebuild c.posts_fctx c.settings_fctx none
              (some f) false)
            (fun j f => listing_call c t
              (bc_trie_insert atv "FILTER_TAG" (c.settings.tags.getD [])[j]?) f)
            (outputs.enumFrom 0)) [])) ∧
    (∀ (t : Option bm_filectx_t) (vars : Nat → bc_trie_t),
      (stale_calls
          (fun (_ : Nat) f => bm_rule_need_rebuild c.posts_fctx c.settings_fctx none
            (some f) false)
          (fun j f => listing_call c t (vars j) f) (outputs.enumFrom 0)).map
        bm_exec_blogc_args.output =
      outputs.filterMap (fun o => o.bind (fun f =>
        if bm_rule_need_rebuild c.posts_fctx c.settings_fctx none (some f) false
        then some (some f) else none))) ∧
    (∀ so : List (Option bm_filectx_t) → Option bm_filectx_t → Int,
      ((atom_exec (recording_render (status_by_output so))
          (some { c with atom_template_fctx := t1 }) outputs args []).map rendered_outputs =
        some (if c.settings.posts = none then (0, [])
          else run_calls so (outputs.filterMap (fun o => o.bind (fun f =>
            if bm_rule_need_rebuild c.posts_fctx c.settings_fctx none (some f) false
            then some (some f) else none))) []) ∧
       (atom_exec (recording_render (status_by_output so))
          (some { c with atom_template_fctx := t2 }) outputs args []).map rendered_outputs =
        (atom_exec (recording_render (status_by_output so))
          (some { c with atom_template_fctx := t1 }) outputs args []).map
            rendered_outputs) ∧
      ((atom_tags_exec (recording_render (status_by_output so))
          (some { c with atom_template_fctx := t1 }) outputs args []).map rendered_outputs =
        some (if c.settings.posts = none ∨ c.settings.tags = none then (0, [])
          else run_calls so (outputs.filterMap (fun o => o.bind (fun f =>
            if bm_rule_need_rebuild c.posts_fctx c.settings_fctx none (some f) false
            then some (some f) else none))) []) ∧
       (atom_tags_exec (recording_render (status_by_output so))
          (some { c with atom_template_fctx := t2 }) outputs args []).map rendered_outputs =
        (atom_tags_exec (recording_render (status_by_output so))
          (some { c with atom_template_fctx := t1 }) outputs args []).map
            rendered_outputs)) := by
  have hexec : ∀ (st : List bm_exec_blogc_args → bm_exec_blogc_args → Int)
      (t : Option bm_filectx_t),
      atom_exec (recording_render st) (some { c with atom_template_fctx := t })
          outputs args [] =
        some (if c.settings.posts = none then (0, [])
          else run_calls st (stale_calls
            (fun (_ : Nat) f => bm_rule_need_rebuild c.posts_fctx c.settings_fctx none
              (some f) false)
            (fun _ f => listing_call c t av f) (outputs.enumFrom 0)) []) ∧
      atom_tags_exec (recording_render st) (some { c with atom_template_fctx := t })
          outputs args [] =
        some (if c.settings.posts = none ∨ c.settings.tags = none then (0, [])
          else run_calls st (stale_calls
            (fun (_ : Nat) f => bm_rule_need_rebuild c.posts_fctx c.settings_fctx none
              (some f) false)
            (fun j f => listing_call c t
              (bc_trie_insert atv "FILTER_TAG" (c.settings.tags.getD [])[j]?) f)
            (outputs.enumFrom 0)) []) := by
    intro st t
    exact ⟨atom_exec_recording st { c with atom_template_fctx := t } outputs args av hav [],
      atom_tags_exec_recording st { c with atom_template_fctx := t } outputs args atv hatv
        hlen []⟩
  have hdue : ∀ (t : Option bm_filectx_t) (vars : Nat → bc_trie_t),
      (stale_calls
          (fun (_ : Nat) f => bm_rule_need_rebuild c.posts_fctx c.settings_fctx none
            (some f) false)
          (fun j f => listing_call c t (vars j) f) (outputs.enumFrom 0)).map
        bm_exec_blogc_args.output =
      outputs.filterMap (fun o => o.bind (fun f =>
        if bm_rule_need_rebuild c.posts_fctx c.settings_fctx none (some f) false
        then some (some f) else none)) := by
    intro t vars
    rw [stale_calls_map]
    exact stale_calls_enumFrom_const
      (fun f => bm_rule_need_rebuild c.posts_fctx c.settings_fctx none (some f) false)
      (fun f => some f) outputs 0
  refine ⟨hexec, hdue, ?_⟩
  intro so
  have hatom : ∀ t : Option bm_filectx_t,
      (atom_exec (recording_render (status_by_output so))
        (some { c with atom_template_fctx := t }) outputs args []).map rendered_outputs =
      some (if c.settings.posts = none then (0, [])
        else run_calls so (outputs.filterMap (fun o => o.bind (fun f =>
          if bm_rule_need_rebuild c.posts_fctx c.settings_fctx none (some f) false
          then some (some f) else none))) []) := by
    intro t
    rw [(hexec (status_by_output so) t).1, Option.map_some']
    by_cases h : c.settings.posts = none
    · simp only [h, if_true]; rfl
    · simp only [h, if_false]
      exact congrArg some (rendered_outputs_run_calls so
        (fun f => bm_rule_need_rebuild c.posts_fctx c.settings_fctx none (some f) false)
        _ (fun _ _ => rfl) outputs 0)
  have htags : ∀ t : Option bm_filectx_t,
      (atom_tags_exec (recording_render (status_by_output so))
        (some { c with atom_template_fctx := t }) outputs args []).map rendered_outputs =
      some (if c.settings.posts = none ∨ c.settings.tags = none then (0, [])
        else run_calls so (outputs.filterMap (fun o => o.bind (fun f =>
          if bm_rule_need_rebuild c.posts_fctx c.settings_fctx none (some f) false
          then some (some f) else none))) []) := by
    intro t
    rw [(hexec (status_by_output so) t).2, Option.map_some']
    by_cases h : c.settings.posts = none ∨ c.settings.tags = none
    · simp only [h, if_true]; rfl
    · simp only [h, if_false]
      exact congrArg some (rendered_outputs_run_calls so
        (fun f => bm_rule_need_rebuild c.posts_fctx c.settings_fctx none (some f) false)
        _ (fun _ _ => rfl) outputs 0)
  exact ⟨⟨hatom t1, (hatom t2).trans (hatom t1).symm⟩,
    ⟨htags t1, (htags t2).trans (htags t1).symm⟩⟩

/-- The feed executors on the sample blog, once with its atom template and
once with an atom template that does not exist, and a renderer that always
succeeds: of the two outputs, the one that does not exist yet is rendered and
the newer one is not, in both runs. -/
theorem atom_rules_ignore_template_witness :
    (atom_exec (recording_render (status_by_output (fun _ _ => 0)))
        (some { sample_blog_ctx with atom_template_fctx := some sample_missing_source })
        sample_mixed_outputs none []).map rendered_outputs =
      some (0, [some (sample_filectx_new sample_blog_ctx "_build/x")]) ∧
    (atom_tags_exec (recording_render (status_by_output (fun _ _ => 0)))
        (some { sample_blog_ctx with atom_template_fctx := some sample_missing_source })
        sample_mixed_outputs none []).map rendered_outputs =
      (atom_tags_exec (recording_render (status_by_output (fun _ _ => 0)))
        (some { sample_blog_ctx with atom_template_fctx := some sample_source })
        sample_mixed_outputs none []).map rendered_outputs := by
  obtain ⟨⟨h1, _⟩, ⟨_, h2⟩⟩ := (atom_rules_ignore_template sample_blog_ctx
    (some sample_missing_source) (some sample_source) sample_mixed_outputs none
    [("FILTER_PAGE", "1"), ("FILTER_PER_PAGE", "10"), ("FILTER_REVERSE", "1"),
      ("DATE_FORMAT", "%Y-%m-%dT%H:%M:%SZ"), ("MAKE_RULE", "atom"), ("MAKE_TYPE", "atom")]
    [("FILTER_PAGE", "1"), ("FILTER_PER_PAGE", "10"), ("FILTER_REVERSE", "1"),
      ("DATE_FORMAT", "%Y-%m-%dT%H:%M:%SZ"), ("MAKE_RULE", "atom_tags"),
      ("MAKE_TYPE", "atom")]
    (by decide) (by decide) (by intro tags h; cases h; decide)).2.2 (fun _ _ => 0)
  refine ⟨?_, h2.symm⟩
  rw [h1]
  rfl


/-! ## The tag of each call of the tag rules -/

theorem stale_calls_enumFrom_zip {α β : Type} (stale : bm_filectx_t → Bool)
    (g : bm_filectx_t → Option β → α) (tags : List β) (outputs : bc_slist_t) :
    ∀ i : Nat, i + outputs.length ≤ tags.length →
      stale_calls (fun (_ : Nat) f => stale f) (fun j f => g f tags[j]?)
          (outputs.enumFrom i) =
        (outputs.zip (tags.drop i)).filterMap (fun p => p.1.bind (fun f =>
          if stale f then some (g f (some p.2)) else none)) := by
  induction outputs with
  | nil => intro i _; simp [stale_calls]
  | cons o os ih =>
    intro i hlen
    rw [List.length_cons] at hlen
    have hi : i < tags.length := by omega
    have hget : tags[i]? = some tags[i] := by simp [hi]
    rw [List.drop_eq_getElem_cons hi, List.zip_cons_cons, List.enumFrom_cons]
    cases o with
    | none =>
      rw [stale_calls_cons_none, ih (i + 1) (by omega)]
      simp
    | some f =>
      by_cases h : stale f = true
      · rw [stale_calls_cons_stale (fun (_ : Nat) f => stale f) _ _ _ _ h,
          ih (i + 1) (by omega), hget]
        simp [h]
      · rw [stale_calls_cons_fresh (fun (_ : Nat) f => stale f) _ _ _ _ h,
          ih (i + 1) (by omega)]
        simp [h]

theorem tagged_calls_view (c : bm_ctx_t) (template : Option bm_filectx_t) (tv : bc_trie_t)
    (tags : List String) (outputs : bc_slist_t) (stale : bm_filectx_t → Bool)
    (hcount : bc_trie_count tv "FILTER_TAG" = 0) (hlen : outputs.length ≤ tags.length) :
    (stale_calls (fun (_ : Nat) f => stale f)
        (fun j f => listing_call c template (bc_trie_insert tv "FILTER_TAG" tags[j]?) f)
        (outputs.enumFrom 0)).map tag_call_view =
      (outputs.zip tags).filterMap (fun p => p.1.bind (fun f =>
        if stale f then some (some f, some p.2) else none)) ∧
    (∀ a ∈ stale_calls (fun (_ : Nat) f => stale f)
        (fun j f => listing_call c template (bc_trie_insert tv "FILTER_TAG" tags[j]?) f)
        (outputs.enumFrom 0),
      bc_trie_count a.global_variables "FILTER_TAG" = 1) := by
  constructor
  · rw [stale_calls_map]
    have hfun : (fun (j : Nat) (f : bm_filectx_t) => tag_call_view
        (listing_call c template (bc_trie_insert tv "FILTER_TAG" tags[j]?) f)) =
        (fun j f => (some f, tags[j]?)) := by
      funext j f
      simp only [tag_call_view, listing_call]
      cases ht : tags[j]? with
      | none =>
        have e : bc_trie_insert tv "FILTER_TAG" none = tv := by cases tv <;> rfl
        rw [e, bc_trie_lookup_of_count_zero tv _ hcount]
      | some t => rw [bc_trie_lookup_insert_self]
    rw [hfun]
    have h := stale_calls_enumFrom_zip stale
      (fun f (t : Option String) => (some f, t)) tags outputs 0 (by omega)
    rw [List.drop_zero] at h
    exact h
  · intro a ha
    obtain ⟨j, f, hmem, _, ha⟩ := stale_calls_mem _ _ _ _ ha
    have hj := List.mem_enumFrom hmem
    have hjt : j < tags.length := by omega
    have hget : tags[j]? = some tags[j] := by simp [hjt]
    rw [ha]
    simp only [listing_call, hget]
    exact bc_trie_count_insert_new _ _ _ hcount

/-- C25: for every context with posts and tags declared, every renderer (its
status may depend on the call and on the calls made before) and every output
list that `tags_outputlist` (for `tags_exec`) or `atom_tags_outputlist` (for
`atom_tags_exec`) returns: the list is no longer than the declared tags; the
executor returns, and what it returns is exactly the run, in order and up to
the first call of nonzero status, of the calls due, one for each stale output;
the calls due, seen as pairs of output and value of `FILTER_TAG`, are exactly
the stale outputs paired with the declared tag at the same position; and the
variables of every call due hold exactly one `FILTER_TAG` entry. -/
theorem tag_filter_per_output (bm_filectx_new : bm_ctx_t → String → bm_filectx_t)
    (st : List bm_exec_blogc_args → bm_exec_blogc_args → Int)
    (c : bm_ctx_t) (posts tags : List String) (outputs atom_outputs : bc_slist_t)
    (args : Option bc_trie_t)
    (hposts : c.settings.posts = some posts) (htags : c.settings.tags = some tags)
    (hout : tags_outputlist bm_filectx_new (some c) = some outputs)
    (haout : atom_tags_outputlist bm_filectx_new (some c) = some atom_outputs) :
    (outputs.length ≤ tags.length ∧
      tags_exec (recording_render st) (some c) outputs args [] =
        some (run_calls st (stale_calls
          (fun (_ : Nat) f => bm_rule_need_rebuild c.posts_fctx c.settings_fctx
            c.main_template_fctx (some f) false)
          (fun j f => listing_call c c.main_template_fctx
            (bc_trie_insert ((tags_variables c).getD []) "FILTER_TAG" tags[j]?) f)
          (outputs.enumFrom 0)) []) ∧
      (stale_calls
          (fun (_ : Nat) f => bm_rule_need_rebuild c.posts_fctx c.settings_fctx
            c.main_template_fctx (some f) false)
          (fun j f => listing_call c c.main_template_fctx
            (bc_trie_insert ((tags_variables c).getD []) "FILTER_TAG" tags[j]?) f)
          (outputs.enumFrom 0)).map tag_call_view =
        (outputs.zip tags).filterMap (fun p => p.1.bind (fun f =>
          if bm_rule_need_rebuild c.posts_fctx c.settings_fctx c.main_template_fctx
            (some f) false then some (some f, some p.2) else none)) ∧
      ∀ a ∈ stale_calls
          (fun (_ : Nat) f => bm_rule_need_rebuild c.posts_fctx c.settings_fctx
            c.main_template_fctx (some f) false)
          (fun j f => listing_call c c.main_template_fctx
            (bc_trie_insert ((tags_variables c).getD []) "FILTER_TAG" tags[j]?) f)
          (outputs.enumFrom 0),
        bc_trie_count a.global_variables "FILTER_TAG" = 1) ∧
    (atom_outputs.length ≤ tags.length ∧
      atom_tags_exec (recording_render st) (some c) atom_outputs args [] =
        some (run_calls st (stale_calls
          (fun (_ : Nat) f => bm_rule_need_rebuild c.posts_fctx c.settings_fctx none
            (some f) false)
          (fun j f => listing_call c c.atom_template_fctx
            (bc_trie_insert ((atom_variables c "atom_tags").getD []) "FILTER_TAG"
              tags[j]?) f)
          (atom_outputs.enumFrom 0)) []) ∧
      (stale_calls
          (fun (_ : Nat) f => bm_rule_need_rebuild c.posts_fctx c.settings_fctx none
            (some f) false)
          (fun j f => listing_call c c.atom_template_fctx
            (bc_trie_insert ((atom_variables c "atom_tags").getD []) "FILTER_TAG"
              tags[j]?) f)
          (atom_outputs.enumFrom 0)).map tag_call_view =
        (atom_outputs.zip tags).filterMap (fun p => p.1.bind (fun f =>
          if bm_rule_need_rebuild c.posts_fctx c.settings_fctx none (some f) false
          then some (some f, some p.2) else none)) ∧
      ∀ a ∈ stale_calls
          (fun (_ : Nat) f => bm_rule_need_rebuild c.posts_fctx c.settings_fctx none
            (some f) false)
          (fun j f => listing_call c c.atom_template_fctx
            (bc_trie_insert ((atom_variables c "atom_tags").getD []) "FILTER_TAG"
              tags[j]?) f)
          (atom_outputs.enumFrom 0),
        bc_trie_count a.global_variables "FILTER_TAG" = 1) := by
  constructor
  · obtain ⟨hlen, v, hv⟩ := tags_outputlist_defined bm_filectx_new c posts tags outputs
      hposts htags hout
    obtain ⟨tv, htv⟩ := tags_variables_defined c v hv
    have hexec := tags_exec_enumerated bm_filectx_new st c outputs args hout
    rw [htags] at hexec
    have hview := tagged_calls_view c c.main_template_fctx tv tags outputs
      (fun f => bm_rule_need_rebuild c.posts_fctx c.settings_fctx c.main_template_fctx
        (some f) false) (tags_variables_count c tv htv) hlen
    rw [htv]
    exact ⟨hlen, hexec.trans (by rw [htv]; rfl), hview.1, hview.2⟩
  · obtain ⟨hlen, v, hv⟩ := atom_tags_outputlist_defined bm_filectx_new c posts tags
      atom_outputs hposts htags haout
    obtain ⟨tv, htv⟩ := atom_variables_defined c "atom_tags" v hv
    have hexec := atom_tags_exec_enumerated bm_filectx_new st c atom_outputs args haout
    rw [htags] at hexec
    have hview := tagged_calls_view c c.atom_template_fctx tv tags atom_outputs
      (fun f => bm_rule_need_rebuild c.posts_fctx c.settings_fctx none (some f) false)
      (atom_variables_count c "atom_tags" tv htv) hlen
    rw [htv]
    exact ⟨hlen, hexec.trans (by rw [htv]; rfl), hview.1, hview.2⟩

/-- The tag rules on the sample blog, whose tags are `a` and `b`, with an
output directory that holds the listing of the tag `a` only and a renderer that
always succeeds: `tags_exec` makes one call, for the listing of `b` with the
tag `b`, and `atom_tags_exec` makes two, for the feed of `a` with the tag `a`
and then for the feed of `b` with the tag `b`. -/
theorem tag_filter_per_output_witness :
    (tags_exec (recording_render (fun _ _ => 0)) (some sample_full_ctx)
        ((tags_outputlist sample_filectx_built (some sample_full_ctx)).getD [])
        none []).map (fun r => (r.1, r.2.map tag_call_view)) =
      some (0, [(some (sample_filectx_built sample_full_ctx "_build/tag/b/index.html"),
        some "b")]) ∧
    (atom_tags_exec (recording_render (fun _ _ => 0)) (some sample_full_ctx)
        ((atom_tags_outputlist sample_filectx_built (some sample_full_ctx)).getD [])
        none []).map (fun r => (r.1, r.2.map tag_call_view)) =
      some (0, [(some (sample_filectx_built sample_full_ctx "_build/atom/a.xml"), some "a"),
        (some (sample_filectx_built sample_full_ctx "_build/atom/b.xml"), some "b")]) := by
  obtain ⟨⟨_, h1, _, _⟩, ⟨_, h2, _, _⟩⟩ := tag_filter_per_output sample_filectx_built
    (fun _ _ => 0) sample_full_ctx ["hello"] ["a", "b"]
    ((tags_outputlist sample_filectx_built (some sample_full_ctx)).getD [])
    ((atom_tags_outputlist sample_filectx_built (some sample_full_ctx)).getD [])
    none rfl rfl rfl rfl
  rw [h1, h2]
  exact ⟨rfl, rfl⟩

end BlogcMake
